import Mathlib

/-! # TermiPlay: the 2048 and Minesweeper engines

A shallow embedding of `game/game2048.go` and `game/minesweeper.go`, and the
properties of the two engines proved over it.

Modelling conventions.
* Go's `int` is modelled by `Int`. The arithmetic of the slide routines, which
  double tile values and add them to the score, wraps around as an `int` of 64
  bits does (`wrapInt`); a cell or score of an engine state is any `Int`, and
  the states of the program are those within the range of `int`. The counters
  and coordinates of the Minesweeper engine are bounded by the size of the
  board in every state the program reaches, and their arithmetic is that of
  `Int`.
* The array `[4][4]int` is a function `Fin 4 → Fin 4 → Int`, indexed row first
  (`Grid[y][x]` is `Grid y x`).
* A `for` loop over `0..3` is a left fold over the list of indices in the order
  the loop visits them; the statements of the body are the step function.
* The random source is replaced by the values it returns (`Draw`).
-/

set_option autoImplicit false

namespace TermiPlay

/-! ## The 2048 engine: data -/

/-- The struct `Game2048`. -/
structure Game2048 where
  Grid : Fin 4 → Fin 4 → Int
  Score : Int
  GameOver : Bool
  Won : Bool

/-- Loop order of `for i := 0; i < 4; i++`. -/
def idxUp : List (Fin 4) := [0, 1, 2, 3]

/-- Loop order of `for i := 3; i >= 0; i--`. -/
def idxDown : List (Fin 4) := [3, 2, 1, 0]

/-- The assignment `Grid[y][x] = v`. -/
def setCell (G : Fin 4 → Fin 4 → Int) (y x : Fin 4) (v : Int) : Fin 4 → Fin 4 → Int :=
  fun y' x' => if y' = y ∧ x' = x then v else G y' x'

/-- The value an `int` of 64 bits holds after an operation whose exact result
is `v`: the representative of `v` modulo `2 ^ 64` between `-2 ^ 63` and
`2 ^ 63 - 1`. -/
def wrapInt (v : Int) : Int :=
  (v + 9223372036854775808) % 18446744073709551616 - 9223372036854775808

/-- The variables a slide routine mutates while it works on one line: the
engine itself, the slice `merged` and the local `changed`. -/
structure SlideState where
  g : Game2048
  merged : List Int
  changed : Bool

/-- The merge loop `for i := 0; i < len(row); i++ { ... }`, which is textually
the same in the four slide routines. The first argument bounds the number of
iterations (the loop runs at most `len(row)` times), the second is `i`. The
product `row[i]*2` and the sum `g.Score += row[i] * 2` are computed in `int`. -/
def mergeLoop (row : List Int) : Nat → Nat → SlideState → SlideState
  | 0, _, st => st
  | fuel + 1, i, st =>
    if i < row.length then
      if i < row.length - 1 ∧ row.getD i 0 = row.getD (i + 1) 0 then
        mergeLoop row fuel (i + 1 + 1)
          { g := { st.g with
                    Score := wrapInt (st.g.Score + wrapInt (row.getD i 0 * 2)),
                    Won := if wrapInt (row.getD i 0 * 2) = 2048 ∧ st.g.Won = false then true
                           else st.g.Won },
            merged := st.merged ++ [wrapInt (row.getD i 0 * 2)],
            changed := true }
      else
        mergeLoop row fuel (i + 1) { st with merged := st.merged ++ [row.getD i 0] }
    else st

/-- One step of the write-back loop of `moveLeft` and `moveUp`, for the cell
`(y, x)` that receives `merged[k]`. -/
def writeCell (merged : List Int) (y x : Fin 4) (k : Nat) (s : Game2048 × Bool) :
    Game2048 × Bool :=
  if k < merged.length then
    ({ s.1 with Grid := setCell s.1.Grid y x (merged.getD k 0) },
      if s.1.Grid y x ≠ merged.getD k 0 then true else s.2)
  else
    ({ s.1 with Grid := setCell s.1.Grid y x 0 },
      if s.1.Grid y x ≠ 0 then true else s.2)

/-- Body of the outer loop of `moveLeft` for the row `y`. -/
def moveLeftRow (s : Game2048 × Bool) (y : Fin 4) : Game2048 × Bool :=
  let row := idxUp.foldl
    (fun row x => if s.1.Grid y x ≠ 0 then row ++ [s.1.Grid y x] else row) []
  let m := mergeLoop row row.length 0 { g := s.1, merged := [], changed := s.2 }
  idxUp.foldl (fun t x => writeCell m.merged y x x.val t) (m.g, m.changed)

/-- The method `moveLeft`: the engine afterwards and the returned flag. -/
def moveLeft (g : Game2048) : Game2048 × Bool :=
  idxUp.foldl moveLeftRow (g, false)

/-- Body of the outer loop of `moveRight` for the row `y`. -/
def moveRightRow (s : Game2048 × Bool) (y : Fin 4) : Game2048 × Bool :=
  let row := idxDown.foldl
    (fun row x => if s.1.Grid y x ≠ 0 then row ++ [s.1.Grid y x] else row) []
  let m := mergeLoop row row.length 0 { g := s.1, merged := [], changed := s.2 }
  idxDown.foldl (fun t x => writeCell m.merged y x (3 - x.val) t) (m.g, m.changed)

/-- The method `moveRight`. -/
def moveRight (g : Game2048) : Game2048 × Bool :=
  idxUp.foldl moveRightRow (g, false)

/-- Body of the outer loop of `moveUp` for the column `x`. -/
def moveUpCol (s : Game2048 × Bool) (x : Fin 4) : Game2048 × Bool :=
  let col := idxUp.foldl
    (fun col y => if s.1.Grid y x ≠ 0 then col ++ [s.1.Grid y x] else col) []
  let m := mergeLoop col col.length 0 { g := s.1, merged := [], changed := s.2 }
  idxUp.foldl (fun t y => writeCell m.merged y x y.val t) (m.g, m.changed)

/-- The method `moveUp`. -/
def moveUp (g : Game2048) : Game2048 × Bool :=
  idxUp.foldl moveUpCol (g, false)

/-- Body of the outer loop of `moveDown` for the column `x`. -/
def moveDownCol (s : Game2048 × Bool) (x : Fin 4) : Game2048 × Bool :=
  let col := idxDown.foldl
    (fun col y => if s.1.Grid y x ≠ 0 then col ++ [s.1.Grid y x] else col) []
  let m := mergeLoop col col.length 0 { g := s.1, merged := [], changed := s.2 }
  idxDown.foldl (fun t y => writeCell m.merged y x (3 - y.val) t) (m.g, m.changed)

/-- The method `moveDown`. -/
def moveDown (g : Game2048) : Game2048 × Bool :=
  idxUp.foldl moveDownCol (g, false)

/-- What the random source returns during one call of `addRandomTile`:
`intn` stands for the value behind `rng.Intn(len(empty))` (reduced modulo the
bound, so that every index below the bound can be drawn), `isTwo` for the
outcome of `rng.Float32() < 0.9`. -/
structure Draw where
  intn : Nat
  isTwo : Bool

/-- The slice `empty` built by `addRandomTile`: the coordinates `(y, x)` of
the empty cells in row-major order. -/
def emptyCells (G : Fin 4 → Fin 4 → Int) : List (Fin 4 × Fin 4) :=
  idxUp.foldl (fun acc y =>
    idxUp.foldl (fun acc x => if G y x = 0 then acc ++ [(y, x)] else acc) acc) []

/-- The method `addRandomTile`. -/
def addRandomTile (g : Game2048) (d : Draw) : Game2048 :=
  let empty := emptyCells g.Grid
  if empty.length = 0 then g
  else
    let pos := empty.getD (d.intn % empty.length) (0, 0)
    if d.isTwo then { g with Grid := setCell g.Grid pos.1 pos.2 2 }
    else { g with Grid := setCell g.Grid pos.1 pos.2 4 }

/-- First loop nest of `checkGameState`: is there an empty cell? -/
def hasEmptyCell (G : Fin 4 → Fin 4 → Int) : Bool :=
  idxUp.any fun y => idxUp.any fun x => decide (G y x = 0)

/-- Second loop nest of `checkGameState`: is some cell equal to the cell
directly below it or directly right of it? -/
def hasEqualNeighbour (G : Fin 4 → Fin 4 → Int) : Bool :=
  idxUp.any fun y => idxUp.any fun x =>
    decide (y.val < 3 ∧ G (y + 1) x = G y x) || decide (x.val < 3 ∧ G y (x + 1) = G y x)

/-- The method `checkGameState`: each `return` inside the loops leaves the
engine as it is, falling through sets `GameOver`. -/
def checkGameState (g : Game2048) : Game2048 :=
  if hasEmptyCell g.Grid then g
  else if hasEqualNeighbour g.Grid then g
  else { g with GameOver := true }

/-- The slide selected by the `switch` of `Move`; the default is the initial
`changed := false` with the engine untouched. -/
def slide (g : Game2048) (direction : String) : Game2048 × Bool :=
  if direction = "up" then moveUp g
  else if direction = "down" then moveDown g
  else if direction = "left" then moveLeft g
  else if direction = "right" then moveRight g
  else (g, false)

/-- The method `Move`. -/
def Move (g : Game2048) (direction : String) (d : Draw) : Game2048 × Bool :=
  let r := slide g direction
  if r.2 then (checkGameState (addRandomTile r.1 d), r.2) else (r.1, r.2)

/-! ## The 2048 engine: the slide of one line, as the specification words it -/

/-- Step 1 of the specification: the non-empty values of a line, in order. -/
def compact (l : List Int) : List Int := l.filter fun v => decide (v ≠ 0)

/-- Step 2 of the specification: scan from the front, an adjacent equal pair
becomes its sum and the scan continues behind the pair. -/
def specMergePairs : List Int → List Int
  | a :: b :: rest =>
    if a = b then (a + b) :: specMergePairs rest else a :: specMergePairs (b :: rest)
  | l => l

/-- The merged values that step 2 of the specification produces, in order. -/
def specMergeGains : List Int → List Int
  | a :: b :: rest => if a = b then (a + b) :: specMergeGains rest else specMergeGains (b :: rest)
  | _ => []

/-- Steps 1 to 3 of the specification for a line given in travel order:
compact, merge, pad with zeros to length 4. -/
def specSlideLine (line : Fin 4 → Int) : Fin 4 → Int :=
  fun i => (specMergePairs (compact [line 0, line 1, line 2, line 3])).getD i.val 0

/-- The values of a line as a list, in travel order. -/
def lineList (line : Fin 4 → Int) : List Int := [line 0, line 1, line 2, line 3]

/-- Sum of the merged values that the slide of one line produces, as the
specification counts it. -/
def specLineGain (line : Fin 4 → Int) : Int := (specMergeGains (compact (lineList line))).sum

/-- Does the slide of the line produce the value 2048 by a merge, as the
specification counts it? -/
def specLineWins (line : Fin 4 → Int) : Bool :=
  decide ((2048 : Int) ∈ specMergeGains (compact (lineList line)))

/-! ## The 2048 engine: the slide of one line, as the code computes it -/

/-- The merge scan with the sum of a pair computed as the code computes it, in
the arithmetic of `int`. -/
def mergePairs : List Int → List Int
  | a :: b :: rest =>
    if a = b then wrapInt (a + b) :: mergePairs rest else a :: mergePairs (b :: rest)
  | l => l

/-- The merged values the merge scan produces, in order. -/
def mergeGains : List Int → List Int
  | a :: b :: rest => if a = b then wrapInt (a + b) :: mergeGains rest else mergeGains (b :: rest)
  | _ => []

/-- The line the code leaves for a line given in travel order: compact, merge,
pad with zeros to length 4. -/
def slideLine (line : Fin 4 → Int) : Fin 4 → Int :=
  fun i => (mergePairs (compact [line 0, line 1, line 2, line 3])).getD i.val 0

/-- The merged values that the slide of one line produces, in order. -/
def lineGains (line : Fin 4 → Int) : List Int := mergeGains (compact (lineList line))

/-- The statements `g.Score += v` for the values `v` of a list, in order. -/
def addGains (score : Int) (gains : List Int) : Int :=
  gains.foldl (fun s v => wrapInt (s + v)) score

/-- Does the slide of the line produce the value 2048 by a merge? -/
def lineWins (line : Fin 4 → Int) : Bool :=
  decide ((2048 : Int) ∈ mergeGains (compact (lineList line)))

/-- Does the slide of the line merge at least one pair? -/
def lineMerges (line : Fin 4 → Int) : Bool :=
  !(mergeGains (compact (lineList line))).isEmpty

/-- Closed form of one iteration of an outer slide loop: the line read, the
grid written, and the effect on score, flags and the change flag. -/
def lineStep (line : Fin 4 → Int) (G' : Fin 4 → Fin 4 → Int) (s : Game2048 × Bool) :
    Game2048 × Bool :=
  ({ Grid := G', Score := addGains s.1.Score (lineGains line), GameOver := s.1.GameOver,
     Won := s.1.Won || lineWins line },
    s.2 || lineMerges line || decide (line ≠ slideLine line))

/-- Does the slide change the line, as the routine detects it: a merge
happened, or a cell written differs from the cell it replaces. -/
def lineChanged (line : Fin 4 → Int) : Bool :=
  lineMerges line || decide (line ≠ slideLine line)

/-- Closed form of a whole slide routine, for the four lines `L 0 .. L 3` it
reads and the grid `G'` it leaves. -/
def slideSpec (L : Fin 4 → Fin 4 → Int) (G' : Fin 4 → Fin 4 → Int) (g : Game2048) :
    Game2048 × Bool :=
  ({ Grid := G',
     Score := addGains g.Score
       (lineGains (L 0) ++ lineGains (L 1) ++ lineGains (L 2) ++ lineGains (L 3)),
     GameOver := g.GameOver,
     Won := g.Won || (lineWins (L 0) || lineWins (L 1) || lineWins (L 2) || lineWins (L 3)) },
    lineChanged (L 0) || lineChanged (L 1) || lineChanged (L 2) || lineChanged (L 3))

/-- The merged line `mergePairs (compact ...)` of a line. -/
def mergedLine (line : Fin 4 → Int) : List Int := mergePairs (compact (lineList line))

/-- The lines a move works on, each in travel order (the first entry is the
cell the tiles move towards); no lines for an unrecognised direction. -/
def linesOf (G : Fin 4 → Fin 4 → Int) (direction : String) : List (Fin 4 → Int) :=
  if direction = "up" then idxUp.map fun x k => G k x
  else if direction = "down" then idxUp.map fun x k => G (Fin.rev k) x
  else if direction = "left" then idxUp.map fun y k => G y k
  else if direction = "right" then idxUp.map fun y k => G y (Fin.rev k)
  else []

/-- Sum of the merged values produced by a move, as the specification defines
it: over the lines of the move, the sum of the values its merges produce. -/
def specMoveGain (G : Fin 4 → Fin 4 → Int) (direction : String) : Int :=
  ((linesOf G direction).map specLineGain).sum

/-- The merged values a move produces, in the order in which the code adds them
to `Score`. -/
def moveGains (G : Fin 4 → Fin 4 → Int) (direction : String) : List Int :=
  ((linesOf G direction).map lineGains).flatten

/-- A power of two. -/
def IsPow2 (v : Int) : Prop := ∃ k : Nat, v = 2 ^ k

/-- A grid whose cells are 0 or powers of two. -/
def TileGrid (G : Fin 4 → Fin 4 → Int) : Prop := ∀ y x, G y x = 0 ∨ IsPow2 (G y x)

/-- Number of non-empty cells of a grid. -/
def tileCount (G : Fin 4 → Fin 4 → Int) : Nat :=
  (Finset.univ.filter fun p : Fin 4 × Fin 4 => G p.1 p.2 ≠ 0).card

/-- None of the four slide routines would change the grid of the engine. -/
def Stuck (g : Game2048) : Prop :=
  (moveUp g).1.Grid = g.Grid ∧ (moveDown g).1.Grid = g.Grid ∧
  (moveLeft g).1.Grid = g.Grid ∧ (moveRight g).1.Grid = g.Grid

/-- A grid with the rows `[2,2,4,0]` and `[2,2,2,2]` of the specification's examples. -/
def exampleGrid : Fin 4 → Fin 4 → Int :=
  ![![2, 2, 4, 0], ![2, 2, 2, 2], ![0, 0, 0, 0], ![0, 0, 0, 0]]

/-- A full grid without equal neighbours, but for the two 2s on the left of the first row. -/
def lastMoveGrid : Fin 4 → Fin 4 → Int :=
  ![![2, 2, 8, 16], ![8, 16, 32, 64], ![2, 4, 8, 16], ![32, 64, 128, 256]]

/-- A full grid on which no move is possible. -/
def stuckGrid : Fin 4 → Fin 4 → Int :=
  ![![2, 4, 8, 16], ![8, 16, 32, 64], ![2, 4, 8, 16], ![32, 64, 128, 256]]

/-- The function `NewGame2048`, for the values the random source returns to the
two calls of `addRandomTile`. -/
def NewGame2048 (d1 d2 : Draw) : Game2048 :=
  addRandomTile
    (addRandomTile { Grid := fun _ _ => 0, Score := 0, GameOver := false, Won := false } d1) d2

/-- The method `Reset`: the four assignments, then the two calls of `addRandomTile`. -/
def Reset (g : Game2048) (d1 d2 : Draw) : Game2048 :=
  addRandomTile
    (addRandomTile { g with Grid := fun _ _ => 0, Score := 0, GameOver := false, Won := false }
      d1) d2

/-- The states reachable from `NewGame2048` by `Move` and `Reset` calls. -/
inductive Reachable2048 : Game2048 → Prop where
  | new (d1 d2 : Draw) : Reachable2048 (NewGame2048 d1 d2)
  | move (g : Game2048) (direction : String) (d : Draw) :
      Reachable2048 g → Reachable2048 (Move g direction d).1
  | reset (g : Game2048) (d1 d2 : Draw) : Reachable2048 g → Reachable2048 (Reset g d1 d2)

/-- A power of two that is at least 2. -/
def IsTile (v : Int) : Prop := ∃ k : Nat, 1 ≤ k ∧ v = 2 ^ k

/-- Does some merge of the move produce the value 2048? -/
def moveWins (G : Fin 4 → Fin 4 → Int) (direction : String) : Bool :=
  (linesOf G direction).any lineWins

/-- Does some merge of the move produce the value 2048, as the specification
counts it? -/
def specMoveWins (G : Fin 4 → Fin 4 → Int) (direction : String) : Bool :=
  (linesOf G direction).any specLineWins

/-- A grid on which moving left merges two 1024 tiles. -/
def winningGrid : Fin 4 → Fin 4 → Int :=
  ![![1024, 1024, 0, 0], ![0, 0, 0, 0], ![0, 0, 0, 0], ![0, 0, 0, 0]]

/-- A game that was started, moved right, reset, moved up and moved left. -/
def sampleGame : Game2048 :=
  (Move (Move (Reset (Move (NewGame2048 ⟨0, true⟩ ⟨0, false⟩) "right" ⟨3, true⟩).1
    ⟨5, false⟩ ⟨7, false⟩) "up" ⟨2, true⟩).1 "left" ⟨0, true⟩).1

/-- The grid read from right to left: column `x` of the result is column
`3 - x` of the argument. -/
def mirrorGrid (G : Fin 4 → Fin 4 → Int) : Fin 4 → Fin 4 → Int :=
  fun y x => G y (Fin.rev x)

/-- The grid with rows and columns exchanged. -/
def transposeGrid (G : Fin 4 → Fin 4 → Int) : Fin 4 → Fin 4 → Int :=
  fun y x => G x y

/-- The engine with its grid mirrored horizontally; the other fields stay. -/
def mirror (g : Game2048) : Game2048 :=
  { g with Grid := mirrorGrid g.Grid }

/-- The engine with its grid transposed; the other fields stay. -/
def transpose (g : Game2048) : Game2048 :=
  { g with Grid := transposeGrid g.Grid }

/-- A finished game: the checkerboard of 2s and 4s, reached from a new game by
fourteen moves none of which merges anything. -/
def lostGame : Game2048 :=
  ⟨![![4, 2, 4, 2], ![2, 4, 2, 4], ![4, 2, 4, 2], ![2, 4, 2, 4]], 0, true, false⟩

/-- Number of values of a list that are at least `2 ^ t`. -/
def countGe (t : Nat) (l : List Int) : Nat := l.countP fun v => decide ((2 : Int) ^ t ≤ v)

/-- The sixteen cells of a grid, row by row. -/
def cellList (G : Fin 4 → Fin 4 → Int) : List Int :=
  lineList (G 0) ++ lineList (G 1) ++ lineList (G 2) ++ lineList (G 3)

/-- Tiles that can stand on the board together: at most sixteen powers of two
that are at least 2, of which at most `18 - t` are `2 ^ t` or more, for every
`t` from 3 on. Two tiles `2 ^ k` merge into one tile `2 ^ (k + 1)`, and a new
tile is 2 or 4, so a tile `2 ^ t` needs `t - 2` tiles beside it while it is
built; in particular no tile exceeds `2 ^ 17`. -/
structure Fits (l : List Int) : Prop where
  tiles : ∀ v ∈ l, IsTile v
  length : l.length ≤ 16
  room : ∀ t, 3 ≤ t → countGe t l ≤ 18 - t

/-- A grid of empty cells and tiles that can stand on the board together. -/
structure TileBound (G : Fin 4 → Fin 4 → Int) : Prop where
  tiles : ∀ y x, G y x = 0 ∨ IsTile (G y x)
  room : ∀ t, 3 ≤ t → countGe t (cellList G) ≤ 18 - t

/-- A grid of tiles on which moving left merges two tiles `2 ^ 62`. -/
def overflowGrid : Fin 4 → Fin 4 → Int :=
  ![![4611686018427387904, 4611686018427387904, 0, 0], ![0, 0, 0, 0], ![0, 0, 0, 0],
    ![0, 0, 0, 0]]

/-- A grid on which moving up merges two cells `1024 - 2 ^ 63`, whose double
is 2048 in the arithmetic of `int`. -/
def wrapWinGrid : Fin 4 → Fin 4 → Int :=
  ![![-9223372036854774784, 0, 0, 0], ![-9223372036854774784, 0, 0, 0], ![0, 0, 0, 0],
    ![0, 0, 0, 0]]

/-! ## The Minesweeper engine: data

The slice of slices `[][]Cell` is a list of rows, `Grid[y][x]` is `cellAt Grid x y`.
Coordinates and the struct's `int` fields are `Int`, as the bounds checks of the
engine compare them with `0`. The field `StartTime` and `GetElapsedTime`, which
read the clock and touch nothing else, are left out. -/

/-- The type `CellState` with its three constants. -/
inductive CellState where
  | CellHidden
  | CellRevealed
  | CellFlagged
  deriving DecidableEq

/-- The struct `Cell`. -/
structure Cell where
  IsMine : Bool
  State : CellState
  Adjacent : Int
  deriving DecidableEq

/-- The struct `Minesweeper` (without `StartTime`). -/
structure Minesweeper where
  Grid : List (List Cell)
  Width : Int
  Height : Int
  MineCount : Int
  Flags : Int
  Revealed : Int
  GameOver : Bool
  Won : Bool
  deriving DecidableEq

/-- The zero value of `Cell`, which `make` fills a fresh grid with. -/
def zeroCell : Cell := { IsMine := false, State := CellState.CellHidden, Adjacent := 0 }

/-- The read `Grid[y][x]`. On a well-formed grid every read the engine makes is
within the slices; outside the slices, where Go panics, the read gives the zero
cell. -/
def cellAt (G : List (List Cell)) (x y : Int) : Cell :=
  (G.getD y.toNat []).getD x.toNat zeroCell

/-- The write `Grid[y][x] = c`; outside the slices, where Go panics, the grid
stays as it is. -/
def setCellAt (G : List (List Cell)) (x y : Int) (c : Cell) : List (List Cell) :=
  G.set y.toNat ((G.getD y.toNat []).set x.toNat c)

/-- The shape a grid has for the engine's lifetime: `Height` rows of `Width` cells. -/
def WellFormed (ms : Minesweeper) : Prop :=
  (ms.Grid.length : Int) = ms.Height ∧ ∀ row ∈ ms.Grid, (row.length : Int) = ms.Width

instance (ms : Minesweeper) : Decidable (WellFormed ms) := by
  unfold WellFormed
  infer_instance

/-- The negation of the bounds check `x < 0 || x >= Width || y < 0 || y >= Height`. -/
def InRange (ms : Minesweeper) (x y : Int) : Prop :=
  ¬ (x < 0 ∨ x ≥ ms.Width ∨ y < 0 ∨ y ≥ ms.Height)

instance (ms : Minesweeper) (x y : Int) : Decidable (InRange ms x y) := by
  unfold InRange
  infer_instance

/-- The values `-1, 0, 1` of `dx` and of `dy` in the neighbour loops. -/
def offsets : List Int := [-1, 0, 1]

/-- The method `revealCell`. The first argument bounds the depth of the
recursion; `none` means the bound was reached. `revealCell_total` shows that
one more than the number of hidden cells is always enough. -/
def revealCell : Nat → Minesweeper → Int → Int → Option Minesweeper
  | 0, _, _, _ => none
  | fuel + 1, ms, x, y =>
    if x < 0 ∨ x ≥ ms.Width ∨ y < 0 ∨ y ≥ ms.Height then some ms
    else if (cellAt ms.Grid x y).State = CellState.CellRevealed ∨
        (cellAt ms.Grid x y).State = CellState.CellFlagged then some ms
    else
      let ms1 : Minesweeper :=
        { ms with
          Grid := setCellAt ms.Grid x y
            { cellAt ms.Grid x y with State := CellState.CellRevealed },
          Revealed := ms.Revealed + 1 }
      if (cellAt ms.Grid x y).Adjacent = 0 then
        offsets.foldl (fun acc dy =>
          offsets.foldl (fun acc dx =>
            if dx = 0 ∧ dy = 0 then acc
            else acc.bind fun s => revealCell fuel s (x + dx) (y + dy)) acc) (some ms1)
      else some ms1

/-- Number of cells of a grid in the given state. -/
def countState (G : List (List Cell)) (st : CellState) : Nat :=
  (G.map fun row => row.countP fun c => decide (c.State = st)).sum

/-- The method `checkWin`. -/
def checkWin (ms : Minesweeper) : Minesweeper :=
  if ms.Revealed = ms.Width * ms.Height - ms.MineCount then
    { ms with Won := true, GameOver := true }
  else ms

/-- The method `Reveal`: the engine afterwards and the returned flag. The
recursion of `revealCell` is given one more level than there are hidden cells,
which is enough on every well-formed board (`Reveal_safe`), so that the case
`none` is not taken there. -/
def Reveal (ms : Minesweeper) (x y : Int) : Minesweeper × Bool :=
  if x < 0 ∨ x ≥ ms.Width ∨ y < 0 ∨ y ≥ ms.Height then (ms, false)
  else if (cellAt ms.Grid x y).State = CellState.CellRevealed ∨
      (cellAt ms.Grid x y).State = CellState.CellFlagged then (ms, false)
  else if (cellAt ms.Grid x y).IsMine then ({ ms with GameOver := true }, true)
  else
    match revealCell (countState ms.Grid CellState.CellHidden + 1) ms x y with
    | some s => (checkWin s, true)
    | none => (ms, true)

/-- The method `ToggleFlag`. -/
def ToggleFlag (ms : Minesweeper) (x y : Int) : Minesweeper :=
  if x < 0 ∨ x ≥ ms.Width ∨ y < 0 ∨ y ≥ ms.Height then ms
  else if (cellAt ms.Grid x y).State = CellState.CellRevealed then ms
  else if (cellAt ms.Grid x y).State = CellState.CellFlagged then
    { ms with
      Grid := setCellAt ms.Grid x y { cellAt ms.Grid x y with State := CellState.CellHidden },
      Flags := ms.Flags - 1 }
  else
    { ms with
      Grid := setCellAt ms.Grid x y { cellAt ms.Grid x y with State := CellState.CellFlagged },
      Flags := ms.Flags + 1 }

/-- The loop of `placeMines`. `placed` is `minesPlaced`; each element of `draws`
holds the values behind one `rand.Intn(Width)`, `rand.Intn(Height)` pair,
reduced modulo the bound. `none` means the draws ran out while the loop was
still running. -/
def placeMines (ms : Minesweeper) (placed : Int) : List (Nat × Nat) → Option Minesweeper
  | [] => if placed < ms.MineCount then none else some ms
  | d :: rest =>
    if placed < ms.MineCount then
      let x : Int := (d.1 : Int) % ms.Width
      let y : Int := (d.2 : Int) % ms.Height
      if (cellAt ms.Grid x y).IsMine = false then
        placeMines
          { ms with Grid := setCellAt ms.Grid x y { cellAt ms.Grid x y with IsMine := true } }
          (placed + 1) rest
      else placeMines ms placed rest
    else some ms

/-- The counting loops of `calculateAdjacent` for the cell `(x, y)`. -/
def countAdjacent (ms : Minesweeper) (x y : Int) : Int :=
  offsets.foldl (fun count dy =>
    offsets.foldl (fun count dx =>
      if dx = 0 ∧ dy = 0 then count
      else if x + dx ≥ 0 ∧ x + dx < ms.Width ∧ y + dy ≥ 0 ∧ y + dy < ms.Height then
        if (cellAt ms.Grid (x + dx) (y + dy)).IsMine then count + 1 else count
      else count) count) 0

/-- The method `calculateAdjacent`. -/
def calculateAdjacent (ms : Minesweeper) : Minesweeper :=
  (List.range ms.Height.toNat).foldl (fun ms (y : Nat) =>
    (List.range ms.Width.toNat).foldl (fun ms (x : Nat) =>
      if (cellAt ms.Grid x y).IsMine then ms
      else
        { ms with
          Grid := setCellAt ms.Grid x y
            { cellAt ms.Grid x y with Adjacent := countAdjacent ms x y } }) ms) ms

/-- The `switch` of `NewMinesweeper` on the difficulty (`Easy = 0`,
`Medium = 1`, `Hard = 2`): width, height and mine count. -/
def preset (difficulty : Int) : Int × Int × Int :=
  if difficulty = 0 then (9, 9, 10)
  else if difficulty = 1 then (16, 16, 40)
  else if difficulty = 2 then (30, 16, 99)
  else (9, 9, 10)

/-- The engine `NewMinesweeper` builds before it places the mines. -/
def emptyBoard (width height mineCount : Int) : Minesweeper :=
  { Grid := List.replicate height.toNat (List.replicate width.toNat zeroCell),
    Width := width, Height := height, MineCount := mineCount,
    Flags := 0, Revealed := 0, GameOver := false, Won := false }

/-- The function `NewMinesweeper`, for the values the random source returns. -/
def NewMinesweeper (difficulty : Int) (draws : List (Nat × Nat)) : Option Minesweeper :=
  let p := preset difficulty
  (placeMines (emptyBoard p.1 p.2.1 p.2.2) 0 draws).map calculateAdjacent

/-- A call the presentation layer can make on the engine. -/
inductive Call where
  | reveal (x y : Int)
  | toggleFlag (x y : Int)

/-- The engine after a call. -/
def applyCall (ms : Minesweeper) : Call → Minesweeper
  | Call.reveal x y => (Reveal ms x y).1
  | Call.toggleFlag x y => ToggleFlag ms x y

/-- The states reachable from `NewMinesweeper` by `Reveal` and `ToggleFlag` calls. -/
inductive Reachable : Minesweeper → Prop where
  | init (difficulty : Int) (draws : List (Nat × Nat)) (ms : Minesweeper) :
      NewMinesweeper difficulty draws = some ms → Reachable ms
  | call (ms : Minesweeper) (c : Call) : Reachable ms → Reachable (applyCall ms c)

/-- Moore adjacency: `q` is one of the up to eight cells around `p`. -/
def Adj (p q : Int × Int) : Prop :=
  q ≠ p ∧ (q.1 - p.1 = -1 ∨ q.1 - p.1 = 0 ∨ q.1 - p.1 = 1) ∧
    (q.2 - p.2 = -1 ∨ q.2 - p.2 = 0 ∨ q.2 - p.2 = 1)

instance (p q : Int × Int) : Decidable (Adj p q) := by
  unfold Adj
  infer_instance

/-- The cell `c` is reachable from `p` by a path of Moore-adjacent in-bounds
hidden cells in which every cell except the last has `Adjacent = 0`. -/
inductive FloodPath (ms : Minesweeper) : Int × Int → Int × Int → Prop where
  | last (p : Int × Int) :
      InRange ms p.1 p.2 → (cellAt ms.Grid p.1 p.2).State = CellState.CellHidden →
      FloodPath ms p p
  | step (p q c : Int × Int) :
      InRange ms p.1 p.2 → (cellAt ms.Grid p.1 p.2).State = CellState.CellHidden →
      (cellAt ms.Grid p.1 p.2).Adjacent = 0 → Adj p q → FloodPath ms q c →
      FloodPath ms p c

/-- A 3x3 board with a single mine at `(2, 2)` and the adjacency counts
`calculateAdjacent` gives it. -/
def board3 : Minesweeper :=
  { Grid := [[⟨false, .CellHidden, 0⟩, ⟨false, .CellHidden, 0⟩, ⟨false, .CellHidden, 0⟩],
             [⟨false, .CellHidden, 0⟩, ⟨false, .CellHidden, 1⟩, ⟨false, .CellHidden, 1⟩],
             [⟨false, .CellHidden, 0⟩, ⟨false, .CellHidden, 1⟩, ⟨true, .CellHidden, 0⟩]],
    Width := 3, Height := 3, MineCount := 1,
    Flags := 0, Revealed := 0, GameOver := false, Won := false }

/-- The eight coordinates `revealCell` calls itself on, in the order of its loops. -/
def neighbours (x y : Int) : List (Int × Int) :=
  [(x + -1, y + -1), (x + 0, y + -1), (x + 1, y + -1),
   (x + -1, y + 0), (x + 1, y + 0),
   (x + -1, y + 1), (x + 0, y + 1), (x + 1, y + 1)]

/-- How the engine can differ before and after a flood fill (or a part of
one): the shape, the other fields, the mines and the adjacency counts stay,
cells only go from hidden to revealed, and the counter `Revealed` moves with
the number of revealed cells. -/
structure Grows (s s' : Minesweeper) : Prop where
  wf : WellFormed s'
  width : s'.Width = s.Width
  height : s'.Height = s.Height
  mineCount : s'.MineCount = s.MineCount
  flags : s'.Flags = s.Flags
  gameOver : s'.GameOver = s.GameOver
  won : s'.Won = s.Won
  cells : ∀ x y, InRange s x y →
    cellAt s'.Grid x y = cellAt s.Grid x y ∨
    ((cellAt s.Grid x y).State = CellState.CellHidden ∧
      cellAt s'.Grid x y = { cellAt s.Grid x y with State := CellState.CellRevealed })
  counter : s'.Revealed + (countState s.Grid CellState.CellRevealed : Int)
    = s.Revealed + (countState s'.Grid CellState.CellRevealed : Int)
  hidden : countState s'.Grid CellState.CellHidden ≤ countState s.Grid CellState.CellHidden

/-- What a flood fill started at the cells `starts` achieves. -/
structure FillSpec (s : Minesweeper) (starts : List (Int × Int)) (s' : Minesweeper) : Prop where
  grows : Grows s s'
  starts_done : ∀ p ∈ starts, InRange s p.1 p.2 →
    (cellAt s'.Grid p.1 p.2).State ≠ CellState.CellHidden
  closed : ∀ x y, InRange s x y → (cellAt s.Grid x y).State = CellState.CellHidden →
    (cellAt s'.Grid x y).State = CellState.CellRevealed → (cellAt s.Grid x y).Adjacent = 0 →
    ∀ q, Adj (x, y) q → InRange s q.1 q.2 →
      (cellAt s'.Grid q.1 q.2).State ≠ CellState.CellHidden
  sound : ∀ x y, InRange s x y → (cellAt s.Grid x y).State = CellState.CellHidden →
    (cellAt s'.Grid x y).State = CellState.CellRevealed →
    ∃ p ∈ starts, FloodPath s p (x, y)

/-- The 3x3 board after `Reveal(0, 0)`: the eight safe cells revealed, the mine
still hidden, the game won. -/
def board3Won : Minesweeper :=
  { Grid := [[⟨false, .CellRevealed, 0⟩, ⟨false, .CellRevealed, 0⟩, ⟨false, .CellRevealed, 0⟩],
             [⟨false, .CellRevealed, 0⟩, ⟨false, .CellRevealed, 1⟩, ⟨false, .CellRevealed, 1⟩],
             [⟨false, .CellRevealed, 0⟩, ⟨false, .CellRevealed, 1⟩, ⟨true, .CellHidden, 0⟩]],
    Width := 3, Height := 3, MineCount := 1,
    Flags := 0, Revealed := 8, GameOver := true, Won := true }

/-- What holds of the engine in every state reachable from `NewMinesweeper`. -/
structure Inv (ms : Minesweeper) : Prop where
  wf : WellFormed ms
  safe : ∀ x y, InRange ms x y → (cellAt ms.Grid x y).IsMine = false →
    (cellAt ms.Grid x y).Adjacent = 0 →
    ∀ q, Adj (x, y) q → InRange ms q.1 q.2 → (cellAt ms.Grid q.1 q.2).IsMine = false
  noMine : ∀ x y, InRange ms x y → (cellAt ms.Grid x y).IsMine = true →
    (cellAt ms.Grid x y).State ≠ CellState.CellRevealed
  counter : ms.Revealed = (countState ms.Grid CellState.CellRevealed : Int)

/-- Number of mined cells among the in-bounds Moore neighbours of `(x, y)`. -/
def minedNeighbours (ms : Minesweeper) (x y : Int) : Nat :=
  (neighbours x y).countP fun q =>
    decide (InRange ms q.1 q.2) && (cellAt ms.Grid q.1 q.2).IsMine

/-- What holds of the engine while `NewMinesweeper` builds it: a well-formed
board of positive size on which nothing is revealed. -/
structure Fresh (ms : Minesweeper) : Prop where
  wf : WellFormed ms
  wpos : 0 < ms.Width
  hpos : 0 < ms.Height
  revealed : ms.Revealed = 0
  allHidden : ∀ x y, InRange ms x y → (cellAt ms.Grid x y).State = CellState.CellHidden
  count0 : countState ms.Grid CellState.CellRevealed = 0

/-- The engine while `calculateAdjacent` runs on `ms0`: the mines are those of
`ms0`, and the cells of `S` that are not mines carry their adjacency count. -/
structure Calc (ms0 : Minesweeper) (S : Int → Int → Prop) (ms : Minesweeper) : Prop where
  fresh : Fresh ms
  width : ms.Width = ms0.Width
  height : ms.Height = ms0.Height
  mines : ∀ x y, InRange ms0 x y →
    (cellAt ms.Grid x y).IsMine = (cellAt ms0.Grid x y).IsMine
  good : ∀ x y, InRange ms0 x y → S x y → (cellAt ms0.Grid x y).IsMine = false →
    (cellAt ms.Grid x y).Adjacent = (minedNeighbours ms0 x y : Int)

/-- Ten draws that hit ten different cells of the 9x9 board: the diagonal and `(0, 8)`. -/
def easyDraws : List (Nat × Nat) :=
  [(0, 0), (1, 1), (2, 2), (3, 3), (4, 4), (5, 5), (6, 6), (7, 7), (8, 8), (0, 8)]

/-- The Easy game these draws give. -/
def easyGame : Minesweeper := (NewMinesweeper 0 easyDraws).getD (emptyBoard 9 9 10)

/-- The `case " ", "enter"` of `MinesweeperModel.Update` in `models/minesweeper.go`,
as far as the engine is concerned: `if !m.game.GameOver { m.game.Reveal(cursorX, cursorY) }`. -/
def updateReveal (ms : Minesweeper) (cursorX cursorY : Int) : Minesweeper :=
  if !ms.GameOver then (Reveal ms cursorX cursorY).1 else ms

/-- The `case "f"` of `MinesweeperModel.Update`:
`if !m.game.GameOver { m.game.ToggleFlag(cursorX, cursorY) }`. -/
def updateToggleFlag (ms : Minesweeper) (cursorX cursorY : Int) : Minesweeper :=
  if !ms.GameOver then ToggleFlag ms cursorX cursorY else ms

/-- Number of mined cells of a grid. -/
def mineTotal (G : List (List Cell)) : Nat :=
  (G.map fun row => row.countP fun c => c.IsMine).sum

/-- How the engine can differ before and after `calculateAdjacent` (or a part
of it): only the adjacency counts of cells that are not mines may change. -/
structure SameBut (ms0 ms : Minesweeper) : Prop where
  wf : WellFormed ms
  width : ms.Width = ms0.Width
  height : ms.Height = ms0.Height
  mineCount : ms.MineCount = ms0.MineCount
  flags : ms.Flags = ms0.Flags
  revealed : ms.Revealed = ms0.Revealed
  gameOver : ms.GameOver = ms0.GameOver
  won : ms.Won = ms0.Won
  cells : ∀ x y, InRange ms0 x y →
    (cellAt ms.Grid x y).IsMine = (cellAt ms0.Grid x y).IsMine ∧
    (cellAt ms.Grid x y).State = (cellAt ms0.Grid x y).State ∧
    ((cellAt ms0.Grid x y).IsMine = true →
      (cellAt ms.Grid x y).Adjacent = (cellAt ms0.Grid x y).Adjacent)
  mines : mineTotal ms.Grid = mineTotal ms0.Grid

/-- The board `placeMines` leaves for the draws `easyDraws`, before
`calculateAdjacent` runs. -/
def easyMines : Minesweeper :=
  (placeMines (emptyBoard 9 9 10) 0 easyDraws).getD (emptyBoard 9 9 10)

/-- Number of cells that hold no mine and are not revealed. -/
def safeLeft (G : List (List Cell)) : Nat :=
  (G.map fun row => row.countP fun c =>
    !c.IsMine && !decide (c.State = CellState.CellRevealed)).sum

/-- Every cell that holds no mine is revealed. -/
def AllSafeRevealed (ms : Minesweeper) : Prop :=
  ∀ x y, InRange ms x y → (cellAt ms.Grid x y).IsMine = false →
    (cellAt ms.Grid x y).State = CellState.CellRevealed

/-- What links `Won` to the counter `Revealed` in every reachable state. -/
structure WinInv (ms : Minesweeper) : Prop where
  base : Inv ms
  mines : (mineTotal ms.Grid : Int) = ms.MineCount
  room : ms.MineCount < ms.Width * ms.Height
  won : ms.Won = true ↔ ms.Revealed = ms.Width * ms.Height - ms.MineCount
  over : ms.Won = true → ms.GameOver = true

/-- Calls that win the Easy game `easyGame`: a flag on the mine `(0, 0)` and
six reveals. -/
def winCalls : List Call :=
  [Call.reveal 8 0, Call.toggleFlag 0 0, Call.reveal 0 6, Call.reveal 1 0, Call.reveal 0 1,
   Call.reveal 8 7, Call.reveal 7 8]

/-- The Easy game `easyGame` after the calls `winCalls`. -/
def wonGame : Minesweeper := winCalls.foldl applyCall easyGame
/-! ## The 2048 engine: the loops in closed form -/

theorem collect_foldl (f : Fin 4 → Int) (l : List (Fin 4)) (acc : List Int) :
    l.foldl (fun row x => if f x ≠ 0 then row ++ [f x] else row) acc
      = acc ++ compact (l.map f) := by
  induction l generalizing acc with
  | nil => simp [compact]
  | cons a l ih =>
    simp only [List.foldl_cons, List.map_cons, ih]
    by_cases h : f a = 0
    · simp [compact, h]
    · simp [compact, h]

theorem mergeLoop_eq (row : List Int) :
    ∀ (fuel i : Nat) (st : SlideState), row.length - i ≤ fuel →
      mergeLoop row fuel i st =
        { g := { st.g with
                  Score := addGains st.g.Score (mergeGains (row.drop i)),
                  Won := st.g.Won || decide ((2048 : Int) ∈ mergeGains (row.drop i)) },
          merged := st.merged ++ mergePairs (row.drop i),
          changed := st.changed || !(mergeGains (row.drop i)).isEmpty } := by
  intro fuel
  induction fuel with
  | zero =>
    intro i st h
    have hd : row.drop i = [] := List.drop_eq_nil_of_le (by omega)
    simp [mergeLoop, hd, mergePairs, mergeGains, addGains]
  | succ fuel ih =>
    intro i st h
    by_cases hi : i < row.length
    · have hdi : row.drop i = row.getD i 0 :: row.drop (i + 1) := by
        rw [List.getD_eq_getElem _ _ hi]; exact List.drop_eq_getElem_cons hi
      by_cases hi1 : i + 1 < row.length
      · have hdi1 : row.drop (i + 1) = row.getD (i + 1) 0 :: row.drop (i + 1 + 1) := by
          rw [List.getD_eq_getElem _ _ hi1]; exact List.drop_eq_getElem_cons hi1
        by_cases he : row.getD i 0 = row.getD (i + 1) 0
        · have hc : i < row.length - 1 ∧ row.getD i 0 = row.getD (i + 1) 0 := ⟨by omega, he⟩
          rw [mergeLoop, if_pos hi, if_pos hc, ih _ _ (by omega), hdi, hdi1]
          rw [← he]
          simp only [mergePairs, mergeGains, if_true, addGains, List.foldl_cons, List.mem_cons,
            List.isEmpty_cons]
          have h2 : row.getD i 0 * 2 = row.getD i 0 + row.getD i 0 := by ring
          rw [h2]
          cases hw : st.g.Won <;> simp [hw, eq_comm]
        · have hc : ¬ (i < row.length - 1 ∧ row.getD i 0 = row.getD (i + 1) 0) :=
            fun h => he h.2
          rw [mergeLoop, if_pos hi, if_neg hc, ih _ _ (by omega), hdi, hdi1]
          simp only [mergePairs, mergeGains, if_neg he, List.append_assoc,
            List.singleton_append]
      · have hc : ¬ (i < row.length - 1 ∧ row.getD i 0 = row.getD (i + 1) 0) :=
          fun h => hi1 (by omega)
        have hd1 : row.drop (i + 1) = [] := List.drop_eq_nil_of_le (by omega)
        rw [mergeLoop, if_pos hi, if_neg hc, ih _ _ (by omega), hdi, hd1]
        simp [mergePairs, mergeGains]
    · have hd : row.drop i = [] := List.drop_eq_nil_of_le (by omega)
      rw [mergeLoop, if_neg hi, hd]
      simp [mergePairs, mergeGains, addGains]

theorem writeCell_eq (merged : List Int) (y x : Fin 4) (k : Nat) (s : Game2048 × Bool) :
    writeCell merged y x k s =
      ({ s.1 with Grid := setCell s.1.Grid y x (merged.getD k 0) },
        s.2 || decide (s.1.Grid y x ≠ merged.getD k 0)) := by
  unfold writeCell
  by_cases hk : k < merged.length
  · rw [if_pos hk]
    by_cases hne : s.1.Grid y x = merged.getD k 0 <;> cases s.2 <;> simp [hne]
  · rw [if_neg hk, List.getD_eq_default _ _ (by omega)]
    by_cases hne : s.1.Grid y x = 0 <;> cases s.2 <;> simp [hne]

theorem line_ne_iff (a b : Fin 4 → Int) :
    a ≠ b ↔ a 0 ≠ b 0 ∨ a 1 ≠ b 1 ∨ a 2 ≠ b 2 ∨ a 3 ≠ b 3 := by
  constructor
  · intro h
    by_contra hc
    push_neg at hc
    apply h
    funext i
    fin_cases i
    · exact hc.1
    · exact hc.2.1
    · exact hc.2.2.1
    · exact hc.2.2.2
  · rintro h rfl
    simp at h


theorem writeLeft (M : List Int) (y : Fin 4) (s : Game2048 × Bool) :
    idxUp.foldl (fun t x => writeCell M y x x.val t) s =
      ({ s.1 with Grid := fun y' x' => if y' = y then M.getD x'.val 0 else s.1.Grid y' x' },
        s.2 || decide (s.1.Grid y ≠ fun x : Fin 4 => M.getD x.val 0)) := by
  have h0 : ((0 : Fin 4) : Nat) = 0 := rfl
  have h1 : ((1 : Fin 4) : Nat) = 1 := rfl
  have h2 : ((2 : Fin 4) : Nat) = 2 := rfl
  have h3 : ((3 : Fin 4) : Nat) = 3 := rfl
  simp only [idxUp, List.foldl, writeCell_eq]
  refine Prod.ext ?_ ?_
  · simp only [Game2048.mk.injEq, and_true]
    funext y' x'
    simp only [setCell]
    by_cases hy : y' = y
    · subst hy
      fin_cases x' <;> (simp; try rfl)
    · simp [hy]
  · simp only [setCell, line_ne_iff, h0, h1, h2, h3]
    rw [Bool.eq_iff_iff]
    simp
    tauto

theorem writeRight (M : List Int) (y : Fin 4) (s : Game2048 × Bool) :
    idxDown.foldl (fun t x => writeCell M y x (3 - x.val) t) s =
      ({ s.1 with Grid := fun y' x' => if y' = y then M.getD (3 - x'.val) 0 else s.1.Grid y' x' },
        s.2 || decide (s.1.Grid y ≠ fun x : Fin 4 => M.getD (3 - x.val) 0)) := by
  have h0 : 3 - ((0 : Fin 4) : Nat) = 3 := rfl
  have h1 : 3 - ((1 : Fin 4) : Nat) = 2 := rfl
  have h2 : 3 - ((2 : Fin 4) : Nat) = 1 := rfl
  have h3 : 3 - ((3 : Fin 4) : Nat) = 0 := rfl
  simp only [idxDown, List.foldl, writeCell_eq]
  refine Prod.ext ?_ ?_
  · simp only [Game2048.mk.injEq, and_true]
    funext y' x'
    simp only [setCell]
    by_cases hy : y' = y
    · subst hy
      fin_cases x' <;> (simp; try rfl)
    · simp [hy]
  · simp only [setCell, line_ne_iff, h0, h1, h2, h3]
    rw [Bool.eq_iff_iff]
    simp
    tauto

theorem writeUp (M : List Int) (x : Fin 4) (s : Game2048 × Bool) :
    idxUp.foldl (fun t y => writeCell M y x y.val t) s =
      ({ s.1 with Grid := fun y' x' => if x' = x then M.getD y'.val 0 else s.1.Grid y' x' },
        s.2 || decide ((fun y : Fin 4 => s.1.Grid y x) ≠ fun y : Fin 4 => M.getD y.val 0)) := by
  have h0 : ((0 : Fin 4) : Nat) = 0 := rfl
  have h1 : ((1 : Fin 4) : Nat) = 1 := rfl
  have h2 : ((2 : Fin 4) : Nat) = 2 := rfl
  have h3 : ((3 : Fin 4) : Nat) = 3 := rfl
  simp only [idxUp, List.foldl, writeCell_eq]
  refine Prod.ext ?_ ?_
  · simp only [Game2048.mk.injEq, and_true]
    funext y' x'
    simp only [setCell]
    by_cases hx : x' = x
    · subst hx
      fin_cases y' <;> (simp; try rfl)
    · simp [hx]
  · simp only [setCell, line_ne_iff, h0, h1, h2, h3]
    rw [Bool.eq_iff_iff]
    simp
    tauto

theorem writeDown (M : List Int) (x : Fin 4) (s : Game2048 × Bool) :
    idxDown.foldl (fun t y => writeCell M y x (3 - y.val) t) s =
      ({ s.1 with Grid := fun y' x' => if x' = x then M.getD (3 - y'.val) 0 else s.1.Grid y' x' },
        s.2 || decide ((fun y : Fin 4 => s.1.Grid y x) ≠ fun y : Fin 4 => M.getD (3 - y.val) 0)) := by
  have h0 : 3 - ((0 : Fin 4) : Nat) = 3 := rfl
  have h1 : 3 - ((1 : Fin 4) : Nat) = 2 := rfl
  have h2 : 3 - ((2 : Fin 4) : Nat) = 1 := rfl
  have h3 : 3 - ((3 : Fin 4) : Nat) = 0 := rfl
  simp only [idxDown, List.foldl, writeCell_eq]
  refine Prod.ext ?_ ?_
  · simp only [Game2048.mk.injEq, and_true]
    funext y' x'
    simp only [setCell]
    by_cases hx : x' = x
    · subst hx
      fin_cases y' <;> (simp; try rfl)
    · simp [hx]
  · simp only [setCell, line_ne_iff, h0, h1, h2, h3]
    rw [Bool.eq_iff_iff]
    simp
    tauto

theorem rev_ne_iff (a b : Fin 4 → Int) :
    (fun k => a (Fin.rev k)) ≠ (fun k => b (Fin.rev k)) ↔ a ≠ b := by
  constructor
  · rintro h rfl
    exact h rfl
  · intro h hc
    apply h
    funext k
    have := congrFun hc (Fin.rev k)
    simpa using this

theorem moveLeftRow_eq (s : Game2048 × Bool) (y : Fin 4) :
    moveLeftRow s y =
      lineStep (s.1.Grid y)
        (fun y' x' => if y' = y then slideLine (s.1.Grid y) x' else s.1.Grid y' x') s := by
  unfold moveLeftRow
  simp only [collect_foldl, List.nil_append]
  rw [mergeLoop_eq _ _ _ _ (by simp)]
  simp only [writeLeft]
  rfl

theorem moveUpCol_eq (s : Game2048 × Bool) (x : Fin 4) :
    moveUpCol s x =
      lineStep (fun k => s.1.Grid k x)
        (fun y' x' => if x' = x then slideLine (fun k => s.1.Grid k x) y' else s.1.Grid y' x') s := by
  unfold moveUpCol
  simp only [collect_foldl, List.nil_append]
  rw [mergeLoop_eq _ _ _ _ (by simp)]
  simp only [writeUp]
  rfl

theorem moveRightRow_eq (s : Game2048 × Bool) (y : Fin 4) :
    moveRightRow s y =
      lineStep (fun k => s.1.Grid y (Fin.rev k))
        (fun y' x' => if y' = y then slideLine (fun k => s.1.Grid y (Fin.rev k)) (Fin.rev x')
          else s.1.Grid y' x') s := by
  unfold moveRightRow
  simp only [collect_foldl, List.nil_append]
  rw [mergeLoop_eq _ _ _ _ (by simp)]
  simp only [writeRight]
  have hr : ∀ x : Fin 4, 3 - x.val = (Fin.rev x).val := by
    intro x; rw [Fin.val_rev]; omega
  simp only [hr]
  have hflag : decide (s.1.Grid y ≠ fun x : Fin 4 =>
        (mergePairs (compact (lineList fun k => s.1.Grid y (Fin.rev k)))).getD (Fin.rev x).val 0)
      = decide ((fun k => s.1.Grid y (Fin.rev k)) ≠ slideLine (fun k => s.1.Grid y (Fin.rev k))) := by
    rw [decide_eq_decide, ← rev_ne_iff]
    simp only [Fin.rev_rev]
    rfl
  unfold lineStep
  rw [← hflag]
  rfl

theorem moveDownCol_eq (s : Game2048 × Bool) (x : Fin 4) :
    moveDownCol s x =
      lineStep (fun k => s.1.Grid (Fin.rev k) x)
        (fun y' x' => if x' = x then slideLine (fun k => s.1.Grid (Fin.rev k) x) (Fin.rev y')
          else s.1.Grid y' x') s := by
  unfold moveDownCol
  simp only [collect_foldl, List.nil_append]
  rw [mergeLoop_eq _ _ _ _ (by simp)]
  simp only [writeDown]
  have hr : ∀ x : Fin 4, 3 - x.val = (Fin.rev x).val := by
    intro x; rw [Fin.val_rev]; omega
  simp only [hr]
  have hflag : decide ((fun y : Fin 4 => s.1.Grid y x) ≠ fun y : Fin 4 =>
        (mergePairs (compact (lineList fun k => s.1.Grid (Fin.rev k) x))).getD (Fin.rev y).val 0)
      = decide ((fun k => s.1.Grid (Fin.rev k) x)
          ≠ slideLine (fun k => s.1.Grid (Fin.rev k) x)) := by
    rw [decide_eq_decide, ← rev_ne_iff]
    simp only [Fin.rev_rev]
    rfl
  unfold lineStep
  rw [← hflag]
  rfl

theorem moveLeft_eq (g : Game2048) :
    moveLeft g = slideSpec (fun j k => g.Grid j k) (fun y x => slideLine (g.Grid y) x) g := by
  unfold moveLeft
  simp only [idxUp, List.foldl, moveLeftRow_eq, lineStep, slideSpec, lineChanged]
  refine Prod.ext ?_ ?_
  · simp only [Game2048.mk.injEq, and_true]
    refine ⟨?_, ?_, ?_⟩
    · funext y x
      fin_cases y <;> simp
    · simp [addGains, lineGains, List.foldl_append]
    · simp [Bool.or_assoc]
  · simp [Bool.or_assoc]

theorem moveRight_eq (g : Game2048) :
    moveRight g = slideSpec (fun j k => g.Grid j (Fin.rev k))
      (fun y x => slideLine (fun k => g.Grid y (Fin.rev k)) (Fin.rev x)) g := by
  unfold moveRight
  simp only [idxUp, List.foldl, moveRightRow_eq, lineStep, slideSpec, lineChanged]
  refine Prod.ext ?_ ?_
  · simp only [Game2048.mk.injEq, and_true]
    refine ⟨?_, ?_, ?_⟩
    · funext y x
      fin_cases y <;> simp
    · simp [addGains, lineGains, List.foldl_append]
    · simp [Bool.or_assoc]
  · simp [Bool.or_assoc]

theorem moveUp_eq (g : Game2048) :
    moveUp g = slideSpec (fun j k => g.Grid k j)
      (fun y x => slideLine (fun k => g.Grid k x) y) g := by
  unfold moveUp
  simp only [idxUp, List.foldl, moveUpCol_eq, lineStep, slideSpec, lineChanged]
  refine Prod.ext ?_ ?_
  · simp only [Game2048.mk.injEq, and_true]
    refine ⟨?_, ?_, ?_⟩
    · funext y x
      fin_cases x <;> simp
    · simp [addGains, lineGains, List.foldl_append]
    · simp [Bool.or_assoc]
  · simp [Bool.or_assoc]

theorem moveDown_eq (g : Game2048) :
    moveDown g = slideSpec (fun j k => g.Grid (Fin.rev k) j)
      (fun y x => slideLine (fun k => g.Grid (Fin.rev k) x) (Fin.rev y)) g := by
  unfold moveDown
  simp only [idxUp, List.foldl, moveDownCol_eq, lineStep, slideSpec, lineChanged]
  refine Prod.ext ?_ ?_
  · simp only [Game2048.mk.injEq, and_true]
    refine ⟨?_, ?_, ?_⟩
    · funext y x
      fin_cases x <;> simp
    · simp [addGains, lineGains, List.foldl_append]
    · simp [Bool.or_assoc]
  · simp [Bool.or_assoc]

/-! ## The 2048 engine: facts about the slide of one line -/

theorem mergePairs_length_add (c : List Int) :
    (mergePairs c).length + (mergeGains c).length = c.length := by
  induction c using mergePairs.induct with
  | case1 a rest ih => simp [mergePairs, mergeGains]; omega
  | case2 a b rest h ih => simp [mergePairs, mergeGains, h] at ih ⊢; omega
  | case3 l hl =>
    match l, hl with
    | [], _ => simp [mergePairs, mergeGains]
    | [a], _ => simp [mergePairs, mergeGains]
    | a :: b :: rest, hl => exact absurd rfl (hl a b rest)

theorem mergePairs_eq_self (c : List Int) (h : mergeGains c = []) : mergePairs c = c := by
  induction c using mergePairs.induct with
  | case1 a rest ih => simp [mergeGains] at h
  | case2 a b rest he ih =>
    simp only [mergeGains, if_neg he] at h
    simp [mergePairs, he, ih h]
  | case3 l hl =>
    match l, hl with
    | [], _ => simp [mergePairs]
    | [a], _ => simp [mergePairs]
    | a :: b :: rest, hl => exact absurd rfl (hl a b rest)

theorem getD_lineList (line : Fin 4 → Int) (k : Fin 4) :
    (lineList line).getD k.val 0 = line k := by
  fin_cases k <;> rfl

theorem compact_length_le (line : Fin 4 → Int) : (compact (lineList line)).length ≤ 4 := by
  have := List.length_filter_le (fun v : Int => decide (v ≠ 0)) (lineList line)
  simpa [compact, lineList] using this

theorem compact_ne_zero (l : List Int) : ∀ v ∈ compact l, v ≠ 0 := by
  intro v hv
  simpa [compact] using (List.mem_filter.mp hv).2

theorem compact_eq_self (l : List Int) (h : ∀ v ∈ l, v ≠ 0) : compact l = l := by
  unfold compact
  rw [List.filter_eq_self]
  intro v hv
  simpa using h v hv

theorem mergedLine_length (line : Fin 4 → Int) :
    (mergedLine line).length + (mergeGains (compact (lineList line))).length
      = (compact (lineList line)).length :=
  mergePairs_length_add _

theorem mergedLine_length_le (line : Fin 4 → Int) : (mergedLine line).length ≤ 4 := by
  have h1 := mergedLine_length line
  have h2 := compact_length_le line
  omega

theorem slideLine_eq_getD (line : Fin 4 → Int) (k : Fin 4) :
    slideLine line k = (mergedLine line).getD k.val 0 := rfl

theorem padList (M : List Int) (h : M.length ≤ 4) :
    [M.getD 0 0, M.getD 1 0, M.getD 2 0, M.getD 3 0] = M ++ List.replicate (4 - M.length) 0 := by
  rcases M with _ | ⟨a, _ | ⟨b, _ | ⟨c, _ | ⟨d, _ | ⟨e, r⟩⟩⟩⟩⟩
  · rfl
  · rfl
  · rfl
  · rfl
  · rfl
  · simp at h

theorem slideLine_eq_zero_of_le (line : Fin 4 → Int) (k : Fin 4)
    (h : (mergedLine line).length ≤ k.val) : slideLine line k = 0 := by
  rw [slideLine_eq_getD]
  exact List.getD_eq_default _ _ h

/-- The slid line has no more non-empty cells than the merge scan left values. -/
theorem compact_slideLine_le (line : Fin 4 → Int) :
    (compact (lineList (slideLine line))).length ≤ (mergedLine line).length := by
  have h : lineList (slideLine line)
      = mergedLine line ++ List.replicate (4 - (mergedLine line).length) 0 :=
    padList _ (mergedLine_length_le line)
  rw [h]
  unfold compact
  rw [List.filter_append]
  have h2 : (List.replicate (4 - (mergedLine line).length) (0 : Int)).filter
      (fun v => decide (v ≠ 0)) = [] := by
    rw [List.filter_eq_nil_iff]
    intro v hv
    simp [(List.mem_replicate.mp hv).2]
  rw [h2, List.append_nil]
  exact List.length_filter_le _ _

/-- A merge always changes its line: whatever the merged value is, the line has
fewer non-empty cells afterwards. -/
theorem ne_of_lineMerges (line : Fin 4 → Int) (h : lineMerges line = true) :
    line ≠ slideLine line := by
  intro he
  have h1 := compact_slideLine_le line
  rw [← he] at h1
  have h2 := mergedLine_length line
  have h3 : mergeGains (compact (lineList line)) = [] :=
    List.eq_nil_of_length_eq_zero (by omega)
  simp [lineMerges, h3] at h

/-- On a line the slide leaves alone the merge scan merges nothing. -/
theorem fixed_line_gains (line : Fin 4 → Int) (h : line = slideLine line) :
    mergeGains (compact (lineList line)) = [] := by
  cases hl : mergeGains (compact (lineList line)) with
  | nil => rfl
  | cons a l =>
    have hm : lineMerges line = true := by
      unfold lineMerges
      rw [hl]
      rfl
    exact absurd h (ne_of_lineMerges line hm)

/-- Where the merge scan merges nothing, the cells of the slid line that are
empty are those behind the values of the line. -/
theorem slideLine_eq_zero_iff (line : Fin 4 → Int)
    (hg : mergeGains (compact (lineList line)) = []) (k : Fin 4) :
    slideLine line k = 0 ↔ (mergedLine line).length ≤ k.val := by
  constructor
  · intro h
    by_contra hlt
    push_neg at hlt
    rw [slideLine_eq_getD, List.getD_eq_getElem _ _ hlt] at h
    obtain ⟨v, hv, hv0⟩ : ∃ v ∈ mergedLine line, v = 0 := ⟨_, List.getElem_mem hlt, h⟩
    unfold mergedLine at hv
    rw [mergePairs_eq_self _ hg] at hv
    exact compact_ne_zero _ v hv hv0
  · exact slideLine_eq_zero_of_le line k

theorem lineChanged_iff (line : Fin 4 → Int) :
    lineChanged line = true ↔ line ≠ slideLine line := by
  unfold lineChanged
  constructor
  · intro h
    rcases Bool.or_eq_true _ _ ▸ h with h | h
    · exact ne_of_lineMerges line h
    · simpa using h
  · intro h
    simp [h]

/-- A line that the slide changes has an empty last cell afterwards. -/
theorem slideLine_last_of_ne (line : Fin 4 → Int) (h : line ≠ slideLine line) :
    slideLine line 3 = 0 := by
  apply slideLine_eq_zero_of_le
  by_contra hlt
  push_neg at hlt
  have hlt3 : 3 < (mergedLine line).length := hlt
  have h1 := mergedLine_length line
  have h2 := compact_length_le line
  have hg : mergeGains (compact (lineList line)) = [] :=
    List.eq_nil_of_length_eq_zero (by omega)
  have hc : compact (lineList line) = lineList line := by
    unfold compact
    apply List.filter_eq_self.mpr
    have hl : ((lineList line).filter fun v => decide (v ≠ 0)).length = (lineList line).length := by
      have : (compact (lineList line)).length = 4 := by omega
      simpa [compact, lineList] using this
    exact List.filter_length_eq_length.mp hl
  apply h
  funext k
  rw [slideLine_eq_getD]
  unfold mergedLine
  rw [mergePairs_eq_self _ hg, hc, getD_lineList]

/-! ## The 2048 engine: moves -/

theorem slide_up (g : Game2048) : slide g "up" = moveUp g := by simp [slide]

theorem slide_down (g : Game2048) : slide g "down" = moveDown g := by simp [slide]

theorem slide_left (g : Game2048) : slide g "left" = moveLeft g := by simp [slide]

theorem slide_right (g : Game2048) : slide g "right" = moveRight g := by simp [slide]

theorem slide_cases (g : Game2048) (direction : String) :
    (direction = "up" ∧ slide g direction = moveUp g) ∨
    (direction = "down" ∧ slide g direction = moveDown g) ∨
    (direction = "left" ∧ slide g direction = moveLeft g) ∨
    (direction = "right" ∧ slide g direction = moveRight g) ∨
    (direction ≠ "up" ∧ direction ≠ "down" ∧ direction ≠ "left" ∧ direction ≠ "right" ∧
      slide g direction = (g, false)) := by
  by_cases h1 : direction = "up"
  · subst h1; exact Or.inl ⟨rfl, slide_up g⟩
  by_cases h2 : direction = "down"
  · subst h2; exact Or.inr (Or.inl ⟨rfl, slide_down g⟩)
  by_cases h3 : direction = "left"
  · subst h3; exact Or.inr (Or.inr (Or.inl ⟨rfl, slide_left g⟩))
  by_cases h4 : direction = "right"
  · subst h4; exact Or.inr (Or.inr (Or.inr (Or.inl ⟨rfl, slide_right g⟩)))
  · exact Or.inr (Or.inr (Or.inr (Or.inr ⟨h1, h2, h3, h4, by simp [slide, h1, h2, h3, h4]⟩)))

theorem checkGameState_Grid (g : Game2048) : (checkGameState g).Grid = g.Grid := by
  unfold checkGameState
  split_ifs <;> rfl

theorem checkGameState_Score (g : Game2048) : (checkGameState g).Score = g.Score := by
  unfold checkGameState
  split_ifs <;> rfl

theorem checkGameState_Won (g : Game2048) : (checkGameState g).Won = g.Won := by
  unfold checkGameState
  split_ifs <;> rfl

theorem addRandomTile_Score (g : Game2048) (d : Draw) : (addRandomTile g d).Score = g.Score := by
  unfold addRandomTile
  simp only
  split_ifs <;> rfl

theorem addRandomTile_Won (g : Game2048) (d : Draw) : (addRandomTile g d).Won = g.Won := by
  unfold addRandomTile
  simp only
  split_ifs <;> rfl

theorem addRandomTile_GameOver (g : Game2048) (d : Draw) :
    (addRandomTile g d).GameOver = g.GameOver := by
  unfold addRandomTile
  simp only
  split_ifs <;> rfl

theorem Move_snd (g : Game2048) (direction : String) (d : Draw) :
    (Move g direction d).2 = (slide g direction).2 := by
  unfold Move
  simp only
  split_ifs <;> rfl

theorem Move_Score (g : Game2048) (direction : String) (d : Draw) :
    (Move g direction d).1.Score = (slide g direction).1.Score := by
  unfold Move
  simp only
  split_ifs
  · simp [checkGameState_Score, addRandomTile_Score]
  · rfl

theorem slideSpec_snd_false (L G' : Fin 4 → Fin 4 → Int) (g : Game2048) :
    (slideSpec L G' g).2 = false ↔ ∀ j, L j = slideLine (L j) := by
  have hc : ∀ j, lineChanged (L j) = false ↔ L j = slideLine (L j) := by
    intro j
    rw [← Bool.not_eq_true, lineChanged_iff, not_not]
  simp only [slideSpec, Bool.or_eq_false_iff, hc]
  constructor
  · rintro ⟨⟨⟨h0, h1⟩, h2⟩, h3⟩ j
    fin_cases j
    · exact h0
    · exact h1
    · exact h2
    · exact h3
  · intro h
    exact ⟨⟨⟨h 0, h 1⟩, h 2⟩, h 3⟩

theorem left_fixed_iff (G : Fin 4 → Fin 4 → Int) :
    (fun y x => slideLine (G y) x) = G ↔ ∀ j, (fun k => G j k) = slideLine (fun k => G j k) := by
  constructor
  · intro h j
    exact (congrFun h j).symm
  · intro h
    funext y x
    exact (congrFun (h y) x).symm

theorem right_fixed_iff (G : Fin 4 → Fin 4 → Int) :
    (fun y x => slideLine (fun k => G y (Fin.rev k)) (Fin.rev x)) = G ↔
      ∀ j, (fun k => G j (Fin.rev k)) = slideLine (fun k => G j (Fin.rev k)) := by
  constructor
  · intro h j
    funext k
    have := congrFun (congrFun h j) (Fin.rev k)
    simp only [Fin.rev_rev] at this
    exact this.symm
  · intro h
    funext y x
    have := congrFun (h y) (Fin.rev x)
    simp only [Fin.rev_rev] at this
    exact this.symm

theorem up_fixed_iff (G : Fin 4 → Fin 4 → Int) :
    (fun y x => slideLine (fun k => G k x) y) = G ↔
      ∀ j, (fun k => G k j) = slideLine (fun k => G k j) := by
  constructor
  · intro h j
    funext k
    exact (congrFun (congrFun h k) j).symm
  · intro h
    funext y x
    exact (congrFun (h x) y).symm

theorem down_fixed_iff (G : Fin 4 → Fin 4 → Int) :
    (fun y x => slideLine (fun k => G (Fin.rev k) x) (Fin.rev y)) = G ↔
      ∀ j, (fun k => G (Fin.rev k) j) = slideLine (fun k => G (Fin.rev k) j) := by
  constructor
  · intro h j
    funext k
    have := congrFun (congrFun h (Fin.rev k)) j
    simp only [Fin.rev_rev] at this
    exact this.symm
  · intro h
    funext y x
    have := congrFun (h x) (Fin.rev y)
    simp only [Fin.rev_rev] at this
    exact this.symm

/-- The flag returned by a slide is false exactly when the slide leaves the grid as it was. -/
theorem slide_snd_false_iff (g : Game2048) (direction : String) :
    (slide g direction).2 = false ↔ (slide g direction).1.Grid = g.Grid := by
  rcases slide_cases g direction with ⟨_, h⟩ | ⟨_, h⟩ | ⟨_, h⟩ | ⟨_, h⟩ | ⟨_, _, _, _, h⟩
  · rw [h, moveUp_eq, slideSpec_snd_false]
    exact (up_fixed_iff g.Grid).symm
  · rw [h, moveDown_eq, slideSpec_snd_false]
    exact (down_fixed_iff g.Grid).symm
  · rw [h, moveLeft_eq, slideSpec_snd_false]
    exact (left_fixed_iff g.Grid).symm
  · rw [h, moveRight_eq, slideSpec_snd_false]
    exact (right_fixed_iff g.Grid).symm
  · rw [h]
    simp

/-! ## The 2048 engine: spawning a tile -/

theorem emptyRow_foldl (G : Fin 4 → Fin 4 → Int) (y : Fin 4) (l : List (Fin 4))
    (acc : List (Fin 4 × Fin 4)) :
    l.foldl (fun acc x => if G y x = 0 then acc ++ [(y, x)] else acc) acc
      = acc ++ (l.filter fun x => decide (G y x = 0)).map fun x => (y, x) := by
  induction l generalizing acc with
  | nil => simp
  | cons a l ih =>
    simp only [List.foldl_cons, ih]
    by_cases h : G y a = 0
    · simp [h, List.filter_cons]
    · simp [h, List.filter_cons]

theorem emptyCells_foldl (G : Fin 4 → Fin 4 → Int) (l : List (Fin 4))
    (acc : List (Fin 4 × Fin 4)) :
    l.foldl (fun acc y =>
        idxUp.foldl (fun acc x => if G y x = 0 then acc ++ [(y, x)] else acc) acc) acc
      = acc ++ l.flatMap fun y =>
          (idxUp.filter fun x => decide (G y x = 0)).map fun x => (y, x) := by
  induction l generalizing acc with
  | nil => simp
  | cons a l ih =>
    rw [List.foldl_cons, ih, emptyRow_foldl, List.flatMap_cons, List.append_assoc]

theorem mem_idxUp (i : Fin 4) : i ∈ idxUp := by
  fin_cases i <;> simp [idxUp]

theorem mem_emptyCells (G : Fin 4 → Fin 4 → Int) (p : Fin 4 × Fin 4) :
    p ∈ emptyCells G ↔ G p.1 p.2 = 0 := by
  unfold emptyCells
  rw [emptyCells_foldl]
  simp only [List.nil_append, List.mem_flatMap, List.mem_map, List.mem_filter,
    decide_eq_true_eq]
  constructor
  · rintro ⟨y, _, x, ⟨_, h⟩, rfl⟩
    exact h
  · intro h
    exact ⟨p.1, mem_idxUp _, p.2, ⟨mem_idxUp _, h⟩, rfl⟩

theorem tileCount_setCell (G : Fin 4 → Fin 4 → Int) (y x : Fin 4) (v : Int)
    (h0 : G y x = 0) (hv : v ≠ 0) : tileCount (setCell G y x v) = tileCount G + 1 := by
  unfold tileCount
  have hins : (Finset.univ.filter fun p : Fin 4 × Fin 4 => setCell G y x v p.1 p.2 ≠ 0)
      = insert (y, x) (Finset.univ.filter fun p : Fin 4 × Fin 4 => G p.1 p.2 ≠ 0) := by
    ext p
    simp only [Finset.mem_filter, Finset.mem_univ, true_and, Finset.mem_insert, setCell]
    by_cases hp : p = (y, x)
    · subst hp
      simp [hv]
    · have : ¬ (p.1 = y ∧ p.2 = x) := fun h => hp (Prod.ext h.1 h.2)
      simp [this, hp]
  rw [hins, Finset.card_insert_of_not_mem]
  simp [h0]

/-- The effect of `addRandomTile` on a grid with an empty cell: one empty cell
receives 2 or 4, nothing else changes. -/
theorem addRandomTile_spawn (g : Game2048) (d : Draw) (h : ∃ y x, g.Grid y x = 0) :
    ∃ y x v, g.Grid y x = 0 ∧ (v = 2 ∨ v = 4) ∧
      addRandomTile g d = { g with Grid := setCell g.Grid y x v } := by
  obtain ⟨y0, x0, h0⟩ := h
  have hmem : (y0, x0) ∈ emptyCells g.Grid := (mem_emptyCells _ _).2 h0
  have hlen : 0 < (emptyCells g.Grid).length := List.length_pos_of_mem hmem
  have hidx : d.intn % (emptyCells g.Grid).length < (emptyCells g.Grid).length :=
    Nat.mod_lt _ hlen
  have hpos : (emptyCells g.Grid).getD (d.intn % (emptyCells g.Grid).length) (0, 0)
      ∈ emptyCells g.Grid := by
    rw [List.getD_eq_getElem _ _ hidx]
    exact List.getElem_mem hidx
  have hz := (mem_emptyCells _ _).1 hpos
  unfold addRandomTile
  simp only
  rw [if_neg (by omega)]
  by_cases ht : d.isTwo = true
  · rw [if_pos ht]
    exact ⟨_, _, 2, hz, Or.inl rfl, rfl⟩
  · rw [if_neg ht]
    exact ⟨_, _, 4, hz, Or.inr rfl, rfl⟩

theorem slideSpec_snd_true (L G' : Fin 4 → Fin 4 → Int) (g : Game2048)
    (h : (slideSpec L G' g).2 = true) : ∃ j, L j ≠ slideLine (L j) := by
  by_contra hc
  push_neg at hc
  have := (slideSpec_snd_false L G' g).2 hc
  rw [h] at this
  exact Bool.noConfusion this

/-- After a slide that reports a change the grid has an empty cell. -/
theorem slide_true_empty (g : Game2048) (direction : String)
    (h : (slide g direction).2 = true) : ∃ y x, (slide g direction).1.Grid y x = 0 := by
  rcases slide_cases g direction with ⟨_, e⟩ | ⟨_, e⟩ | ⟨_, e⟩ | ⟨_, e⟩ | ⟨_, _, _, _, e⟩
  · rw [e, moveUp_eq] at h ⊢
    obtain ⟨j, hj⟩ := slideSpec_snd_true _ _ _ h
    exact ⟨3, j, slideLine_last_of_ne _ hj⟩
  · rw [e, moveDown_eq] at h ⊢
    obtain ⟨j, hj⟩ := slideSpec_snd_true _ _ _ h
    exact ⟨0, j, slideLine_last_of_ne _ hj⟩
  · rw [e, moveLeft_eq] at h ⊢
    obtain ⟨j, hj⟩ := slideSpec_snd_true _ _ _ h
    exact ⟨j, 3, slideLine_last_of_ne _ hj⟩
  · rw [e, moveRight_eq] at h ⊢
    obtain ⟨j, hj⟩ := slideSpec_snd_true _ _ _ h
    exact ⟨j, 0, slideLine_last_of_ne _ hj⟩
  · rw [e] at h
    exact Bool.noConfusion h

theorem Move_Grid_of_true (g : Game2048) (direction : String) (d : Draw)
    (h : (Move g direction d).2 = true) :
    (Move g direction d).1.Grid = (addRandomTile (slide g direction).1 d).Grid := by
  rw [Move_snd] at h
  unfold Move
  simp only
  rw [if_pos h, checkGameState_Grid]

/-! ## The 2048 engine: when no slide changes the grid -/

theorem moveLeft_fixed_iff (g : Game2048) :
    (moveLeft g).1.Grid = g.Grid ↔ ∀ j, (fun k => g.Grid j k) = slideLine fun k => g.Grid j k := by
  rw [moveLeft_eq]
  exact left_fixed_iff g.Grid

theorem moveRight_fixed_iff (g : Game2048) :
    (moveRight g).1.Grid = g.Grid ↔
      ∀ j, (fun k => g.Grid j (Fin.rev k)) = slideLine fun k => g.Grid j (Fin.rev k) := by
  rw [moveRight_eq]
  exact right_fixed_iff g.Grid

theorem moveUp_fixed_iff (g : Game2048) :
    (moveUp g).1.Grid = g.Grid ↔ ∀ j, (fun k => g.Grid k j) = slideLine fun k => g.Grid k j := by
  rw [moveUp_eq]
  exact up_fixed_iff g.Grid

theorem moveDown_fixed_iff (g : Game2048) :
    (moveDown g).1.Grid = g.Grid ↔
      ∀ j, (fun k => g.Grid (Fin.rev k) j) = slideLine fun k => g.Grid (Fin.rev k) j := by
  rw [moveDown_eq]
  exact down_fixed_iff g.Grid

/-- Every direction string leaves the grid alone exactly when the four slide
routines do. -/
theorem slide_all_fixed_iff (g : Game2048) :
    (∀ direction : String, (slide g direction).1.Grid = g.Grid) ↔
      (moveUp g).1.Grid = g.Grid ∧ (moveDown g).1.Grid = g.Grid ∧
      (moveLeft g).1.Grid = g.Grid ∧ (moveRight g).1.Grid = g.Grid := by
  constructor
  · intro h
    refine ⟨?_, ?_, ?_, ?_⟩
    · rw [← slide_up]; exact h _
    · rw [← slide_down]; exact h _
    · rw [← slide_left]; exact h _
    · rw [← slide_right]; exact h _
  · rintro ⟨hu, hd, hl, hr⟩ direction
    rcases slide_cases g direction with ⟨_, e⟩ | ⟨_, e⟩ | ⟨_, e⟩ | ⟨_, e⟩ | ⟨_, _, _, _, e⟩
    · rw [e]; exact hu
    · rw [e]; exact hd
    · rw [e]; exact hl
    · rw [e]; exact hr
    · rw [e]

theorem compact_of_full (line : Fin 4 → Int) (h : ∀ k, line k ≠ 0) :
    compact (lineList line) = lineList line := by
  apply compact_eq_self
  intro v hv
  simp only [lineList, List.mem_cons, List.mem_singleton, List.not_mem_nil, or_false] at hv
  rcases hv with rfl | rfl | rfl | rfl <;> exact h _

theorem mergeGains_four (a b c d : Int) :
    mergeGains [a, b, c, d] = [] ↔ a ≠ b ∧ b ≠ c ∧ c ≠ d := by
  simp only [mergeGains]
  split_ifs <;> simp_all

/-- A line without empty cells is left alone by the slide exactly when no two
adjacent cells are equal. -/
theorem full_line_fixed_iff (line : Fin 4 → Int) (h : ∀ k, line k ≠ 0) :
    line = slideLine line ↔ line 0 ≠ line 1 ∧ line 1 ≠ line 2 ∧ line 2 ≠ line 3 := by
  have hc := compact_of_full line h
  have hg : mergeGains (compact (lineList line)) = [] ↔
      line 0 ≠ line 1 ∧ line 1 ≠ line 2 ∧ line 2 ≠ line 3 := by
    rw [hc]
    exact mergeGains_four _ _ _ _
  constructor
  · intro he
    rw [← hg]
    by_contra hne
    have hm : lineMerges line = true := by
      unfold lineMerges
      cases hl : mergeGains (compact (lineList line)) with
      | nil => exact absurd hl hne
      | cons a l => rfl
    exact ne_of_lineMerges line hm he
  · intro hadj
    funext k
    rw [slideLine_eq_getD]
    unfold mergedLine
    rw [mergePairs_eq_self _ (hg.2 hadj), hc, getD_lineList]

/-- A line the slide leaves alone has its empty cells at the far end. -/
theorem fixed_line_compacted (line : Fin 4 → Int) (h : line = slideLine line)
    (k k' : Fin 4) (hk : line k = 0) (hkk : k ≤ k') : line k' = 0 := by
  have hg := fixed_line_gains line h
  rw [h] at hk ⊢
  rw [slideLine_eq_zero_iff line hg] at hk ⊢
  exact le_trans hk hkk

theorem hasEmptyCell_false_iff (G : Fin 4 → Fin 4 → Int) :
    hasEmptyCell G = false ↔ ∀ y x, G y x ≠ 0 := by
  simp [hasEmptyCell, idxUp, Fin.forall_fin_succ]
  tauto

theorem hasEqualNeighbour_false_iff (G : Fin 4 → Fin 4 → Int) :
    hasEqualNeighbour G = false ↔
      (∀ y, G y 1 ≠ G y 0 ∧ G y 2 ≠ G y 1 ∧ G y 3 ≠ G y 2) ∧
      (∀ x, G 1 x ≠ G 0 x ∧ G 2 x ≠ G 1 x ∧ G 3 x ≠ G 2 x) := by
  simp [hasEqualNeighbour, idxUp, Fin.forall_fin_succ]
  tauto

/-- On a grid with at least one tile, the criterion of `checkGameState` (no
empty cell, no cell equal to the cell below or right of it) holds exactly when
no direction changes the grid. -/
theorem criterion_iff_fixed (g : Game2048) (h : ∃ y x, g.Grid y x ≠ 0) :
    (hasEmptyCell g.Grid = false ∧ hasEqualNeighbour g.Grid = false) ↔
      ∀ direction : String, (slide g direction).1.Grid = g.Grid := by
  rw [slide_all_fixed_iff, moveUp_fixed_iff, moveDown_fixed_iff, moveLeft_fixed_iff,
    moveRight_fixed_iff, hasEmptyCell_false_iff, hasEqualNeighbour_false_iff]
  constructor
  · rintro ⟨hfull, hrow, hcol⟩
    refine ⟨fun j => ?_, fun j => ?_, fun j => ?_, fun j => ?_⟩
    · exact (full_line_fixed_iff _ (fun k => hfull k j)).2
        ⟨(hcol j).1.symm, (hcol j).2.1.symm, (hcol j).2.2.symm⟩
    · exact (full_line_fixed_iff _ (fun k => hfull (Fin.rev k) j)).2
        ⟨(hcol j).2.2, (hcol j).2.1, (hcol j).1⟩
    · exact (full_line_fixed_iff _ (fun k => hfull j k)).2
        ⟨(hrow j).1.symm, (hrow j).2.1.symm, (hrow j).2.2.symm⟩
    · exact (full_line_fixed_iff _ (fun k => hfull j (Fin.rev k))).2
        ⟨(hrow j).2.2, (hrow j).2.1, (hrow j).1⟩
  · rintro ⟨hu, hd, hl, hr⟩
    obtain ⟨y0, x0, ht⟩ := h
    have rowz : ∀ y x, g.Grid y x = 0 → ∀ x', g.Grid y x' = 0 := by
      intro y x hz x'
      have h3 : g.Grid y 3 = 0 :=
        fixed_line_compacted (fun k => g.Grid y k) (hl y) x 3 hz (Fin.le_last x)
      have := fixed_line_compacted (fun k => g.Grid y (Fin.rev k)) (hr y) 0 (Fin.rev x') h3
        (Fin.zero_le _)
      simpa using this
    have colz : ∀ x y, g.Grid y x = 0 → ∀ y', g.Grid y' x = 0 := by
      intro x y hz y'
      have h3 : g.Grid 3 x = 0 :=
        fixed_line_compacted (fun k => g.Grid k x) (hu x) y 3 hz (Fin.le_last y)
      have := fixed_line_compacted (fun k => g.Grid (Fin.rev k) x) (hd x) 0 (Fin.rev y') h3
        (Fin.zero_le _)
      simpa using this
    have hfull : ∀ y x, g.Grid y x ≠ 0 := by
      intro y x hz
      have h1 : g.Grid y0 x = 0 := colz x y hz y0
      exact ht (rowz y0 x h1 x0)
    refine ⟨hfull, fun y => ?_, fun x => ?_⟩
    · have := (full_line_fixed_iff (fun k => g.Grid y k) (fun k => hfull y k)).1 (hl y)
      exact ⟨this.1.symm, this.2.1.symm, this.2.2.symm⟩
    · have := (full_line_fixed_iff (fun k => g.Grid k x) (fun k => hfull k x)).1 (hu x)
      exact ⟨this.1.symm, this.2.1.symm, this.2.2.symm⟩

theorem checkGameState_GameOver (g : Game2048) :
    (checkGameState g).GameOver =
      (g.GameOver || (!hasEmptyCell g.Grid && !hasEqualNeighbour g.Grid)) := by
  unfold checkGameState
  cases h1 : hasEmptyCell g.Grid <;> cases h2 : hasEqualNeighbour g.Grid <;> simp

theorem slide_GameOver (g : Game2048) (direction : String) :
    (slide g direction).1.GameOver = g.GameOver := by
  rcases slide_cases g direction with ⟨_, e⟩ | ⟨_, e⟩ | ⟨_, e⟩ | ⟨_, e⟩ | ⟨_, _, _, _, e⟩
  · rw [e, moveUp_eq]; rfl
  · rw [e, moveDown_eq]; rfl
  · rw [e, moveLeft_eq]; rfl
  · rw [e, moveRight_eq]; rfl
  · rw [e]

/-- After an accepted move the grid holds at least one tile, the one just spawned. -/
theorem Move_true_has_tile (g : Game2048) (direction : String) (d : Draw)
    (h : (Move g direction d).2 = true) : ∃ y x, (Move g direction d).1.Grid y x ≠ 0 := by
  have hs : (slide g direction).2 = true := by rw [← Move_snd g direction d]; exact h
  obtain ⟨y, x, v, _, hv, hadd⟩ :=
    addRandomTile_spawn (slide g direction).1 d (slide_true_empty g direction hs)
  refine ⟨y, x, ?_⟩
  rw [Move_Grid_of_true g direction d h, hadd]
  rcases hv with rfl | rfl <;> simp [setCell]

/-! ## The 2048 engine: flags, construction and the tile invariant -/

theorem slide_Won (g : Game2048) (direction : String) :
    (slide g direction).1.Won = (g.Won || moveWins g.Grid direction) := by
  rcases slide_cases g direction with ⟨hd, h⟩ | ⟨hd, h⟩ | ⟨hd, h⟩ | ⟨hd, h⟩ | ⟨h1, h2, h3, h4, h⟩
  · rw [h, moveUp_eq, hd]
    simp [slideSpec, moveWins, linesOf, idxUp, Bool.or_assoc]
  · rw [h, moveDown_eq, hd]
    simp [slideSpec, moveWins, linesOf, idxUp, Bool.or_assoc]
  · rw [h, moveLeft_eq, hd]
    simp [slideSpec, moveWins, linesOf, idxUp, Bool.or_assoc]
  · rw [h, moveRight_eq, hd]
    simp [slideSpec, moveWins, linesOf, idxUp, Bool.or_assoc]
  · rw [h]
    simp [moveWins, linesOf, h1, h2, h3, h4]

theorem Move_Won (g : Game2048) (direction : String) (d : Draw) :
    (Move g direction d).1.Won = (slide g direction).1.Won := by
  unfold Move
  simp only
  split_ifs
  · simp [checkGameState_Won, addRandomTile_Won]
  · rfl

theorem Move_GameOver (g : Game2048) (direction : String) (d : Draw) :
    (Move g direction d).1.GameOver =
      (g.GameOver || ((Move g direction d).2 && !hasEmptyCell (Move g direction d).1.Grid
        && !hasEqualNeighbour (Move g direction d).1.Grid)) := by
  unfold Move
  simp only
  by_cases h : (slide g direction).2 = true
  · rw [if_pos h]
    simp only
    rw [checkGameState_GameOver, checkGameState_Grid, addRandomTile_GameOver, slide_GameOver, h]
    simp
  · rw [if_neg h]
    simp only
    rw [slide_GameOver]
    simp [h]

theorem lineChanged_false (line : Fin 4 → Int) (h : lineChanged line = false) :
    lineGains line = [] ∧ lineWins line = false := by
  unfold lineChanged at h
  rw [Bool.or_eq_false_iff] at h
  have hm := h.1
  unfold lineMerges at hm
  have hnil : mergeGains (compact (lineList line)) = [] := by
    cases hl : mergeGains (compact (lineList line)) with
    | nil => rfl
    | cons a l => rw [hl] at hm; simp at hm
  unfold lineGains lineWins
  rw [hnil]
  simp

/-- A slide routine that reports no change has changed neither score nor flags. -/
theorem slideSpec_of_false (L G' : Fin 4 → Fin 4 → Int) (g : Game2048)
    (h : (slideSpec L G' g).2 = false) :
    (slideSpec L G' g).1 = { g with Grid := G' } := by
  simp only [slideSpec, Bool.or_eq_false_iff] at h
  obtain ⟨⟨⟨h0, h1⟩, h2⟩, h3⟩ := h
  have e0 := lineChanged_false _ h0
  have e1 := lineChanged_false _ h1
  have e2 := lineChanged_false _ h2
  have e3 := lineChanged_false _ h3
  simp only [slideSpec, e0.1, e1.1, e2.1, e3.1, e0.2, e1.2, e2.2, e3.2]
  simp [addGains]

/-- A slide that reports no change leaves the whole engine as it is. -/
theorem slide_of_false (g : Game2048) (direction : String)
    (h : (slide g direction).2 = false) : (slide g direction).1 = g := by
  have hG := (slide_snd_false_iff g direction).1 h
  have hgrid : ∀ (G' : Fin 4 → Fin 4 → Int), G' = g.Grid → ({ g with Grid := G' } : Game2048) = g := by
    intro G' e
    subst e
    rfl
  rcases slide_cases g direction with ⟨_, e⟩ | ⟨_, e⟩ | ⟨_, e⟩ | ⟨_, e⟩ | ⟨_, _, _, _, e⟩
  · rw [e, moveUp_eq] at h hG ⊢
    rw [slideSpec_of_false _ _ _ h]
    exact hgrid _ hG
  · rw [e, moveDown_eq] at h hG ⊢
    rw [slideSpec_of_false _ _ _ h]
    exact hgrid _ hG
  · rw [e, moveLeft_eq] at h hG ⊢
    rw [slideSpec_of_false _ _ _ h]
    exact hgrid _ hG
  · rw [e, moveRight_eq] at h hG ⊢
    rw [slideSpec_of_false _ _ _ h]
    exact hgrid _ hG
  · rw [e]

theorem IsTile.double (v : Int) (h : IsTile v) : IsTile (v + v) := by
  obtain ⟨k, hk, rfl⟩ := h
  exact ⟨k + 1, by omega, by ring⟩

theorem IsTile.ne_zero (v : Int) (h : IsTile v) : v ≠ 0 := by
  obtain ⟨k, _, rfl⟩ := h
  positivity

/-- What `addRandomTile` does to the grid: nothing, or one empty cell receives 2 or 4. -/
theorem addRandomTile_cases (g : Game2048) (d : Draw) :
    addRandomTile g d = g ∨
    ∃ y x v, g.Grid y x = 0 ∧ (v = 2 ∨ v = 4) ∧
      addRandomTile g d = { g with Grid := setCell g.Grid y x v } := by
  by_cases h : ∃ y x, g.Grid y x = 0
  · exact Or.inr (addRandomTile_spawn g d h)
  · left
    have hnil : emptyCells g.Grid = [] := by
      apply List.eq_nil_iff_forall_not_mem.mpr
      intro p hp
      exact h ⟨p.1, p.2, (mem_emptyCells _ _).1 hp⟩
    unfold addRandomTile
    simp [hnil]

theorem addRandomTile_tiles (g : Game2048) (d : Draw)
    (h : ∀ y x, g.Grid y x = 0 ∨ IsTile (g.Grid y x)) (y x : Fin 4) :
    (addRandomTile g d).Grid y x = 0 ∨ IsTile ((addRandomTile g d).Grid y x) := by
  rcases addRandomTile_cases g d with e | ⟨y0, x0, v, _, hv, e⟩
  · rw [e]
    exact h y x
  · rw [e]
    simp only [setCell]
    by_cases hc : y = y0 ∧ x = x0
    · rw [if_pos hc]
      right
      rcases hv with rfl | rfl
      · exact ⟨1, le_refl _, rfl⟩
      · exact ⟨2, by omega, rfl⟩
    · rw [if_neg hc]
      exact h y x

theorem NewGame2048_tiles (d1 d2 : Draw) (y x : Fin 4) :
    (NewGame2048 d1 d2).Grid y x = 0 ∨ IsTile ((NewGame2048 d1 d2).Grid y x) := by
  unfold NewGame2048
  apply addRandomTile_tiles
  apply addRandomTile_tiles
  intro _ _
  exact Or.inl rfl

theorem tileCount_zero : tileCount (fun _ _ => 0) = 0 := by
  simp [tileCount]

/-- The engine `NewGame2048` returns: two different cells of the empty grid hold 2 or 4. -/
theorem NewGame2048_form (d1 d2 : Draw) :
    ∃ y1 x1 v1 y2 x2 v2, (v1 = 2 ∨ v1 = 4) ∧ (v2 = 2 ∨ v2 = 4) ∧ (y2, x2) ≠ (y1, x1) ∧
      NewGame2048 d1 d2 =
        { Grid := setCell (setCell (fun _ _ => 0) y1 x1 v1) y2 x2 v2,
          Score := 0, GameOver := false, Won := false } := by
  obtain ⟨y1, x1, v1, _, hv1, e1⟩ :=
    addRandomTile_spawn ⟨fun _ _ => 0, 0, false, false⟩ d1 ⟨0, 0, rfl⟩
  have hex : ∃ y x, (addRandomTile ⟨fun _ _ => 0, 0, false, false⟩ d1).Grid y x = 0 := by
    rw [e1]
    by_cases hc : (0 : Fin 4) = y1 ∧ (0 : Fin 4) = x1
    · refine ⟨0, 1, ?_⟩
      have : ¬ ((0 : Fin 4) = y1 ∧ (1 : Fin 4) = x1) := by
        intro h
        rw [← hc.2] at h
        exact absurd h.2 (by decide)
      simp [setCell, this]
    · refine ⟨0, 0, ?_⟩
      simp [setCell, hc]
  obtain ⟨y2, x2, v2, h02, hv2, e2⟩ := addRandomTile_spawn _ d2 hex
  refine ⟨y1, x1, v1, y2, x2, v2, hv1, hv2, ?_, ?_⟩
  · intro hc
    have hy : y2 = y1 := congrArg Prod.fst hc
    have hx : x2 = x1 := congrArg Prod.snd hc
    rw [e1] at h02
    simp only [setCell, hy, hx, and_self, if_true] at h02
    rcases hv1 with rfl | rfl <;> simp at h02
  · unfold NewGame2048
    rw [e2, e1]

/-! ## The 2048 engine: a finished game, and moves after the end -/

theorem game_eq (a b : Game2048) (hG : ∀ y x, a.Grid y x = b.Grid y x)
    (hS : a.Score = b.Score) (hO : a.GameOver = b.GameOver) (hW : a.Won = b.Won) : a = b := by
  obtain ⟨G, s, o, w⟩ := a
  obtain ⟨G', s', o', w'⟩ := b
  have : G = G' := funext fun y => funext fun x => hG y x
  simp only at hS hO hW
  subst this hS hO hW
  rfl

theorem Reachable2048.new_eq (g' : Game2048) (d1 d2 : Draw)
    (hG : ∀ y x, (NewGame2048 d1 d2).Grid y x = g'.Grid y x)
    (hS : (NewGame2048 d1 d2).Score = g'.Score)
    (hO : (NewGame2048 d1 d2).GameOver = g'.GameOver)
    (hW : (NewGame2048 d1 d2).Won = g'.Won) : Reachable2048 g' := by
  rw [← game_eq _ _ hG hS hO hW]
  exact Reachable2048.new d1 d2

theorem Reachable2048.move_eq (g g' : Game2048) (direction : String) (d : Draw)
    (h : Reachable2048 g)
    (hG : ∀ y x, (Move g direction d).1.Grid y x = g'.Grid y x)
    (hS : (Move g direction d).1.Score = g'.Score)
    (hO : (Move g direction d).1.GameOver = g'.GameOver)
    (hW : (Move g direction d).1.Won = g'.Won) : Reachable2048 g' := by
  rw [← game_eq _ _ hG hS hO hW]
  exact Reachable2048.move g direction d h

theorem lostGame_reachable : Reachable2048 lostGame := by
  have h0 : Reachable2048
      ⟨![![2, 4, 0, 0], ![0, 0, 0, 0], ![0, 0, 0, 0], ![0, 0, 0, 0]], 0, false, false⟩ :=
    Reachable2048.new_eq _ ⟨0, true⟩ ⟨0, false⟩ (by decide) (by decide)
      (by decide) (by decide)
  have h1 : Reachable2048
      ⟨![![2, 0, 2, 4], ![0, 0, 0, 0], ![0, 0, 0, 0], ![0, 0, 0, 0]], 0, false, false⟩ :=
    Reachable2048.move_eq _ _ "right" ⟨0, true⟩ h0 (by decide) (by decide)
      (by decide) (by decide)
  have h2 : Reachable2048
      ⟨![![4, 0, 0, 0], ![0, 0, 0, 0], ![0, 0, 0, 0], ![2, 0, 2, 4]], 0, false, false⟩ :=
    Reachable2048.move_eq _ _ "down" ⟨0, false⟩ h1 (by decide) (by decide)
      (by decide) (by decide)
  have h3 : Reachable2048
      ⟨![![4, 0, 2, 4], ![2, 4, 0, 0], ![0, 0, 0, 0], ![0, 0, 0, 0]], 0, false, false⟩ :=
    Reachable2048.move_eq _ _ "up" ⟨1, false⟩ h2 (by decide) (by decide)
      (by decide) (by decide)
  have h4 : Reachable2048
      ⟨![![4, 2, 4, 2], ![2, 4, 0, 0], ![0, 0, 0, 0], ![0, 0, 0, 0]], 0, false, false⟩ :=
    Reachable2048.move_eq _ _ "left" ⟨0, true⟩ h3 (by decide) (by decide)
      (by decide) (by decide)
  have h5 : Reachable2048
      ⟨![![4, 2, 4, 2], ![2, 0, 2, 4], ![0, 0, 0, 0], ![0, 0, 0, 0]], 0, false, false⟩ :=
    Reachable2048.move_eq _ _ "right" ⟨0, true⟩ h4 (by decide) (by decide)
      (by decide) (by decide)
  have h6 : Reachable2048
      ⟨![![2, 0, 0, 0], ![0, 0, 0, 0], ![4, 0, 4, 2], ![2, 2, 2, 4]], 0, false, false⟩ :=
    Reachable2048.move_eq _ _ "down" ⟨0, true⟩ h5 (by decide) (by decide)
      (by decide) (by decide)
  have h7 : Reachable2048
      ⟨![![2, 2, 4, 2], ![4, 0, 2, 4], ![2, 4, 0, 0], ![0, 0, 0, 0]], 0, false, false⟩ :=
    Reachable2048.move_eq _ _ "up" ⟨1, false⟩ h6 (by decide) (by decide)
      (by decide) (by decide)
  have h8 : Reachable2048
      ⟨![![4, 0, 0, 0], ![2, 0, 0, 0], ![4, 2, 4, 2], ![2, 4, 2, 4]], 0, false, false⟩ :=
    Reachable2048.move_eq _ _ "down" ⟨0, false⟩ h7 (by decide) (by decide)
      (by decide) (by decide)
  have h9 : Reachable2048
      ⟨![![4, 2, 4, 2], ![2, 4, 2, 4], ![4, 2, 0, 0], ![2, 0, 0, 0]], 0, false, false⟩ :=
    Reachable2048.move_eq _ _ "up" ⟨0, true⟩ h8 (by decide) (by decide)
      (by decide) (by decide)
  have h10 : Reachable2048
      ⟨![![4, 2, 4, 2], ![2, 4, 2, 4], ![0, 2, 4, 2], ![0, 0, 0, 2]], 0, false, false⟩ :=
    Reachable2048.move_eq _ _ "right" ⟨1, true⟩ h9 (by decide) (by decide)
      (by decide) (by decide)
  have h11 : Reachable2048
      ⟨![![4, 2, 4, 2], ![2, 4, 2, 4], ![2, 4, 2, 0], ![2, 0, 4, 0]], 0, false, false⟩ :=
    Reachable2048.move_eq _ _ "left" ⟨2, false⟩ h10 (by decide) (by decide)
      (by decide) (by decide)
  have h12 : Reachable2048
      ⟨![![4, 2, 4, 2], ![2, 4, 2, 4], ![4, 2, 4, 2], ![0, 0, 2, 4]], 0, false, false⟩ :=
    Reachable2048.move_eq _ _ "right" ⟨0, false⟩ h11 (by decide) (by decide)
      (by decide) (by decide)
  have h13 : Reachable2048
      ⟨![![4, 2, 4, 2], ![2, 4, 2, 4], ![4, 2, 4, 2], ![2, 4, 0, 2]], 0, false, false⟩ :=
    Reachable2048.move_eq _ _ "left" ⟨1, true⟩ h12 (by decide) (by decide)
      (by decide) (by decide)
  have h14 : Reachable2048
      ⟨![![4, 2, 4, 2], ![2, 4, 2, 4], ![4, 2, 4, 2], ![2, 4, 2, 4]], 0, true, false⟩ :=
    Reachable2048.move_eq _ _ "left" ⟨0, false⟩ h13 (by decide) (by decide)
      (by decide) (by decide)
  exact h14

/-- On a full grid without equal neighbours `Move` changes nothing. -/
theorem stuck_Move (g : Game2048) (h1 : hasEmptyCell g.Grid = false)
    (h2 : hasEqualNeighbour g.Grid = false) (direction : String) (d : Draw) :
    Move g direction d = (g, false) := by
  have htile : ∃ y x, g.Grid y x ≠ 0 := ⟨0, 0, (hasEmptyCell_false_iff _).1 h1 0 0⟩
  have hfix := (criterion_iff_fixed g htile).1 ⟨h1, h2⟩ direction
  have hfalse := (slide_snd_false_iff g direction).2 hfix
  have hg := slide_of_false g direction hfalse
  unfold Move
  simp only [hfalse, hg]
  rfl

/-- In a reachable state `GameOver` is set only on a full grid without equal
neighbours. -/
theorem reachable_gameOver_stuck (g : Game2048) (h : Reachable2048 g)
    (hgo : g.GameOver = true) :
    hasEmptyCell g.Grid = false ∧ hasEqualNeighbour g.Grid = false := by
  induction h with
  | new d1 d2 =>
    have : (NewGame2048 d1 d2).GameOver = false := by
      unfold NewGame2048
      rw [addRandomTile_GameOver, addRandomTile_GameOver]
    rw [this] at hgo
    exact absurd hgo (by simp)
  | reset g d1 d2 _ _ =>
    have : (Reset g d1 d2).GameOver = false := by
      unfold Reset
      rw [addRandomTile_GameOver, addRandomTile_GameOver]
    rw [this] at hgo
    exact absurd hgo (by simp)
  | move g direction d _ ih =>
    cases hg : g.GameOver with
    | true =>
      obtain ⟨h1, h2⟩ := ih hg
      rw [stuck_Move g h1 h2 direction d]
      exact ⟨h1, h2⟩
    | false =>
      rw [Move_GameOver, hg] at hgo
      simp only [Bool.false_or, Bool.and_eq_true, Bool.not_eq_true'] at hgo
      exact ⟨hgo.1.2, hgo.2⟩

/-! ## The 2048 engine: the tiles of a reachable state, and their bound -/

theorem wrapInt_of_fits (v : Int) (h1 : -9223372036854775808 ≤ v)
    (h2 : v < 9223372036854775808) : wrapInt v = v := by
  unfold wrapInt
  omega

theorem countGe_nil (t : Nat) : countGe t [] = 0 := rfl

theorem countGe_cons (t : Nat) (a : Int) (l : List Int) :
    countGe t (a :: l) = countGe t l + if (2 : Int) ^ t ≤ a then 1 else 0 := by
  unfold countGe
  rw [List.countP_cons]
  simp

theorem countGe_append (t : Nat) (l l' : List Int) :
    countGe t (l ++ l') = countGe t l + countGe t l' := by
  unfold countGe
  exact List.countP_append _ _ _

theorem countGe_le_length (t : Nat) (l : List Int) : countGe t l ≤ l.length := by
  unfold countGe
  exact List.countP_le_length _

theorem countGe_mono (t t' : Nat) (h : t ≤ t') (l : List Int) : countGe t' l ≤ countGe t l := by
  unfold countGe
  apply List.countP_mono_left
  intro v _ hv
  simp only [decide_eq_true_eq] at hv ⊢
  exact le_trans (pow_le_pow_right₀ (by norm_num) h) hv

theorem pow_two_le_iff (t k : Nat) : (2 : Int) ^ t ≤ 2 ^ k ↔ t ≤ k :=
  pow_le_pow_iff_right₀ (by norm_num)

/-- No tile of a list that fits the board reaches `2 ^ 18`. -/
theorem Fits.lt {l : List Int} (h : Fits l) (v : Int) (hv : v ∈ l) : v < 2 ^ 18 := by
  by_contra hc
  push_neg at hc
  have hpos : 0 < countGe 18 l := by
    unfold countGe
    rw [List.countP_pos_iff]
    exact ⟨v, hv, by simpa using hc⟩
  have := h.room 18 (by norm_num)
  omega

/-- Merging two equal tiles of a list that fits the board leaves a list that
fits the board. -/
theorem Fits.merge (pre post : List Int) (a : Int) (h : Fits (pre ++ a :: a :: post)) :
    Fits (pre ++ (a + a) :: post) := by
  obtain ⟨k, hk, rfl⟩ := h.tiles a (by simp)
  have hsum : (2 : Int) ^ k + 2 ^ k = 2 ^ (k + 1) := by ring
  have hlen := h.length
  simp only [List.length_append, List.length_cons] at hlen
  refine { tiles := ?_, length := ?_, room := ?_ }
  · intro v hv
    simp only [List.mem_append, List.mem_cons] at hv
    rcases hv with hv | rfl | hv
    · exact h.tiles v (by simp [hv])
    · exact ⟨k + 1, by omega, hsum⟩
    · exact h.tiles v (by simp [hv])
  · simp only [List.length_append, List.length_cons]
    omega
  · intro t ht
    have hr := h.room t ht
    simp only [countGe_append, countGe_cons, pow_two_le_iff] at hr
    simp only [countGe_append, countGe_cons, hsum, pow_two_le_iff]
    by_cases h1 : t ≤ k
    · rw [if_pos h1] at hr
      rw [if_pos (by omega)]
      omega
    · rw [if_neg h1] at hr
      by_cases h2 : t ≤ k + 1
      · rw [if_pos h2]
        have hp := countGe_mono k t (by omega) pre
        have hq := countGe_mono k t (by omega) post
        by_cases h3 : 3 ≤ k
        · have hr' := h.room k h3
          simp only [countGe_append, countGe_cons, pow_two_le_iff, le_refl, if_true] at hr'
          omega
        · have hp' := countGe_le_length t pre
          have hq' := countGe_le_length t post
          omega
      · rw [if_neg h2]
        omega

/-- The merge scan of the code, run on a part of a list that fits the board,
leaves a list that fits the board; none of its sums wraps around. -/
theorem fits_mergePairs (c : List Int) : ∀ (pre post : List Int),
    Fits (pre ++ c ++ post) → Fits (pre ++ mergePairs c ++ post) := by
  induction c using mergePairs.induct with
  | case1 a rest ih =>
    intro pre post h
    have ha : a < 2 ^ 18 := h.lt a (by simp)
    obtain ⟨k, _, hk⟩ := h.tiles a (by simp)
    have hpos : 0 < a := by rw [hk]; positivity
    have hw : wrapInt (a + a) = a + a := wrapInt_of_fits _ (by omega) (by omega)
    have h1 : Fits (pre ++ (a + a) :: (rest ++ post)) := by
      apply Fits.merge
      simpa using h
    have h2 := ih (pre ++ [a + a]) post (by simpa using h1)
    simp only [mergePairs, if_true, hw]
    simpa using h2
  | case2 a b rest he ih =>
    intro pre post h
    have h2 := ih (pre ++ [a]) post (by simpa using h)
    simp only [mergePairs, if_neg he]
    simpa using h2
  | case3 l hl =>
    intro pre post h
    match l, hl with
    | [], _ => simpa [mergePairs] using h
    | [a], _ => simpa [mergePairs] using h
    | a :: b :: rest, hl => exact absurd rfl (hl a b rest)

theorem countGe_compact (t : Nat) (l : List Int) : countGe t (compact l) = countGe t l := by
  unfold countGe compact
  rw [List.countP_filter]
  apply List.countP_congr
  intro v _
  simp only [ne_eq, decide_not, Bool.and_eq_true, decide_eq_true_eq, Bool.not_eq_true',
    decide_eq_false_iff_not]
  constructor
  · exact fun h => h.1
  · intro h
    refine ⟨h, ?_⟩
    have : (0 : Int) < 2 ^ t := by positivity
    omega

theorem countGe_replicate_zero (t n : Nat) : countGe t (List.replicate n (0 : Int)) = 0 := by
  unfold countGe
  rw [List.countP_eq_zero]
  intro v hv
  have : (0 : Int) < 2 ^ t := by positivity
  simp only [(List.mem_replicate.mp hv).2, decide_eq_true_eq, not_le]
  exact this

theorem countGe_slideLine (t : Nat) (line : Fin 4 → Int) :
    countGe t (lineList (slideLine line)) = countGe t (mergedLine line) := by
  have h : lineList (slideLine line)
      = mergedLine line ++ List.replicate (4 - (mergedLine line).length) 0 :=
    padList _ (mergedLine_length_le line)
  rw [h, countGe_append, countGe_replicate_zero, Nat.add_zero]

theorem mem_lineList (line : Fin 4 → Int) (v : Int) :
    v ∈ lineList line ↔ ∃ k, v = line k := by
  simp only [lineList, List.mem_cons, List.mem_singleton, List.not_mem_nil, or_false]
  constructor
  · rintro (h | h | h | h)
    · exact ⟨0, h⟩
    · exact ⟨1, h⟩
    · exact ⟨2, h⟩
    · exact ⟨3, h⟩
  · rintro ⟨k, h⟩
    fin_cases k
    · exact Or.inl h
    · exact Or.inr (Or.inl h)
    · exact Or.inr (Or.inr (Or.inl h))
    · exact Or.inr (Or.inr (Or.inr h))

/-- The slide of the four rows of a grid whose tiles can stand on the board
together leaves such a grid. -/
theorem tileBound_rows (L : Fin 4 → Fin 4 → Int) (h : TileBound L) :
    TileBound fun j => slideLine (L j) := by
  have htile : ∀ j, ∀ v ∈ compact (lineList (L j)), IsTile v := by
    intro j v hv
    have hv0 := compact_ne_zero _ v hv
    obtain ⟨k, rfl⟩ := (mem_lineList _ _).1 (List.mem_filter.mp hv).1
    exact (h.tiles j k).resolve_left hv0
  have F0 : Fits (compact (lineList (L 0)) ++ compact (lineList (L 1)) ++
      compact (lineList (L 2)) ++ compact (lineList (L 3))) := by
    refine { tiles := ?_, length := ?_, room := ?_ }
    · intro v hv
      simp only [List.mem_append] at hv
      rcases hv with ((hv | hv) | hv) | hv
      · exact htile 0 v hv
      · exact htile 1 v hv
      · exact htile 2 v hv
      · exact htile 3 v hv
    · have h0 := compact_length_le (L 0)
      have h1 := compact_length_le (L 1)
      have h2 := compact_length_le (L 2)
      have h3 := compact_length_le (L 3)
      simp only [List.length_append]
      omega
    · intro t ht
      have := h.room t ht
      simp only [cellList, countGe_append] at this
      simp only [countGe_append, countGe_compact]
      exact this
  have F1 : Fits (mergedLine (L 0) ++ mergedLine (L 1) ++ mergedLine (L 2) ++
      mergedLine (L 3)) := by
    have a0 := fits_mergePairs (compact (lineList (L 0))) []
      (compact (lineList (L 1)) ++ compact (lineList (L 2)) ++ compact (lineList (L 3)))
      (by simpa [List.append_assoc] using F0)
    have a1 := fits_mergePairs (compact (lineList (L 1))) (mergedLine (L 0))
      (compact (lineList (L 2)) ++ compact (lineList (L 3)))
      (by simpa [mergedLine, List.append_assoc] using a0)
    have a2 := fits_mergePairs (compact (lineList (L 2))) (mergedLine (L 0) ++ mergedLine (L 1))
      (compact (lineList (L 3)))
      (by simpa [mergedLine, List.append_assoc] using a1)
    have a3 := fits_mergePairs (compact (lineList (L 3)))
      (mergedLine (L 0) ++ mergedLine (L 1) ++ mergedLine (L 2)) []
      (by simpa [mergedLine, List.append_assoc] using a2)
    simpa [mergedLine, List.append_assoc] using a3
  refine { tiles := ?_, room := ?_ }
  · intro j k
    rw [slideLine_eq_getD]
    by_cases hk : k.val < (mergedLine (L j)).length
    · right
      rw [List.getD_eq_getElem _ _ hk]
      apply F1.tiles
      have hm := List.getElem_mem hk
      simp only [List.mem_append]
      fin_cases j
      · exact Or.inl (Or.inl (Or.inl hm))
      · exact Or.inl (Or.inl (Or.inr hm))
      · exact Or.inl (Or.inr hm)
      · exact Or.inr hm
    · left
      exact List.getD_eq_default _ _ (by omega)
  · intro t ht
    have := F1.room t ht
    simp only [countGe_append] at this
    simp only [cellList, countGe_append, countGe_slideLine]
    exact this

/-- A grid with the cells of a grid whose tiles can stand on the board
together, read in another order, is such a grid. -/
theorem tileBound_of_reading (G L : Fin 4 → Fin 4 → Int)
    (hcells : ∀ j k, ∃ y x, L j k = G y x)
    (hcnt : ∀ t, countGe t (cellList L) = countGe t (cellList G)) (h : TileBound G) :
    TileBound L := by
  refine { tiles := ?_, room := ?_ }
  · intro j k
    obtain ⟨y, x, e⟩ := hcells j k
    rw [e]
    exact h.tiles y x
  · intro t ht
    rw [hcnt t]
    exact h.room t ht

theorem countGe_mirrorGrid (t : Nat) (G : Fin 4 → Fin 4 → Int) :
    countGe t (cellList (mirrorGrid G)) = countGe t (cellList G) := by
  have r0 : Fin.rev (0 : Fin 4) = 3 := rfl
  have r1 : Fin.rev (1 : Fin 4) = 2 := rfl
  have r2 : Fin.rev (2 : Fin 4) = 1 := rfl
  have r3 : Fin.rev (3 : Fin 4) = 0 := rfl
  simp only [cellList, lineList, mirrorGrid, List.cons_append, List.nil_append, countGe_cons,
    countGe_nil, r0, r1, r2, r3]
  omega

theorem countGe_transposeGrid (t : Nat) (G : Fin 4 → Fin 4 → Int) :
    countGe t (cellList (transposeGrid G)) = countGe t (cellList G) := by
  simp only [cellList, lineList, transposeGrid, List.cons_append, List.nil_append, countGe_cons,
    countGe_nil]
  omega

theorem tileBound_mirrorGrid (G : Fin 4 → Fin 4 → Int) (h : TileBound G) :
    TileBound (mirrorGrid G) :=
  tileBound_of_reading G _ (fun j k => ⟨j, Fin.rev k, rfl⟩) (fun t => countGe_mirrorGrid t G) h

theorem tileBound_transposeGrid (G : Fin 4 → Fin 4 → Int) (h : TileBound G) :
    TileBound (transposeGrid G) :=
  tileBound_of_reading G _ (fun j k => ⟨k, j, rfl⟩) (fun t => countGe_transposeGrid t G) h

/-- Each slide leaves a grid whose tiles can stand on the board together as
such a grid. -/
theorem slide_tileBound (g : Game2048) (direction : String) (h : TileBound g.Grid) :
    TileBound (slide g direction).1.Grid := by
  rcases slide_cases g direction with ⟨_, e⟩ | ⟨_, e⟩ | ⟨_, e⟩ | ⟨_, e⟩ | ⟨_, _, _, _, e⟩
  · rw [e, moveUp_eq]
    exact tileBound_transposeGrid _ (tileBound_rows _ (tileBound_transposeGrid _ h))
  · rw [e, moveDown_eq]
    exact tileBound_transposeGrid _ (tileBound_mirrorGrid _
      (tileBound_rows _ (tileBound_mirrorGrid _ (tileBound_transposeGrid _ h))))
  · rw [e, moveLeft_eq]
    exact tileBound_rows _ h
  · rw [e, moveRight_eq]
    exact tileBound_mirrorGrid _ (tileBound_rows _ (tileBound_mirrorGrid _ h))
  · rw [e]
    exact h

theorem countGe_cellList_congr (t : Nat) (G G' : Fin 4 → Fin 4 → Int)
    (h : ∀ y x, ((2 : Int) ^ t ≤ G' y x) ↔ ((2 : Int) ^ t ≤ G y x)) :
    countGe t (cellList G') = countGe t (cellList G) := by
  simp only [cellList, lineList, List.cons_append, List.nil_append, countGe_cons, h]

theorem addRandomTile_tileBound (g : Game2048) (d : Draw) (h : TileBound g.Grid) :
    TileBound (addRandomTile g d).Grid := by
  refine { tiles := addRandomTile_tiles g d h.tiles, room := ?_ }
  intro t ht
  rcases addRandomTile_cases g d with e | ⟨y0, x0, v, h0, hv, e⟩
  · rw [e]
    exact h.room t ht
  · rw [e]
    have hpow : (8 : Int) ≤ 2 ^ t := by
      have : (2 : Int) ^ 3 ≤ 2 ^ t := pow_le_pow_right₀ (by norm_num) ht
      simpa using this
    rw [countGe_cellList_congr t g.Grid]
    · exact h.room t ht
    · intro y x
      simp only [setCell]
      by_cases hc : y = y0 ∧ x = x0
      · rw [if_pos hc, hc.1, hc.2, h0]
        rcases hv with rfl | rfl <;> constructor <;> intro h' <;> omega
      · rw [if_neg hc]

theorem tileBound_empty : TileBound fun _ _ => 0 := by
  refine { tiles := fun _ _ => Or.inl rfl, room := ?_ }
  intro t _
  have hz : countGe t (cellList fun _ _ => (0 : Int)) = 0 := by
    have : cellList (fun _ _ => (0 : Int)) = List.replicate 16 0 := rfl
    rw [this, countGe_replicate_zero]
  rw [hz]
  exact Nat.zero_le _

theorem Move_tileBound (g : Game2048) (direction : String) (d : Draw) (h : TileBound g.Grid) :
    TileBound (Move g direction d).1.Grid := by
  unfold Move
  simp only
  split_ifs
  · simp only [checkGameState_Grid]
    exact addRandomTile_tileBound _ d (slide_tileBound g direction h)
  · exact slide_tileBound g direction h

theorem NewGame2048_tileBound (d1 d2 : Draw) : TileBound (NewGame2048 d1 d2).Grid := by
  unfold NewGame2048
  apply addRandomTile_tileBound
  apply addRandomTile_tileBound
  exact tileBound_empty

/-- In every reachable state the tiles can stand on the board together; so no
tile exceeds `2 ^ 17` and no sum of a slide wraps around. -/
theorem reachable_tileBound (g : Game2048) (h : Reachable2048 g) : TileBound g.Grid := by
  induction h with
  | new d1 d2 => exact NewGame2048_tileBound d1 d2
  | move g direction d _ ih => exact Move_tileBound g direction d ih
  | reset g d1 d2 _ _ => exact NewGame2048_tileBound d1 d2

/-! ## The 2048 engine: the code against the specification's exact sums -/

/-- Where doubling no value of a list leaves the range of `int`, the merge scan
of the code computes the sums the specification speaks of. -/
theorem mergePairs_spec (c : List Int)
    (h : ∀ v ∈ c, -2 ^ 62 ≤ v ∧ v < 2 ^ 62) :
    mergePairs c = specMergePairs c ∧ mergeGains c = specMergeGains c := by
  induction c using mergePairs.induct with
  | case1 a rest ih =>
    obtain ⟨h1, h2⟩ := h a (by simp)
    have hw : wrapInt (a + a) = a + a := by
      apply wrapInt_of_fits
      · norm_num at h1 ⊢; omega
      · norm_num at h2 ⊢; omega
    obtain ⟨e1, e2⟩ := ih fun w hw => h w (by simp [hw])
    simp only [mergePairs, specMergePairs, mergeGains, specMergeGains, if_true, hw, e1, e2]
    exact ⟨trivial, trivial⟩
  | case2 a b rest he ih =>
    obtain ⟨e1, e2⟩ := ih fun w hw => h w (List.mem_cons_of_mem _ hw)
    simp only [mergePairs, specMergePairs, mergeGains, specMergeGains, if_neg he, e1, e2]
    exact ⟨trivial, trivial⟩
  | case3 l hl =>
    match l, hl with
    | [], _ => simp [mergePairs, specMergePairs, mergeGains, specMergeGains]
    | [a], _ => simp [mergePairs, specMergePairs, mergeGains, specMergeGains]
    | a :: b :: rest, hl => exact absurd rfl (hl a b rest)

theorem line_spec (line : Fin 4 → Int) (h : ∀ k, -2 ^ 62 ≤ line k ∧ line k < 2 ^ 62) :
    slideLine line = specSlideLine line ∧
    lineGains line = specMergeGains (compact (lineList line)) ∧
    lineWins line = specLineWins line := by
  have hc : ∀ v ∈ compact (lineList line), -2 ^ 62 ≤ v ∧ v < 2 ^ 62 := by
    intro v hv
    obtain ⟨k, rfl⟩ := (mem_lineList _ _).1 (List.mem_filter.mp hv).1
    exact h k
  obtain ⟨e1, e2⟩ := mergePairs_spec _ hc
  refine ⟨?_, e2, ?_⟩
  · funext i
    show (mergePairs (compact (lineList line))).getD i.val 0 = _
    rw [e1]
    rfl
  · unfold lineWins specLineWins
    rw [e2]

theorem specMergeGains_nonneg (c : List Int) (hc : ∀ v ∈ c, 0 ≤ v) :
    ∀ v ∈ specMergeGains c, 0 ≤ v := by
  induction c using specMergeGains.induct with
  | case1 a rest ih =>
    intro v hv
    simp only [specMergeGains, if_true, List.mem_cons] at hv
    have := hc a (by simp)
    rcases hv with rfl | hv
    · omega
    · exact ih (fun w hw => hc w (by simp [hw])) v hv
  | case2 a b rest he ih =>
    simp only [specMergeGains, if_neg he]
    exact ih (fun w hw => hc w (List.mem_cons_of_mem _ hw))
  | case3 l hl =>
    match l, hl with
    | [], _ => simp [specMergeGains]
    | [a], _ => simp [specMergeGains]
    | a :: b :: rest, hl => exact absurd rfl (hl a b rest)

/-- Adding values that are not negative to a score, where the exact total stays
in the range of `int`, gives the exact total. -/
theorem addGains_eq (l : List Int) (hl : ∀ v ∈ l, 0 ≤ v) : ∀ (s : Int),
    -9223372036854775808 ≤ s → s + l.sum < 9223372036854775808 →
    addGains s l = s + l.sum := by
  induction l with
  | nil => intro s _ _; simp [addGains]
  | cons a l ih =>
    intro s h1 h2
    have ha := hl a (by simp)
    have hsum : 0 ≤ l.sum := List.sum_nonneg fun v hv => hl v (List.mem_cons_of_mem _ hv)
    rw [List.sum_cons] at h2
    have hw : wrapInt (s + a) = s + a := wrapInt_of_fits _ (by omega) (by omega)
    have := ih (fun v hv => hl v (List.mem_cons_of_mem _ hv)) (s + a) (by omega) (by omega)
    unfold addGains at this ⊢
    rw [List.foldl_cons, hw, this, List.sum_cons]
    ring

theorem linesOf_cells (G : Fin 4 → Fin 4 → Int) (direction : String) (line : Fin 4 → Int)
    (h : line ∈ linesOf G direction) (k : Fin 4) : ∃ y x, line k = G y x := by
  unfold linesOf at h
  split_ifs at h
  · obtain ⟨j, _, rfl⟩ := List.mem_map.mp h
    exact ⟨_, _, rfl⟩
  · obtain ⟨j, _, rfl⟩ := List.mem_map.mp h
    exact ⟨_, _, rfl⟩
  · obtain ⟨j, _, rfl⟩ := List.mem_map.mp h
    exact ⟨_, _, rfl⟩
  · obtain ⟨j, _, rfl⟩ := List.mem_map.mp h
    exact ⟨_, _, rfl⟩
  · simp at h

/-- On a grid where doubling no cell leaves the range of `int`, the merged
values and the 2048 test of a move are those of the specification. -/
theorem moveGains_spec (G : Fin 4 → Fin 4 → Int) (direction : String)
    (h : ∀ y x, -2 ^ 62 ≤ G y x ∧ G y x < 2 ^ 62) :
    (moveGains G direction).sum = specMoveGain G direction ∧
    moveWins G direction = specMoveWins G direction := by
  have hline : ∀ line ∈ linesOf G direction, lineGains line
      = specMergeGains (compact (lineList line)) ∧ lineWins line = specLineWins line := by
    intro line hl
    have hb : ∀ k, -2 ^ 62 ≤ line k ∧ line k < 2 ^ 62 := by
      intro k
      obtain ⟨y, x, e⟩ := linesOf_cells G direction line hl k
      rw [e]
      exact h y x
    exact (line_spec line hb).2
  constructor
  · unfold moveGains specMoveGain
    rw [List.sum_flatten, List.map_map]
    congr 1
    apply List.map_congr_left
    intro line hl
    simp only [Function.comp, specLineGain, (hline line hl).1]
  · unfold moveWins specMoveWins
    rw [Bool.eq_iff_iff]
    simp only [List.any_eq_true]
    constructor
    · rintro ⟨line, hl, hw⟩
      exact ⟨line, hl, by rw [← (hline line hl).2]; exact hw⟩
    · rintro ⟨line, hl, hw⟩
      exact ⟨line, hl, by rw [(hline line hl).2]; exact hw⟩

theorem slide_Score (g : Game2048) (direction : String) :
    (slide g direction).1.Score = addGains g.Score (moveGains g.Grid direction) := by
  rcases slide_cases g direction with ⟨hd, h⟩ | ⟨hd, h⟩ | ⟨hd, h⟩ | ⟨hd, h⟩ | ⟨h1, h2, h3, h4, h⟩
  · rw [h, moveUp_eq, hd]
    simp [slideSpec, moveGains, linesOf, idxUp]
  · rw [h, moveDown_eq, hd]
    simp [slideSpec, moveGains, linesOf, idxUp]
  · rw [h, moveLeft_eq, hd]
    simp [slideSpec, moveGains, linesOf, idxUp]
  · rw [h, moveRight_eq, hd]
    simp [slideSpec, moveGains, linesOf, idxUp]
  · rw [h]
    simp [moveGains, linesOf, h1, h2, h3, h4, addGains]

theorem specMoveGain_nonneg (G : Fin 4 → Fin 4 → Int) (h : ∀ y x, 0 ≤ G y x)
    (direction : String) :
    ∀ line ∈ linesOf G direction, ∀ v ∈ specMergeGains (compact (lineList line)), 0 ≤ v := by
  intro line hl
  apply specMergeGains_nonneg
  intro v hv
  obtain ⟨k, rfl⟩ := (mem_lineList _ _).1 (List.mem_filter.mp hv).1
  obtain ⟨y, x, e⟩ := linesOf_cells G direction line hl k
  rw [e]
  exact h y x

/-! ## The 2048 engine: the properties of the specification -/

/-- C1: the slide performed by `Move("left")`, before any tile is spawned,
replaces every row by its non-zero values in order, scanned from the left with
each adjacent equal pair merged once into its sum (a merged value is not merged
again), padded with zeros to length 4. For every grid the sum is the one the
arithmetic of `int` gives; where doubling no cell of the row leaves the range
of `int` it is the exact sum, and the row is the one the specification's line
function gives. Rows `[2,2,4,0]` and `[2,2,2,2]` both become `[4,4,0,0]`, on
the specification's line function and on the code. -/
theorem moveLeft_row_spec (g : Game2048) (y : Fin 4) :
    (slide g "left").1.Grid y = slideLine (g.Grid y) ∧
    ((∀ x, -2 ^ 62 ≤ g.Grid y x ∧ g.Grid y x < 2 ^ 62) →
      (slide g "left").1.Grid y = specSlideLine (g.Grid y)) ∧
    specSlideLine ![2, 2, 4, 0] = ![4, 4, 0, 0] ∧
    specSlideLine ![2, 2, 2, 2] = ![4, 4, 0, 0] ∧
    (slide ⟨![![2, 2, 4, 0], ![2, 2, 2, 2], ![0, 0, 0, 0], ![0, 0, 0, 0]], 0, false, false⟩
        "left").1.Grid
      = ![![4, 4, 0, 0], ![4, 4, 0, 0], ![0, 0, 0, 0], ![0, 0, 0, 0]] := by
  have h1 : (slide g "left").1.Grid y = slideLine (g.Grid y) := by
    rw [slide_left, moveLeft_eq]
    rfl
  refine ⟨h1, ?_, by decide, by decide, by decide⟩
  intro hb
  rw [h1, (line_spec (g.Grid y) hb).1]

/-- Witness of C1: the first row of the example grid, whose cells are far
below `2 ^ 62`; and the row `[2 ^ 62, 2 ^ 62, 0, 0]`, which the code turns into
`[-2 ^ 63, 0, 0, 0]`. -/
theorem moveLeft_row_spec_witness :
    (slide ⟨overflowGrid, 0, false, false⟩ "left").1.Grid 0
      = ![-9223372036854775808, 0, 0, 0] ∧
    (slide ⟨exampleGrid, 0, false, false⟩ "left").1.Grid 0 = specSlideLine (exampleGrid 0) :=
  ⟨by decide,
    (moveLeft_row_spec ⟨exampleGrid, 0, false, false⟩ 0).2.1 (by decide)⟩

theorem TileGrid_nonneg (G : Fin 4 → Fin 4 → Int) (h : TileGrid G) (y x : Fin 4) :
    0 ≤ G y x := by
  rcases h y x with h0 | ⟨k, hk⟩
  · omega
  · rw [hk]; positivity

theorem exampleGrid_tiles : TileGrid exampleGrid := by
  intro y x
  fin_cases y <;> fin_cases x <;>
    first
    | exact Or.inl rfl
    | exact Or.inr ⟨1, rfl⟩
    | exact Or.inr ⟨2, rfl⟩

/-- Refutation of C2 as stated: the grid `overflowGrid` holds powers of two,
and moving it left with `Score` 0 merges the two tiles `2 ^ 62` into the cell
`-2 ^ 63` and leaves `Score` at `-2 ^ 63`, below the score before; the exact sum
of the merged values is `2 ^ 63`. -/
theorem Move_score_wraps :
    TileGrid overflowGrid ∧
    (Move ⟨overflowGrid, 0, false, false⟩ "left" ⟨0, true⟩).1.Grid 0 0
      = -9223372036854775808 ∧
    (Move ⟨overflowGrid, 0, false, false⟩ "left" ⟨0, true⟩).1.Score = -9223372036854775808 ∧
    (Move ⟨overflowGrid, 0, false, false⟩ "left" ⟨0, true⟩).1.Score < 0 ∧
    specMoveGain overflowGrid "left" = 9223372036854775808 := by
  refine ⟨?_, by decide, by decide, by decide, by decide⟩
  intro y x
  fin_cases y <;> fin_cases x <;>
    first
    | exact Or.inl rfl
    | exact Or.inr ⟨62, by norm_num [overflowGrid]⟩

/-- C2, amended: for every direction and every engine state, the new `Score` is
the old one with the merged values of the move added in the arithmetic of
`int`. If the grid cells are 0 or powers of two below `2 ^ 62`, and the old
`Score` and its exact sum with the merged values are in the range of `int`,
then the new `Score` is the old one plus exactly the sum of the merged values
the move produces, and `Move` does not decrease `Score`. -/
theorem Move_score_gain (g : Game2048) (direction : String) (d : Draw)
    (h : TileGrid g.Grid) (hb : ∀ y x, g.Grid y x < 2 ^ 62)
    (hs : -2 ^ 63 ≤ g.Score) (ht : g.Score + specMoveGain g.Grid direction < 2 ^ 63) :
    (Move g direction d).1.Score = addGains g.Score (moveGains g.Grid direction) ∧
    (Move g direction d).1.Score = g.Score + specMoveGain g.Grid direction ∧
    g.Score ≤ (Move g direction d).1.Score := by
  have h0 : (Move g direction d).1.Score = addGains g.Score (moveGains g.Grid direction) := by
    rw [Move_Score, slide_Score]
  have hnn : ∀ y x, 0 ≤ g.Grid y x := TileGrid_nonneg g.Grid h
  have hfit : ∀ y x, -2 ^ 62 ≤ g.Grid y x ∧ g.Grid y x < 2 ^ 62 := by
    intro y x
    have := hnn y x
    exact ⟨by norm_num; omega, hb y x⟩
  have hsum := (moveGains_spec g.Grid direction hfit).1
  have hpos : ∀ v ∈ moveGains g.Grid direction, 0 ≤ v := by
    intro v hv
    unfold moveGains at hv
    obtain ⟨l, hl, hvl⟩ := List.mem_flatten.mp hv
    obtain ⟨line, hline, rfl⟩ := List.mem_map.mp hl
    have hb' : ∀ k, -2 ^ 62 ≤ line k ∧ line k < 2 ^ 62 := by
      intro k
      obtain ⟨y, x, e⟩ := linesOf_cells g.Grid direction line hline k
      rw [e]
      exact hfit y x
    rw [(line_spec line hb').2.1] at hvl
    exact specMoveGain_nonneg g.Grid hnn direction line hline v hvl
  have h1 : (Move g direction d).1.Score = g.Score + specMoveGain g.Grid direction := by
    rw [h0, ← hsum]
    apply addGains_eq _ hpos
    · norm_num at hs ⊢
      exact hs
    · rw [hsum]
      norm_num at ht ⊢
      exact ht
  have h2 : 0 ≤ specMoveGain g.Grid direction := by
    rw [← hsum]
    exact List.sum_nonneg hpos
  exact ⟨h0, h1, by omega⟩

/-- Witness of C2: moving the example grid left gains 4 for the row `[2,2,4,0]`
and 8 for the row `[2,2,2,2]`. -/
theorem Move_score_gain_witness :
    specLineGain ![2, 2, 4, 0] = 4 ∧ specLineGain ![2, 2, 2, 2] = 8 ∧
    specMoveGain exampleGrid "left" = 12 ∧
    (Move ⟨exampleGrid, 100, false, false⟩ "left" ⟨0, true⟩).1.Score
      = addGains 100 (moveGains exampleGrid "left") ∧
    (Move ⟨exampleGrid, 100, false, false⟩ "left" ⟨0, true⟩).1.Score
      = 100 + specMoveGain exampleGrid "left" ∧
    (100 : Int) ≤ (Move ⟨exampleGrid, 100, false, false⟩ "left" ⟨0, true⟩).1.Score :=
  ⟨by decide, by decide, by decide,
    Move_score_gain ⟨exampleGrid, 100, false, false⟩ "left" ⟨0, true⟩ exampleGrid_tiles
      (by decide) (by decide) (by decide)⟩

/-- C3: for each direction, `Move` returns false if and only if the grid
produced by the slide step is cell for cell the grid before the move; so a
merge always changes its line, and compaction alone counts as a change. -/
theorem Move_false_iff_unchanged (g : Game2048) (direction : String) (d : Draw) :
    (Move g direction d).2 = false ↔ (slide g direction).1.Grid = g.Grid := by
  rw [Move_snd]
  exact slide_snd_false_iff g direction

/-- C9: every accepted move spawns exactly one tile. For every grid, direction
and random draw, if `Move` returns true then the final grid differs from the
slid grid in exactly one cell, which was empty after the slide and now holds 2
or 4; the number of non-empty cells is the number after the slide plus 1. An
empty cell always exists after an accepted slide. -/
theorem Move_spawns_one_tile (g : Game2048) (direction : String) (d : Draw)
    (h : (Move g direction d).2 = true) :
    ∃ y x, (slide g direction).1.Grid y x = 0 ∧
      ((Move g direction d).1.Grid y x = 2 ∨ (Move g direction d).1.Grid y x = 4) ∧
      (∀ y' x', (y', x') ≠ (y, x) →
        (Move g direction d).1.Grid y' x' = (slide g direction).1.Grid y' x') ∧
      tileCount (Move g direction d).1.Grid = tileCount (slide g direction).1.Grid + 1 := by
  have hs : (slide g direction).2 = true := by rw [← Move_snd g direction d]; exact h
  obtain ⟨y, x, v, h0, hv, hadd⟩ :=
    addRandomTile_spawn (slide g direction).1 d (slide_true_empty g direction hs)
  have hG : (Move g direction d).1.Grid = setCell (slide g direction).1.Grid y x v := by
    rw [Move_Grid_of_true g direction d h, hadd]
  have hv0 : v ≠ 0 := by rcases hv with rfl | rfl <;> decide
  refine ⟨y, x, h0, ?_, ?_, ?_⟩
  · rw [hG]
    simpa [setCell] using hv
  · intro y' x' hne
    rw [hG]
    have : ¬ (y' = y ∧ x' = x) := fun hc => hne (Prod.ext hc.1 hc.2)
    simp [setCell, this]
  · rw [hG]
    exact tileCount_setCell _ y x v h0 hv0

/-- Witness of C9: moving the example grid left is accepted, and the draw
`intn = 0`, `isTwo = true` puts a 2 on the first empty cell, `(0, 2)`. -/
theorem Move_spawns_one_tile_witness :
    (Move ⟨exampleGrid, 0, false, false⟩ "left" ⟨0, true⟩).2 = true ∧
    (Move ⟨exampleGrid, 0, false, false⟩ "left" ⟨0, true⟩).1.Grid
      = ![![4, 4, 2, 0], ![4, 4, 0, 0], ![0, 0, 0, 0], ![0, 0, 0, 0]] ∧
    ∃ y x, (slide ⟨exampleGrid, 0, false, false⟩ "left").1.Grid y x = 0 ∧
      ((Move ⟨exampleGrid, 0, false, false⟩ "left" ⟨0, true⟩).1.Grid y x = 2 ∨
        (Move ⟨exampleGrid, 0, false, false⟩ "left" ⟨0, true⟩).1.Grid y x = 4) ∧
      (∀ y' x', (y', x') ≠ (y, x) →
        (Move ⟨exampleGrid, 0, false, false⟩ "left" ⟨0, true⟩).1.Grid y' x'
          = (slide ⟨exampleGrid, 0, false, false⟩ "left").1.Grid y' x') ∧
      tileCount (Move ⟨exampleGrid, 0, false, false⟩ "left" ⟨0, true⟩).1.Grid
        = tileCount (slide ⟨exampleGrid, 0, false, false⟩ "left").1.Grid + 1 :=
  ⟨by decide, by decide,
    Move_spawns_one_tile ⟨exampleGrid, 0, false, false⟩ "left" ⟨0, true⟩ (by decide)⟩

/-- C8: on every grid with at least one tile, the criterion used by
`checkGameState` (no empty cell, and no cell equal to its neighbour directly
below or directly right) holds if and only if none of the four directional
slides would change the grid. Consequently, after an accepted `Move` from a
state with `GameOver` false, `GameOver` is true iff no move in any direction
would change the resulting grid. -/
theorem gameOver_criterion (g : Game2048) (direction : String) (d : Draw) :
    ((∃ y x, g.Grid y x ≠ 0) →
      ((hasEmptyCell g.Grid = false ∧ hasEqualNeighbour g.Grid = false) ↔ Stuck g)) ∧
    (g.GameOver = false → (Move g direction d).2 = true →
      ((Move g direction d).1.GameOver = true ↔ Stuck (Move g direction d).1)) := by
  have hcrit : ∀ g' : Game2048, (∃ y x, g'.Grid y x ≠ 0) →
      ((hasEmptyCell g'.Grid = false ∧ hasEqualNeighbour g'.Grid = false) ↔ Stuck g') := by
    intro g' h
    rw [criterion_iff_fixed g' h, slide_all_fixed_iff]
    rfl
  refine ⟨hcrit g, ?_⟩
  intro hgo hacc
  have htile := Move_true_has_tile g direction d hacc
  rw [← hcrit _ htile]
  have hs : (slide g direction).2 = true := by rw [← Move_snd g direction d]; exact hacc
  have hM : (Move g direction d).1 = checkGameState (addRandomTile (slide g direction).1 d) := by
    unfold Move
    simp only
    rw [if_pos hs]
  rw [hM, checkGameState_GameOver, checkGameState_Grid, addRandomTile_GameOver,
    slide_GameOver, hgo]
  cases hasEmptyCell (addRandomTile (slide g direction).1 d).Grid <;>
    cases hasEqualNeighbour (addRandomTile (slide g direction).1 d).Grid <;> simp

/-- Witness of C8: the stuck grid has a tile and meets the criterion; moving
the other grid right is accepted, and with the draw `isTwo = true` the result
is the stuck grid, on which the game is over. -/
theorem gameOver_criterion_witness :
    (hasEmptyCell stuckGrid = false ∧ hasEqualNeighbour stuckGrid = false) ∧
    (Move ⟨lastMoveGrid, 0, false, false⟩ "right" ⟨0, true⟩).1.Grid = stuckGrid ∧
    (Move ⟨lastMoveGrid, 0, false, false⟩ "right" ⟨0, true⟩).1.GameOver = true ∧
    ((hasEmptyCell stuckGrid = false ∧ hasEqualNeighbour stuckGrid = false) ↔
        Stuck ⟨stuckGrid, 0, false, false⟩) ∧
    ((Move ⟨lastMoveGrid, 0, false, false⟩ "right" ⟨0, true⟩).1.GameOver = true ↔
        Stuck (Move ⟨lastMoveGrid, 0, false, false⟩ "right" ⟨0, true⟩).1) :=
  ⟨by decide, by decide, by decide,
    (gameOver_criterion ⟨stuckGrid, 0, false, false⟩ "right" ⟨0, true⟩).1 ⟨0, 0, by decide⟩,
    (gameOver_criterion ⟨lastMoveGrid, 0, false, false⟩ "right" ⟨0, true⟩).2 rfl (by decide)⟩

/-- C17: for every state and direction, after `Move` the flag `Won` equals
(`Won` before) or (some merge of this move produced the value 2048), the value
being the one the arithmetic of `int` gives; where doubling no cell leaves the
range of `int`, it is the exact double the specification speaks of. So `Move`
never turns `Won` from true to false; it never turns `GameOver` from true to
false either, and `GameOver` is set only by the grid criterion after an
accepted move, not by reaching 2048: merging two 1024 tiles sets `Won` and
leaves `GameOver` false. -/
theorem Move_won_flag (g : Game2048) (direction : String) (d : Draw) :
    (Move g direction d).1.Won = (g.Won || moveWins g.Grid direction) ∧
    ((∀ y x, -2 ^ 62 ≤ g.Grid y x ∧ g.Grid y x < 2 ^ 62) →
      (Move g direction d).1.Won = (g.Won || specMoveWins g.Grid direction)) ∧
    (g.Won = true → (Move g direction d).1.Won = true) ∧
    (g.GameOver = true → (Move g direction d).1.GameOver = true) ∧
    (Move g direction d).1.GameOver =
      (g.GameOver || ((Move g direction d).2 && !hasEmptyCell (Move g direction d).1.Grid
        && !hasEqualNeighbour (Move g direction d).1.Grid)) ∧
    (Move ⟨winningGrid, 0, false, false⟩ "left" ⟨0, true⟩).1.Won = true ∧
    (Move ⟨winningGrid, 0, false, false⟩ "left" ⟨0, true⟩).1.GameOver = false := by
  have hw : (Move g direction d).1.Won = (g.Won || moveWins g.Grid direction) := by
    rw [Move_Won, slide_Won]
  have hg := Move_GameOver g direction d
  refine ⟨hw, ?_, ?_, ?_, hg, by decide, by decide⟩
  · intro hb
    rw [hw, (moveGains_spec g.Grid direction hb).2]
  · intro h
    rw [hw, h]
    rfl
  · intro h
    rw [hg, h]
    rfl

/-- Witness of C17: a move on a won, finished game keeps both flags; the move
that merges two 1024 tiles is the only thing that sets `Won` on a fresh game
with small tiles; and merging two cells `1024 - 2 ^ 63` sets `Won` as well,
their double being 2048 in the arithmetic of `int`. -/
theorem Move_won_flag_witness :
    (Move ⟨stuckGrid, 20000, true, true⟩ "left" ⟨0, true⟩).1.Won = true ∧
    (Move ⟨stuckGrid, 20000, true, true⟩ "left" ⟨0, true⟩).1.GameOver = true ∧
    (Move ⟨winningGrid, 0, false, false⟩ "left" ⟨0, true⟩).1.Won
      = (false || specMoveWins winningGrid "left") ∧
    moveWins winningGrid "left" = true ∧ specMoveWins winningGrid "left" = true ∧
    moveWins winningGrid "up" = false ∧
    (Move ⟨winningGrid, 0, false, false⟩ "up" ⟨0, true⟩).1.Won = false ∧
    moveWins wrapWinGrid "up" = true ∧ specMoveWins wrapWinGrid "up" = false ∧
    (Move ⟨wrapWinGrid, 0, false, false⟩ "up" ⟨0, true⟩).1.Won = true :=
  ⟨(Move_won_flag ⟨stuckGrid, 20000, true, true⟩ "left" ⟨0, true⟩).2.2.1 rfl,
    (Move_won_flag ⟨stuckGrid, 20000, true, true⟩ "left" ⟨0, true⟩).2.2.2.1 rfl,
    (Move_won_flag ⟨winningGrid, 0, false, false⟩ "left" ⟨0, true⟩).2.1 (by decide),
    by decide, by decide, by decide, by decide, by decide, by decide, by decide⟩

/-- C18: in every state reachable from `NewGame2048` by `Move` and `Reset`
calls, with any random draws, every grid cell is 0 or a power of two that is at
least 2. -/
theorem reachable_tiles (g : Game2048) (h : Reachable2048 g) (y x : Fin 4) :
    g.Grid y x = 0 ∨ IsTile (g.Grid y x) := by
  exact (reachable_tileBound g h).tiles y x

set_option maxRecDepth 100000 in
/-- Witness of C18: a game that was started, moved right, reset, moved up and
moved left, which merged two 4s into the 8 on the cell `(0, 0)`. -/
theorem reachable_tiles_witness :
    Reachable2048 sampleGame ∧ sampleGame.Grid 0 0 = 8 ∧
    (sampleGame.Grid 0 0 = 0 ∨ IsTile (sampleGame.Grid 0 0)) :=
  ⟨Reachable2048.move _ _ _ (Reachable2048.move _ _ _ (Reachable2048.reset _ _ _
      (Reachable2048.move _ _ _ (Reachable2048.new _ _)))),
    by decide,
    reachable_tiles sampleGame (Reachable2048.move _ _ _ (Reachable2048.move _ _ _
      (Reachable2048.reset _ _ _ (Reachable2048.move _ _ _ (Reachable2048.new _ _))))) 0 0⟩

/-- C19: for every random draw, `NewGame2048` returns a state with `Score` 0,
`Won` false, `GameOver` false and exactly two non-empty cells, each holding 2 or
4; and `Reset` applied to any state yields exactly the state `NewGame2048`
produces from the same random draws. -/
theorem NewGame2048_spec (g : Game2048) (d1 d2 : Draw) :
    (NewGame2048 d1 d2).Score = 0 ∧ (NewGame2048 d1 d2).Won = false ∧
    (NewGame2048 d1 d2).GameOver = false ∧ tileCount (NewGame2048 d1 d2).Grid = 2 ∧
    (∀ y x, (NewGame2048 d1 d2).Grid y x = 0 ∨ (NewGame2048 d1 d2).Grid y x = 2 ∨
      (NewGame2048 d1 d2).Grid y x = 4) ∧
    Reset g d1 d2 = NewGame2048 d1 d2 := by
  have hreset : Reset g d1 d2 = NewGame2048 d1 d2 := rfl
  obtain ⟨y1, x1, v1, y2, x2, v2, hv1, hv2, hne, e⟩ := NewGame2048_form d1 d2
  have hv1' : v1 ≠ 0 := by rcases hv1 with rfl | rfl <;> decide
  have hv2' : v2 ≠ 0 := by rcases hv2 with rfl | rfl <;> decide
  have hnc : ¬ (y2 = y1 ∧ x2 = x1) := fun hc => hne (Prod.ext hc.1 hc.2)
  refine ⟨?_, ?_, ?_, ?_, ?_, hreset⟩
  · rw [e]
  · rw [e]
  · rw [e]
  · rw [e]
    simp only
    rw [tileCount_setCell _ y2 x2 v2 (by simp [setCell, hnc]) hv2',
      tileCount_setCell _ y1 x1 v1 rfl hv1', tileCount_zero]
  · rw [e]
    intro y x
    simp only [setCell]
    by_cases h2 : y = y2 ∧ x = x2
    · rw [if_pos h2]
      exact Or.inr hv2
    · rw [if_neg h2]
      by_cases h1 : y = y1 ∧ x = x1
      · rw [if_pos h1]
        exact Or.inr hv1
      · rw [if_neg h1]
        exact Or.inl rfl

/-- C20: for every state and every direction string: a string other than
`"up"`, `"down"`, `"left"`, `"right"` makes `Move` return false; and whenever
`Move` returns false, for any string, the engine is exactly as before (grid,
score and both flags unchanged, no tile spawned). -/
theorem Move_false_noop (g : Game2048) (direction : String) (d : Draw) :
    ((direction ≠ "up" ∧ direction ≠ "down" ∧ direction ≠ "left" ∧ direction ≠ "right") →
      (Move g direction d).2 = false) ∧
    ((Move g direction d).2 = false → (Move g direction d).1 = g) := by
  constructor
  · rintro ⟨h1, h2, h3, h4⟩
    rw [Move_snd]
    simp [slide, h1, h2, h3, h4]
  · intro h
    rw [Move_snd] at h
    have hM : (Move g direction d).1 = (slide g direction).1 := by
      unfold Move
      simp only
      rw [if_neg (by rw [h]; simp)]
    rw [hM]
    exact slide_of_false g direction h

/-- Witness of C20: on the example grid an unrecognised direction returns false,
and so does `"up"` on a grid whose tiles are already at the top; neither
changes the engine. -/
theorem Move_false_noop_witness :
    (Move ⟨exampleGrid, 7, false, false⟩ "north" ⟨0, true⟩).2 = false ∧
    (Move ⟨exampleGrid, 7, false, false⟩ "north" ⟨0, true⟩).1 = ⟨exampleGrid, 7, false, false⟩ ∧
    (Move ⟨winningGrid, 7, false, false⟩ "up" ⟨0, true⟩).2 = false ∧
    (Move ⟨winningGrid, 7, false, false⟩ "up" ⟨0, true⟩).1 = ⟨winningGrid, 7, false, false⟩ :=
  ⟨(Move_false_noop ⟨exampleGrid, 7, false, false⟩ "north" ⟨0, true⟩).1
      ⟨by decide, by decide, by decide, by decide⟩,
    (Move_false_noop ⟨exampleGrid, 7, false, false⟩ "north" ⟨0, true⟩).2 (by decide),
    by decide,
    (Move_false_noop ⟨winningGrid, 7, false, false⟩ "up" ⟨0, true⟩).2 (by decide)⟩

/-- C21: in every state reachable from `NewGame2048` by `Move` and `Reset`
calls in which `GameOver` is true, `Move` in any direction (any string) is
inert: it returns false and leaves `Grid`, `Score`, `Won` and `GameOver` as
they are. -/
theorem gameOver_Move_inert (g : Game2048) (h : Reachable2048 g) (hgo : g.GameOver = true)
    (direction : String) (d : Draw) :
    (Move g direction d).2 = false ∧ (Move g direction d).1.Grid = g.Grid ∧
    (Move g direction d).1.Score = g.Score ∧ (Move g direction d).1.Won = g.Won ∧
    (Move g direction d).1.GameOver = g.GameOver := by
  obtain ⟨h1, h2⟩ := reachable_gameOver_stuck g h hgo
  rw [stuck_Move g h1 h2 direction d]
  exact ⟨rfl, rfl, rfl, rfl, rfl⟩

/-- Witness of C21: the finished checkerboard game and a move to the left. -/
theorem gameOver_Move_inert_witness :
    lostGame.GameOver = true ∧
    ((Move lostGame "left" ⟨0, true⟩).2 = false ∧
    (Move lostGame "left" ⟨0, true⟩).1.Grid = lostGame.Grid ∧
    (Move lostGame "left" ⟨0, true⟩).1.Score = lostGame.Score ∧
    (Move lostGame "left" ⟨0, true⟩).1.Won = lostGame.Won ∧
    (Move lostGame "left" ⟨0, true⟩).1.GameOver = lostGame.GameOver) :=
  ⟨rfl, gameOver_Move_inert lostGame lostGame_reachable rfl "left" ⟨0, true⟩⟩

/-- C23: the four slide routines are one algorithm up to symmetry. For every
engine state, `moveRight` is `moveLeft` on the horizontally mirrored grid,
mirrored back; `moveUp` is `moveLeft` on the transposed grid, transposed back;
`moveDown` is `moveRight` on the transposed grid, transposed back. The equality
is between the whole results, so the grid, `Score`, `Won`, `GameOver` and the
returned changed flag all agree. -/
theorem slides_symmetric (g : Game2048) :
    moveRight g = (mirror (moveLeft (mirror g)).1, (moveLeft (mirror g)).2) ∧
    moveUp g = (transpose (moveLeft (transpose g)).1, (moveLeft (transpose g)).2) ∧
    moveDown g = (transpose (moveRight (transpose g)).1, (moveRight (transpose g)).2) := by
  refine ⟨?_, ?_, ?_⟩
  · rw [moveRight_eq, moveLeft_eq]
    rfl
  · rw [moveUp_eq, moveLeft_eq]
    rfl
  · rw [moveDown_eq, moveRight_eq]
    rfl

/-! ## The Minesweeper engine: reading and writing cells -/

theorem getD_set_list {α : Type} (l : List α) (i j : Nat) (a d : α) :
    (l.set i a).getD j d = if i = j ∧ i < l.length then a else l.getD j d := by
  simp only [List.getD_eq_getElem?_getD, List.getElem?_set]
  by_cases hij : i = j
  · subst hij
    by_cases hi : i < l.length
    · simp [hi]
    · have : l[i]? = none := List.getElem?_eq_none (by omega)
      simp [hi, this]
  · simp [hij]

theorem countP_set_list {α : Type} (p : α → Bool) (l : List α) (i : Nat) (a d : α)
    (h : i < l.length) :
    (l.set i a).countP p + (if p (l.getD i d) then 1 else 0)
      = l.countP p + (if p a then 1 else 0) := by
  induction l generalizing i with
  | nil => simp at h
  | cons b l ih =>
    cases i with
    | zero =>
      simp only [List.set_cons_zero, List.countP_cons, List.getD_cons_zero]
      omega
    | succ i =>
      simp only [List.set_cons_succ, List.countP_cons, List.getD_cons_succ]
      have := ih i (by simpa using h)
      omega

theorem sum_map_set_list {α : Type} (f : α → Nat) (l : List α) (i : Nat) (a d : α)
    (h : i < l.length) :
    ((l.set i a).map f).sum + f (l.getD i d) = (l.map f).sum + f a := by
  induction l generalizing i with
  | nil => simp at h
  | cons b l ih =>
    cases i with
    | zero =>
      simp only [List.set_cons_zero, List.map_cons, List.sum_cons, List.getD_cons_zero]
      omega
    | succ i =>
      simp only [List.set_cons_succ, List.map_cons, List.sum_cons, List.getD_cons_succ]
      have := ih i (by simpa using h)
      omega

theorem cellAt_setCellAt (G : List (List Cell)) (x y x' y' : Int) (c : Cell)
    (hx : 0 ≤ x) (hy : 0 ≤ y) (hx' : 0 ≤ x') (hy' : 0 ≤ y')
    (hyl : y.toNat < G.length) (hxl : x.toNat < (G.getD y.toNat []).length) :
    cellAt (setCellAt G x y c) x' y' = if x' = x ∧ y' = y then c else cellAt G x' y' := by
  unfold cellAt setCellAt
  rw [getD_set_list]
  by_cases hyy : y' = y
  · subst hyy
    rw [if_pos ⟨rfl, hyl⟩, getD_set_list]
    by_cases hxx : x' = x
    · subst hxx
      rw [if_pos ⟨rfl, hxl⟩, if_pos ⟨rfl, rfl⟩]
    · have : ¬ (x.toNat = x'.toNat ∧ x.toNat < (G.getD y'.toNat []).length) := by
        intro h
        apply hxx
        have := h.1
        omega
      rw [if_neg this, if_neg (fun h => hxx h.1)]
  · have : ¬ (y.toNat = y'.toNat ∧ y.toNat < G.length) := by
      intro h
      apply hyy
      have := h.1
      omega
    rw [if_neg this, if_neg (fun h => hyy h.2)]

theorem countState_setCellAt (G : List (List Cell)) (x y : Int) (c : Cell) (st : CellState)
    (hyl : y.toNat < G.length) (hxl : x.toNat < (G.getD y.toNat []).length) :
    countState (setCellAt G x y c) st + (if (cellAt G x y).State = st then 1 else 0)
      = countState G st + (if c.State = st then 1 else 0) := by
  unfold countState setCellAt cellAt
  have h1 := sum_map_set_list (fun row : List Cell => row.countP fun c => decide (c.State = st))
    G y.toNat ((G.getD y.toNat []).set x.toNat c) [] hyl
  have h2 := countP_set_list (fun c : Cell => decide (c.State = st)) (G.getD y.toNat [])
    x.toNat c zeroCell hxl
  simp only [decide_eq_true_eq] at h2
  simp only at h1
  omega

theorem inRange_bounds (ms : Minesweeper) (x y : Int) (hw : WellFormed ms)
    (hr : InRange ms x y) :
    0 ≤ x ∧ 0 ≤ y ∧ y.toNat < ms.Grid.length ∧ x.toNat < (ms.Grid.getD y.toNat []).length := by
  unfold InRange at hr
  push_neg at hr
  obtain ⟨h1, h2, h3, h4⟩ := hr
  have hy : y.toNat < ms.Grid.length := by
    have := hw.1
    omega
  refine ⟨h1, h3, hy, ?_⟩
  have hmem : ms.Grid.getD y.toNat [] ∈ ms.Grid := by
    rw [List.getD_eq_getElem _ _ hy]
    exact List.getElem_mem hy
  have := hw.2 _ hmem
  omega

theorem wellFormed_setCellAt (ms : Minesweeper) (x y : Int) (c : Cell) (G : List (List Cell))
    (hG : G = setCellAt ms.Grid x y c) (ms' : Minesweeper) (hg : ms'.Grid = G)
    (hW : ms'.Width = ms.Width) (hH : ms'.Height = ms.Height) (hw : WellFormed ms) :
    WellFormed ms' := by
  subst hG
  unfold WellFormed
  rw [hg, hW, hH]
  refine ⟨by simpa [setCellAt] using hw.1, ?_⟩
  intro row hrow
  unfold setCellAt at hrow
  by_cases hy : y.toNat < ms.Grid.length
  · rcases List.mem_or_eq_of_mem_set hrow with h | h
    · exact hw.2 row h
    · subst h
      rw [List.length_set]
      apply hw.2
      rw [List.getD_eq_getElem _ _ hy]
      exact List.getElem_mem hy
  · rw [List.set_eq_of_length_le (by omega)] at hrow
    exact hw.2 row hrow

/-! ## The Minesweeper engine: the flood fill -/

theorem neighbours_fold (F : Minesweeper → Int → Int → Option Minesweeper) (x y : Int)
    (init : Option Minesweeper) :
    offsets.foldl (fun acc dy =>
      offsets.foldl (fun acc dx =>
        if dx = 0 ∧ dy = 0 then acc
        else acc.bind fun s => F s (x + dx) (y + dy)) acc) init
      = (neighbours x y).foldl (fun acc p => acc.bind fun s => F s p.1 p.2) init := by
  simp [offsets, neighbours, List.foldl]

theorem mem_neighbours (x y : Int) (q : Int × Int) : q ∈ neighbours x y ↔ Adj (x, y) q := by
  obtain ⟨qx, qy⟩ := q
  simp only [neighbours, List.mem_cons, List.mem_singleton, List.not_mem_nil, or_false,
    Prod.mk.injEq, Adj, ne_eq]
  constructor
  · intro h
    omega
  · intro h
    omega

theorem inRange_congr (s s' : Minesweeper) (hW : s'.Width = s.Width) (hH : s'.Height = s.Height)
    (x y : Int) : InRange s' x y ↔ InRange s x y := by
  unfold InRange
  rw [hW, hH]

theorem Grows.refl (s : Minesweeper) (hw : WellFormed s) : Grows s s :=
  { wf := hw, width := rfl, height := rfl, mineCount := rfl, flags := rfl, gameOver := rfl,
    won := rfl, cells := fun _ _ _ => Or.inl rfl, counter := rfl, hidden := le_refl _ }

theorem Grows.trans (s s' s'' : Minesweeper) (h1 : Grows s s') (h2 : Grows s' s'') :
    Grows s s'' :=
  { wf := h2.wf
    width := h2.width.trans h1.width
    height := h2.height.trans h1.height
    mineCount := h2.mineCount.trans h1.mineCount
    flags := h2.flags.trans h1.flags
    gameOver := h2.gameOver.trans h1.gameOver
    won := h2.won.trans h1.won
    cells := by
      intro x y hr
      have hr' : InRange s' x y := (inRange_congr s s' h1.width h1.height x y).2 hr
      rcases h1.cells x y hr with e1 | ⟨hh, e1⟩
      · rcases h2.cells x y hr' with e2 | ⟨hh2, e2⟩
        · exact Or.inl (e2.trans e1)
        · rw [e1] at hh2 e2
          exact Or.inr ⟨hh2, e2⟩
      · rcases h2.cells x y hr' with e2 | ⟨hh2, e2⟩
        · exact Or.inr ⟨hh, e2.trans e1⟩
        · rw [e1] at hh2
          exact absurd hh2 (by simp)
    counter := by
      have := h1.counter
      have := h2.counter
      omega
    hidden := le_trans h2.hidden h1.hidden }

theorem Grows.isMine {s s' : Minesweeper} (h : Grows s s') (x y : Int) (hr : InRange s x y) :
    (cellAt s'.Grid x y).IsMine = (cellAt s.Grid x y).IsMine := by
  rcases h.cells x y hr with e | ⟨_, e⟩ <;> rw [e]

theorem Grows.adjacent {s s' : Minesweeper} (h : Grows s s') (x y : Int) (hr : InRange s x y) :
    (cellAt s'.Grid x y).Adjacent = (cellAt s.Grid x y).Adjacent := by
  rcases h.cells x y hr with e | ⟨_, e⟩ <;> rw [e]

/-- A cell hidden afterwards was hidden before, and is the same cell. -/
theorem Grows.hidden_back {s s' : Minesweeper} (h : Grows s s') (x y : Int)
    (hr : InRange s x y) (hh : (cellAt s'.Grid x y).State = CellState.CellHidden) :
    (cellAt s.Grid x y).State = CellState.CellHidden := by
  rcases h.cells x y hr with e | ⟨_, e⟩
  · rw [← e]; exact hh
  · rw [e] at hh
    exact absurd hh (by simp)

/-- A cell that is not hidden keeps its state. -/
theorem Grows.not_hidden {s s' : Minesweeper} (h : Grows s s') (x y : Int)
    (hr : InRange s x y) (hh : (cellAt s.Grid x y).State ≠ CellState.CellHidden) :
    (cellAt s'.Grid x y).State ≠ CellState.CellHidden := by
  rcases h.cells x y hr with e | ⟨hc, _⟩
  · rw [e]; exact hh
  · exact absurd hc hh

theorem FloodPath.start (s : Minesweeper) (p c : Int × Int) (h : FloodPath s p c) :
    InRange s p.1 p.2 ∧ (cellAt s.Grid p.1 p.2).State = CellState.CellHidden := by
  cases h with
  | last _ hr hh => exact ⟨hr, hh⟩
  | step _ q _ hr hh _ _ _ => exact ⟨hr, hh⟩

/-- A path through the cells hidden afterwards is a path through the cells hidden before. -/
theorem FloodPath.back (s s' : Minesweeper) (h : Grows s s') (p c : Int × Int)
    (hp : FloodPath s' p c) : FloodPath s p c := by
  induction hp with
  | last p hr hh =>
    have hr0 := (inRange_congr s s' h.width h.height _ _).1 hr
    exact FloodPath.last p hr0 (h.hidden_back _ _ hr0 hh)
  | step p q c hr hh ha hadj _ ih =>
    have hr0 := (inRange_congr s s' h.width h.height _ _).1 hr
    refine FloodPath.step p q c hr0 (h.hidden_back _ _ hr0 hh) ?_ hadj ih
    rw [← h.adjacent _ _ hr0]
    exact ha

theorem state_hidden_of_not (c : Cell)
    (h : ¬ (c.State = CellState.CellRevealed ∨ c.State = CellState.CellFlagged)) :
    c.State = CellState.CellHidden := by
  cases hs : c.State with
  | CellHidden => rfl
  | CellRevealed => exact absurd (Or.inl hs) h
  | CellFlagged => exact absurd (Or.inr hs) h

/-- The engine after the two assignments `cell.State = CellRevealed; ms.Revealed++`. -/
theorem reveal_one (s : Minesweeper) (x y : Int) (hw : WellFormed s) (hr : InRange s x y)
    (hh : (cellAt s.Grid x y).State = CellState.CellHidden) (s1 : Minesweeper)
    (hs1 : s1 = { s with
      Grid := setCellAt s.Grid x y { cellAt s.Grid x y with State := CellState.CellRevealed },
      Revealed := s.Revealed + 1 }) :
    Grows s s1 ∧
    countState s1.Grid CellState.CellHidden + 1 = countState s.Grid CellState.CellHidden ∧
    (∀ x' y', InRange s x' y' → cellAt s1.Grid x' y' =
      if x' = x ∧ y' = y then { cellAt s.Grid x y with State := CellState.CellRevealed }
      else cellAt s.Grid x' y') := by
  obtain ⟨hx, hy, hyl, hxl⟩ := inRange_bounds s x y hw hr
  have hcells : ∀ x' y', InRange s x' y' → cellAt s1.Grid x' y' =
      if x' = x ∧ y' = y then { cellAt s.Grid x y with State := CellState.CellRevealed }
      else cellAt s.Grid x' y' := by
    intro x' y' hr'
    obtain ⟨hx', hy', _, _⟩ := inRange_bounds s x' y' hw hr'
    rw [hs1]
    exact cellAt_setCellAt s.Grid x y x' y' _ hx hy hx' hy' hyl hxl
  have hcR := countState_setCellAt s.Grid x y
    { cellAt s.Grid x y with State := CellState.CellRevealed } CellState.CellRevealed hyl hxl
  have hcH := countState_setCellAt s.Grid x y
    { cellAt s.Grid x y with State := CellState.CellRevealed } CellState.CellHidden hyl hxl
  simp only [hh, if_true] at hcR hcH
  simp at hcR hcH
  refine ⟨?_, ?_, hcells⟩
  · refine
      { wf := wellFormed_setCellAt s x y _ _ rfl s1 (by rw [hs1]) (by rw [hs1]) (by rw [hs1]) hw
        width := by rw [hs1], height := by rw [hs1], mineCount := by rw [hs1],
        flags := by rw [hs1], gameOver := by rw [hs1], won := by rw [hs1],
        cells := ?_, counter := ?_, hidden := ?_ }
    · intro x' y' hr'
      rw [hcells x' y' hr']
      by_cases hc : x' = x ∧ y' = y
      · rw [if_pos hc, hc.1, hc.2]
        exact Or.inr ⟨hh, rfl⟩
      · rw [if_neg hc]
        exact Or.inl rfl
    · rw [hs1]
      simp only
      omega
    · rw [hs1]
      simp only
      omega
  · rw [hs1]
    simp only
    omega

theorem FillSpec.nil (s : Minesweeper) (hw : WellFormed s) : FillSpec s [] s :=
  { grows := Grows.refl s hw
    starts_done := by intro p hp; simp at hp
    closed := by
      intro x y _ hh hrev
      rw [hh] at hrev
      exact absurd hrev (by simp)
    sound := by
      intro x y _ hh hrev
      rw [hh] at hrev
      exact absurd hrev (by simp) }

/-- A fill from `p` followed by a fill from `ps` is a fill from `p :: ps`. -/
theorem FillSpec.cons (s1 s2 s' : Minesweeper) (p : Int × Int) (ps : List (Int × Int))
    (h1 : FillSpec s1 [p] s2) (h2 : FillSpec s2 ps s') : FillSpec s1 (p :: ps) s' := by
  have hir : ∀ x y, InRange s2 x y ↔ InRange s1 x y :=
    inRange_congr s1 s2 h1.grows.width h1.grows.height
  refine
    { grows := Grows.trans s1 s2 s' h1.grows h2.grows
      starts_done := ?_, closed := ?_, sound := ?_ }
  · intro q hq hr
    rcases List.mem_cons.mp hq with rfl | hq
    · exact h2.grows.not_hidden _ _ ((hir _ _).2 hr) (h1.starts_done q (by simp) hr)
    · exact h2.starts_done q hq ((hir _ _).2 hr)
  · intro x y hr hh hrev ha q hadj hrq
    by_cases h2h : (cellAt s2.Grid x y).State = CellState.CellHidden
    · refine h2.closed x y ((hir _ _).2 hr) h2h hrev ?_ q hadj ((hir _ _).2 hrq)
      rw [h1.grows.adjacent _ _ hr]
      exact ha
    · have h2r : (cellAt s2.Grid x y).State = CellState.CellRevealed := by
        rcases h1.grows.cells x y hr with e | ⟨_, e⟩
        · rw [e] at h2h
          exact absurd hh h2h
        · rw [e]
      exact h2.grows.not_hidden _ _ ((hir _ _).2 hrq) (h1.closed x y hr hh h2r ha q hadj hrq)
  · intro x y hr hh hrev
    by_cases h2h : (cellAt s2.Grid x y).State = CellState.CellHidden
    · obtain ⟨q, hq, hpath⟩ := h2.sound x y ((hir _ _).2 hr) h2h hrev
      exact ⟨q, List.mem_cons_of_mem _ hq, FloodPath.back s1 s2 h1.grows q (x, y) hpath⟩
    · have h2r : (cellAt s2.Grid x y).State = CellState.CellRevealed := by
        rcases h1.grows.cells x y hr with e | ⟨_, e⟩
        · rw [e] at h2h
          exact absurd hh h2h
        · rw [e]
      obtain ⟨q, hq, hpath⟩ := h1.sound x y hr hh h2r
      rcases List.mem_singleton.mp hq with rfl
      exact ⟨q, by simp, hpath⟩

theorem FillSpec.same (s : Minesweeper) (starts : List (Int × Int)) (hw : WellFormed s)
    (hd : ∀ p ∈ starts, InRange s p.1 p.2 →
      (cellAt s.Grid p.1 p.2).State ≠ CellState.CellHidden) : FillSpec s starts s :=
  { grows := Grows.refl s hw
    starts_done := hd
    closed := by
      intro x y _ hh hrev
      rw [hh] at hrev
      exact absurd hrev (by simp)
    sound := by
      intro x y _ hh hrev
      rw [hh] at hrev
      exact absurd hrev (by simp) }

theorem visit_spec (fuel : Nat)
    (IH : ∀ s x y, WellFormed s → countState s.Grid CellState.CellHidden < fuel →
      ∃ s', revealCell fuel s x y = some s' ∧ FillSpec s [(x, y)] s') :
    ∀ (ps : List (Int × Int)) (s1 : Minesweeper), WellFormed s1 →
      countState s1.Grid CellState.CellHidden < fuel →
      ∃ s', ps.foldl (fun acc p => acc.bind fun s => revealCell fuel s p.1 p.2) (some s1)
          = some s' ∧ FillSpec s1 ps s' := by
  intro ps
  induction ps with
  | nil =>
    intro s1 hw _
    exact ⟨s1, rfl, FillSpec.nil s1 hw⟩
  | cons p ps ih =>
    intro s1 hw hlt
    obtain ⟨s2, he2, hf2⟩ := IH s1 p.1 p.2 hw hlt
    obtain ⟨s', he', hf'⟩ := ih s2 hf2.grows.wf (lt_of_le_of_lt hf2.grows.hidden hlt)
    refine ⟨s', ?_, FillSpec.cons s1 s2 s' p ps hf2 hf'⟩
    rw [List.foldl_cons, Option.some_bind, he2]
    exact he'

/-- The flood fill returns, and what it achieves, when the recursion may go
deeper than there are hidden cells. -/
theorem revealCell_spec : ∀ (fuel : Nat) (s : Minesweeper) (x y : Int), WellFormed s →
    countState s.Grid CellState.CellHidden < fuel →
    ∃ s', revealCell fuel s x y = some s' ∧ FillSpec s [(x, y)] s' := by
  intro fuel
  induction fuel with
  | zero =>
    intro s x y _ h
    exact absurd h (Nat.not_lt_zero _)
  | succ fuel ih =>
    intro s x y hw hlt
    rw [revealCell]
    by_cases hout : x < 0 ∨ x ≥ s.Width ∨ y < 0 ∨ y ≥ s.Height
    · rw [if_pos hout]
      refine ⟨s, rfl, FillSpec.same s _ hw ?_⟩
      intro p hp hr
      rcases List.mem_singleton.mp hp with rfl
      exact absurd hout hr
    rw [if_neg hout]
    have hr : InRange s x y := hout
    by_cases hst : (cellAt s.Grid x y).State = CellState.CellRevealed ∨
        (cellAt s.Grid x y).State = CellState.CellFlagged
    · rw [if_pos hst]
      refine ⟨s, rfl, FillSpec.same s _ hw ?_⟩
      intro p hp _
      rcases List.mem_singleton.mp hp with rfl
      rcases hst with h | h <;> rw [h] <;> simp
    rw [if_neg hst]
    have hh := state_hidden_of_not _ hst
    obtain ⟨hg1, hcnt, hcells⟩ := reveal_one s x y hw hr hh _ rfl
    simp only
    by_cases hadj : (cellAt s.Grid x y).Adjacent = 0
    · rw [if_pos hadj, neighbours_fold]
      obtain ⟨s', he, hf⟩ := visit_spec fuel ih (neighbours x y) _ hg1.wf (by omega)
      refine ⟨s', he, ?_⟩
      have hir := inRange_congr s _ hg1.width hg1.height
      refine
        { grows := Grows.trans _ _ _ hg1 hf.grows
          starts_done := ?_, closed := ?_, sound := ?_ }
      · intro p hp hrp
        rcases List.mem_singleton.mp hp with rfl
        apply hf.grows.not_hidden _ _ ((hir _ _).2 hr)
        rw [hcells x y hr, if_pos ⟨rfl, rfl⟩]
        simp
      · intro cx cy hrc hhc hrev hac q hq hrq
        by_cases hc : cx = x ∧ cy = y
        · obtain ⟨rfl, rfl⟩ := hc
          exact hf.starts_done q ((mem_neighbours _ _ q).2 hq) ((hir _ _).2 hrq)
        · have hsame := hcells cx cy hrc
          rw [if_neg hc] at hsame
          refine hf.closed cx cy ((hir _ _).2 hrc) ?_ hrev ?_ q hq ((hir _ _).2 hrq)
          · rw [hsame]; exact hhc
          · rw [hsame]; exact hac
      · intro cx cy hrc hhc hrev
        by_cases hc : cx = x ∧ cy = y
        · obtain ⟨rfl, rfl⟩ := hc
          exact ⟨(cx, cy), by simp, FloodPath.last (cx, cy) hr hh⟩
        · have hsame := hcells cx cy hrc
          rw [if_neg hc] at hsame
          obtain ⟨q, hq, hpath⟩ := hf.sound cx cy ((hir _ _).2 hrc) (by rw [hsame]; exact hhc) hrev
          refine ⟨(x, y), by simp, ?_⟩
          exact FloodPath.step (x, y) q (cx, cy) hr hh hadj ((mem_neighbours _ _ q).1 hq)
            (FloodPath.back s _ hg1 q (cx, cy) hpath)
    · rw [if_neg hadj]
      refine ⟨_, rfl, ?_⟩
      have hnew : ∀ cx cy, InRange s cx cy →
          (cellAt s.Grid cx cy).State = CellState.CellHidden →
          (cellAt (setCellAt s.Grid x y
            { cellAt s.Grid x y with State := CellState.CellRevealed }) cx cy).State
              = CellState.CellRevealed → cx = x ∧ cy = y := by
        intro cx cy hrc hhc hrev
        by_contra hc
        have hsame := hcells cx cy hrc
        rw [if_neg hc] at hsame
        simp only at hsame
        rw [hsame, hhc] at hrev
        exact absurd hrev (by simp)
      refine { grows := hg1, starts_done := ?_, closed := ?_, sound := ?_ }
      · intro p hp hrp
        rcases List.mem_singleton.mp hp with rfl
        rw [hcells x y hr, if_pos ⟨rfl, rfl⟩]
        simp
      · intro cx cy hrc hhc hrev hac
        obtain ⟨rfl, rfl⟩ := hnew cx cy hrc hhc hrev
        exact absurd hac hadj
      · intro cx cy hrc hhc hrev
        obtain ⟨rfl, rfl⟩ := hnew cx cy hrc hhc hrev
        exact ⟨(cx, cy), by simp, FloodPath.last (cx, cy) hr hh⟩

theorem FloodPath.finish (s : Minesweeper) (p c : Int × Int) (h : FloodPath s p c) :
    InRange s c.1 c.2 ∧ (cellAt s.Grid c.1 c.2).State = CellState.CellHidden := by
  induction h with
  | last _ hr hh => exact ⟨hr, hh⟩
  | step _ _ _ _ _ _ _ _ ih => exact ih

/-- A fill reveals the end of every path that starts at a cell it revealed. -/
theorem FillSpec.complete (s s' : Minesweeper) (starts : List (Int × Int))
    (hf : FillSpec s starts s') (p c : Int × Int) (hp : FloodPath s p c)
    (hrev : (cellAt s'.Grid p.1 p.2).State = CellState.CellRevealed) :
    (cellAt s'.Grid c.1 c.2).State = CellState.CellRevealed := by
  induction hp with
  | last _ _ _ => exact hrev
  | step p q c hr hh ha hadj hpath ih =>
    apply ih
    obtain ⟨hrq, hhq⟩ := FloodPath.start s q c hpath
    have hnh := hf.closed p.1 p.2 hr hh hrev ha q hadj hrq
    rcases hf.grows.cells q.1 q.2 hrq with e | ⟨_, e⟩
    · rw [e] at hnh
      exact absurd hhq hnh
    · rw [e]

theorem checkWin_Grid (ms : Minesweeper) : (checkWin ms).Grid = ms.Grid := by
  unfold checkWin
  split_ifs <;> rfl

theorem checkWin_Revealed (ms : Minesweeper) : (checkWin ms).Revealed = ms.Revealed := by
  unfold checkWin
  split_ifs <;> rfl

theorem checkWin_Width (ms : Minesweeper) : (checkWin ms).Width = ms.Width := by
  unfold checkWin
  split_ifs <;> rfl

theorem checkWin_Height (ms : Minesweeper) : (checkWin ms).Height = ms.Height := by
  unfold checkWin
  split_ifs <;> rfl

theorem checkWin_MineCount (ms : Minesweeper) : (checkWin ms).MineCount = ms.MineCount := by
  unfold checkWin
  split_ifs <;> rfl

theorem checkWin_Flags (ms : Minesweeper) : (checkWin ms).Flags = ms.Flags := by
  unfold checkWin
  split_ifs <;> rfl

/-- The call `Reveal(x, y)` on a hidden cell in range that is not a mine: the
flood fill returns, and `Reveal` is `checkWin` of its result. -/
theorem Reveal_safe (ms : Minesweeper) (x y : Int) (hw : WellFormed ms) (hr : InRange ms x y)
    (hh : (cellAt ms.Grid x y).State = CellState.CellHidden)
    (hm : (cellAt ms.Grid x y).IsMine = false) :
    ∃ s', revealCell (countState ms.Grid CellState.CellHidden + 1) ms x y = some s' ∧
      FillSpec ms [(x, y)] s' ∧ Reveal ms x y = (checkWin s', true) := by
  obtain ⟨s', he, hf⟩ := revealCell_spec (countState ms.Grid CellState.CellHidden + 1) ms x y hw
    (Nat.lt_succ_self _)
  refine ⟨s', he, hf, ?_⟩
  unfold Reveal
  rw [if_neg hr, if_neg (by rw [hh]; simp), hm, he]
  simp

/-! ## The Minesweeper engine: what every reachable state satisfies -/

/-- Along a flood path that starts at a safe cell, every cell is safe. -/
theorem FloodPath.no_mine (s : Minesweeper) (hs : Inv s) (p c : Int × Int)
    (hp : FloodPath s p c) (hm : (cellAt s.Grid p.1 p.2).IsMine = false) :
    (cellAt s.Grid c.1 c.2).IsMine = false := by
  induction hp with
  | last _ _ _ => exact hm
  | step p q c hr _ ha hadj hpath ih =>
    exact ih (hs.safe p.1 p.2 hr hm ha q hadj (FloodPath.start s q c hpath).1)

theorem Inv.of_fields (s s' : Minesweeper) (hs : Inv s) (hG : s'.Grid = s.Grid)
    (hW : s'.Width = s.Width) (hH : s'.Height = s.Height) (hR : s'.Revealed = s.Revealed) :
    Inv s' := by
  have hir : ∀ x y, InRange s' x y ↔ InRange s x y := inRange_congr s s' hW hH
  refine { wf := ?_, safe := ?_, noMine := ?_, counter := ?_ }
  · unfold WellFormed
    rw [hG, hW, hH]
    exact hs.wf
  · intro x y hr
    rw [hG]
    intro hm ha q hq hrq
    exact hs.safe x y ((hir _ _).1 hr) hm ha q hq ((hir _ _).1 hrq)
  · intro x y hr
    rw [hG]
    exact hs.noMine x y ((hir _ _).1 hr)
  · rw [hG, hR]
    exact hs.counter

theorem Inv.fill (s s' : Minesweeper) (x y : Int) (hs : Inv s) (hf : FillSpec s [(x, y)] s')
    (hm : (cellAt s.Grid x y).IsMine = false) : Inv s' := by
  have hir : ∀ x y, InRange s' x y ↔ InRange s x y :=
    inRange_congr s s' hf.grows.width hf.grows.height
  refine { wf := hf.grows.wf, safe := ?_, noMine := ?_, counter := ?_ }
  · intro cx cy hr hmc ha q hq hrq
    have hr0 := (hir _ _).1 hr
    have hrq0 := (hir _ _).1 hrq
    rw [hf.grows.isMine _ _ hr0] at hmc
    rw [hf.grows.adjacent _ _ hr0] at ha
    rw [hf.grows.isMine _ _ hrq0]
    exact hs.safe cx cy hr0 hmc ha q hq hrq0
  · intro cx cy hr hmc hrev
    have hr0 := (hir _ _).1 hr
    rw [hf.grows.isMine _ _ hr0] at hmc
    rcases hf.grows.cells cx cy hr0 with e | ⟨hhc, _⟩
    · rw [e] at hrev
      exact hs.noMine cx cy hr0 hmc hrev
    · obtain ⟨p, hp, hpath⟩ := hf.sound cx cy hr0 hhc hrev
      rcases List.mem_singleton.mp hp with rfl
      have := FloodPath.no_mine s hs _ _ hpath hm
      rw [this] at hmc
      exact Bool.noConfusion hmc
  · have h1 := hf.grows.counter
    have h2 := hs.counter
    omega

theorem Inv_Reveal (ms : Minesweeper) (x y : Int) (hs : Inv ms) : Inv (Reveal ms x y).1 := by
  by_cases hout : x < 0 ∨ x ≥ ms.Width ∨ y < 0 ∨ y ≥ ms.Height
  · have : Reveal ms x y = (ms, false) := by unfold Reveal; rw [if_pos hout]
    rw [this]; exact hs
  by_cases hst : (cellAt ms.Grid x y).State = CellState.CellRevealed ∨
      (cellAt ms.Grid x y).State = CellState.CellFlagged
  · have : Reveal ms x y = (ms, false) := by unfold Reveal; rw [if_neg hout, if_pos hst]
    rw [this]; exact hs
  cases hm : (cellAt ms.Grid x y).IsMine with
  | true =>
    have : Reveal ms x y = ({ ms with GameOver := true }, true) := by
      unfold Reveal; rw [if_neg hout, if_neg hst, hm]; simp
    rw [this]
    exact Inv.of_fields ms _ hs rfl rfl rfl rfl
  | false =>
    obtain ⟨s', _, hf, hR⟩ := Reveal_safe ms x y hs.wf hout (state_hidden_of_not _ hst) hm
    rw [hR]
    exact Inv.of_fields s' _ (Inv.fill ms s' x y hs hf hm) (checkWin_Grid s') (checkWin_Width s')
      (checkWin_Height s') (checkWin_Revealed s')

/-- The engine after a flag is set or removed on a cell that is not revealed. -/
theorem Inv.setFlag (ms ms' : Minesweeper) (x y : Int) (st : CellState) (hs : Inv ms)
    (hr : InRange ms x y) (hold : (cellAt ms.Grid x y).State ≠ CellState.CellRevealed)
    (hst : st ≠ CellState.CellRevealed)
    (hG : ms'.Grid = setCellAt ms.Grid x y { cellAt ms.Grid x y with State := st })
    (hW : ms'.Width = ms.Width) (hH : ms'.Height = ms.Height)
    (hR : ms'.Revealed = ms.Revealed) : Inv ms' := by
  have hir : ∀ x y, InRange ms' x y ↔ InRange ms x y := inRange_congr ms ms' hW hH
  obtain ⟨hx, hy, hyl, hxl⟩ := inRange_bounds ms x y hs.wf hr
  have hcells : ∀ x' y', InRange ms x' y' → cellAt ms'.Grid x' y' =
      if x' = x ∧ y' = y then { cellAt ms.Grid x y with State := st }
      else cellAt ms.Grid x' y' := by
    intro x' y' hr'
    obtain ⟨hx', hy', _, _⟩ := inRange_bounds ms x' y' hs.wf hr'
    rw [hG]
    exact cellAt_setCellAt ms.Grid x y x' y' _ hx hy hx' hy' hyl hxl
  have hmine : ∀ x' y', InRange ms x' y' →
      (cellAt ms'.Grid x' y').IsMine = (cellAt ms.Grid x' y').IsMine := by
    intro x' y' hr'
    rw [hcells x' y' hr']
    by_cases hc : x' = x ∧ y' = y
    · rw [if_pos hc, hc.1, hc.2]
    · rw [if_neg hc]
  have hadj : ∀ x' y', InRange ms x' y' →
      (cellAt ms'.Grid x' y').Adjacent = (cellAt ms.Grid x' y').Adjacent := by
    intro x' y' hr'
    rw [hcells x' y' hr']
    by_cases hc : x' = x ∧ y' = y
    · rw [if_pos hc, hc.1, hc.2]
    · rw [if_neg hc]
  refine { wf := ?_, safe := ?_, noMine := ?_, counter := ?_ }
  · exact wellFormed_setCellAt ms x y _ _ rfl ms' hG hW hH hs.wf
  · intro cx cy hrc hmc ha q hq hrq
    have hr0 := (hir _ _).1 hrc
    have hrq0 := (hir _ _).1 hrq
    rw [hmine _ _ hr0] at hmc
    rw [hadj _ _ hr0] at ha
    rw [hmine _ _ hrq0]
    exact hs.safe cx cy hr0 hmc ha q hq hrq0
  · intro cx cy hrc hmc hrev
    have hr0 := (hir _ _).1 hrc
    rw [hmine _ _ hr0] at hmc
    rw [hcells _ _ hr0] at hrev
    by_cases hc : cx = x ∧ cy = y
    · rw [if_pos hc] at hrev
      exact hst hrev
    · rw [if_neg hc] at hrev
      exact hs.noMine cx cy hr0 hmc hrev
  · have hc := countState_setCellAt ms.Grid x y { cellAt ms.Grid x y with State := st }
      CellState.CellRevealed hyl hxl
    rw [if_neg hold, if_neg hst] at hc
    rw [hG, hR, hs.counter]
    simp only [Nat.add_zero] at hc
    rw [hc]

theorem Inv_ToggleFlag (ms : Minesweeper) (x y : Int) (hs : Inv ms) : Inv (ToggleFlag ms x y) := by
  unfold ToggleFlag
  by_cases hout : x < 0 ∨ x ≥ ms.Width ∨ y < 0 ∨ y ≥ ms.Height
  · rw [if_pos hout]; exact hs
  rw [if_neg hout]
  by_cases hrev : (cellAt ms.Grid x y).State = CellState.CellRevealed
  · rw [if_pos hrev]; exact hs
  rw [if_neg hrev]
  by_cases hfl : (cellAt ms.Grid x y).State = CellState.CellFlagged
  · rw [if_pos hfl]
    exact Inv.setFlag ms _ x y CellState.CellHidden hs hout hrev (by simp) rfl rfl rfl rfl
  · rw [if_neg hfl]
    exact Inv.setFlag ms _ x y CellState.CellFlagged hs hout hrev (by simp) rfl rfl rfl rfl

/-! ## The Minesweeper engine: construction -/

theorem offsets_fold {β : Type} (F : β → Int → Int → β) (x y : Int) (init : β) :
    offsets.foldl (fun acc dy =>
      offsets.foldl (fun acc dx =>
        if dx = 0 ∧ dy = 0 then acc else F acc (x + dx) (y + dy)) acc) init
      = (neighbours x y).foldl (fun acc p => F acc p.1 p.2) init := by
  simp [offsets, neighbours, List.foldl]

theorem count_fold (ms : Minesweeper) (l : List (Int × Int)) (c : Int) :
    l.foldl (fun count p =>
        if p.1 ≥ 0 ∧ p.1 < ms.Width ∧ p.2 ≥ 0 ∧ p.2 < ms.Height then
          if (cellAt ms.Grid p.1 p.2).IsMine then count + 1 else count
        else count) c
      = c + (l.countP fun q =>
          decide (InRange ms q.1 q.2) && (cellAt ms.Grid q.1 q.2).IsMine : Nat) := by
  induction l generalizing c with
  | nil => simp
  | cons p l ih =>
    rw [List.foldl_cons, ih, List.countP_cons]
    by_cases hr : p.1 ≥ 0 ∧ p.1 < ms.Width ∧ p.2 ≥ 0 ∧ p.2 < ms.Height
    · have hin : InRange ms p.1 p.2 := by unfold InRange; omega
      cases hm : (cellAt ms.Grid p.1 p.2).IsMine
      · simp [hr, hin, hm]
      · simp [hr, hin, hm]
        omega
    · have hin : ¬ InRange ms p.1 p.2 := by unfold InRange; omega
      simp [hr, hin]

/-- The counting loops of `calculateAdjacent` count the mined in-bounds neighbours. -/
theorem countAdjacent_eq (ms : Minesweeper) (x y : Int) :
    countAdjacent ms x y = (minedNeighbours ms x y : Int) := by
  unfold countAdjacent minedNeighbours
  have h := offsets_fold (fun (count : Int) a b =>
      if a ≥ 0 ∧ a < ms.Width ∧ b ≥ 0 ∧ b < ms.Height then
        if (cellAt ms.Grid a b).IsMine then count + 1 else count
      else count) x y 0
  simp only at h
  rw [h, count_fold]
  simp

theorem minedNeighbours_congr (ms0 ms : Minesweeper) (hW : ms.Width = ms0.Width)
    (hH : ms.Height = ms0.Height)
    (hm : ∀ x y, InRange ms0 x y → (cellAt ms.Grid x y).IsMine = (cellAt ms0.Grid x y).IsMine)
    (x y : Int) : minedNeighbours ms x y = minedNeighbours ms0 x y := by
  unfold minedNeighbours
  apply List.countP_congr
  intro q _
  by_cases hr : InRange ms0 q.1 q.2
  · have hr' := (inRange_congr ms0 ms hW hH _ _).2 hr
    simp [hr, hr', hm _ _ hr]
  · have hr' : ¬ InRange ms q.1 q.2 := fun h => hr ((inRange_congr ms0 ms hW hH _ _).1 h)
    simp [hr, hr']

theorem minedNeighbours_zero (ms : Minesweeper) (x y : Int) (h : minedNeighbours ms x y = 0)
    (q : Int × Int) (hq : Adj (x, y) q) (hr : InRange ms q.1 q.2) :
    (cellAt ms.Grid q.1 q.2).IsMine = false := by
  unfold minedNeighbours at h
  rw [List.countP_eq_zero] at h
  have := h q ((mem_neighbours x y q).2 hq)
  simpa [hr] using this

/-- Writing a cell with the state it already has keeps a fresh board fresh. -/
theorem Fresh.update (ms ms' : Minesweeper) (x y : Int) (c : Cell) (hf : Fresh ms)
    (hr : InRange ms x y) (hc : c.State = (cellAt ms.Grid x y).State)
    (hG : ms'.Grid = setCellAt ms.Grid x y c) (hW : ms'.Width = ms.Width)
    (hH : ms'.Height = ms.Height) (hR : ms'.Revealed = ms.Revealed) :
    Fresh ms' ∧ ∀ x' y', InRange ms x' y' →
      cellAt ms'.Grid x' y' = if x' = x ∧ y' = y then c else cellAt ms.Grid x' y' := by
  obtain ⟨hx, hy, hyl, hxl⟩ := inRange_bounds ms x y hf.wf hr
  have hcells : ∀ x' y', InRange ms x' y' →
      cellAt ms'.Grid x' y' = if x' = x ∧ y' = y then c else cellAt ms.Grid x' y' := by
    intro x' y' hr'
    obtain ⟨hx', hy', _, _⟩ := inRange_bounds ms x' y' hf.wf hr'
    rw [hG]
    exact cellAt_setCellAt ms.Grid x y x' y' _ hx hy hx' hy' hyl hxl
  refine ⟨{ wf := ?_, wpos := ?_, hpos := ?_, revealed := ?_, allHidden := ?_, count0 := ?_ },
    hcells⟩
  · exact wellFormed_setCellAt ms x y _ _ rfl ms' hG hW hH hf.wf
  · rw [hW]; exact hf.wpos
  · rw [hH]; exact hf.hpos
  · rw [hR]; exact hf.revealed
  · intro x' y' hr'
    have hr0 := (inRange_congr ms ms' hW hH _ _).1 hr'
    rw [hcells _ _ hr0]
    by_cases hxy : x' = x ∧ y' = y
    · rw [if_pos hxy, hc]
      exact hf.allHidden x y hr
    · rw [if_neg hxy]
      exact hf.allHidden x' y' hr0
  · have h := countState_setCellAt ms.Grid x y c CellState.CellRevealed hyl hxl
    have hh := hf.allHidden x y hr
    rw [hc, hh] at h
    simp only [if_neg (show ¬ CellState.CellHidden = CellState.CellRevealed by simp),
      Nat.add_zero] at h
    rw [hG, h]
    exact hf.count0

theorem Fresh.setMine (ms : Minesweeper) (x y : Int) (hf : Fresh ms) (hr : InRange ms x y) :
    Fresh { ms with
      Grid := setCellAt ms.Grid x y { cellAt ms.Grid x y with IsMine := true } } :=
  (Fresh.update ms
    { ms with Grid := setCellAt ms.Grid x y { cellAt ms.Grid x y with IsMine := true } }
    x y { cellAt ms.Grid x y with IsMine := true } hf hr rfl rfl rfl rfl rfl).1

theorem cellAt_replicate (w h : Nat) (x y : Int) :
    cellAt (List.replicate h (List.replicate w zeroCell)) x y = zeroCell := by
  unfold cellAt
  simp only [List.getD_eq_getElem?_getD, List.getElem?_replicate]
  by_cases hy : y.toNat < h
  · by_cases hx : x.toNat < w
    · simp [hy, hx, List.getElem?_replicate]
    · simp [hy, hx, List.getElem?_replicate]
  · simp [hy]

theorem countState_replicate (w h : Nat) :
    countState (List.replicate h (List.replicate w zeroCell)) CellState.CellRevealed = 0 := by
  unfold countState
  rw [List.map_replicate, List.countP_replicate]
  simp [zeroCell]

theorem emptyBoard_fresh (w h m : Int) (hw : 0 < w) (hh : 0 < h) : Fresh (emptyBoard w h m) := by
  refine { wf := ?_, wpos := hw, hpos := hh, revealed := rfl, allHidden := ?_, count0 := ?_ }
  · unfold WellFormed emptyBoard
    simp only [List.length_replicate]
    refine ⟨by omega, ?_⟩
    intro row hrow
    rw [(List.mem_replicate.mp hrow).2, List.length_replicate]
    omega
  · intro x y _
    unfold emptyBoard
    simp only
    rw [cellAt_replicate]
    rfl
  · exact countState_replicate _ _

theorem placeMines_fresh : ∀ (draws : List (Nat × Nat)) (ms : Minesweeper) (placed : Int)
    (ms' : Minesweeper), Fresh ms → placeMines ms placed draws = some ms' → Fresh ms' := by
  intro draws
  induction draws with
  | nil =>
    intro ms placed ms' hf he
    unfold placeMines at he
    split_ifs at he
    cases he
    exact hf
  | cons d rest ih =>
    intro ms placed ms' hf he
    unfold placeMines at he
    simp only at he
    split_ifs at he with h1 h2
    · have hr : InRange ms ((d.1 : Int) % ms.Width) ((d.2 : Int) % ms.Height) := by
        have hw := hf.wpos
        have hh := hf.hpos
        have a1 := Int.emod_nonneg (d.1 : Int) (ne_of_gt hw)
        have a2 := Int.emod_lt_of_pos (d.1 : Int) hw
        have a3 := Int.emod_nonneg (d.2 : Int) (ne_of_gt hh)
        have a4 := Int.emod_lt_of_pos (d.2 : Int) hh
        unfold InRange
        omega
      exact ih _ _ _ (Fresh.setMine ms _ _ hf hr) he
    · exact ih _ _ _ hf he
    · cases he
      exact hf

theorem Calc.mono (ms0 ms : Minesweeper) (S S' : Int → Int → Prop) (hc : Calc ms0 S ms)
    (h : ∀ a b, InRange ms0 a b → S' a b → S a b) : Calc ms0 S' ms :=
  { fresh := hc.fresh, width := hc.width, height := hc.height, mines := hc.mines
    good := fun x y hr hs hm => hc.good x y hr (h x y hr hs) hm }

/-- One iteration of the inner loop of `calculateAdjacent`. -/
theorem Calc.step (ms0 ms : Minesweeper) (S : Int → Int → Prop) (x y : Int)
    (hc : Calc ms0 S ms) (hr : InRange ms0 x y) :
    Calc ms0 (fun a b => S a b ∨ (a = x ∧ b = y))
      (if (cellAt ms.Grid x y).IsMine then ms
       else { ms with
          Grid := setCellAt ms.Grid x y
            { cellAt ms.Grid x y with Adjacent := countAdjacent ms x y } }) := by
  have hir := inRange_congr ms0 ms hc.width hc.height
  cases hm : (cellAt ms.Grid x y).IsMine with
  | true =>
    simp only [if_true]
    refine { fresh := hc.fresh, width := hc.width, height := hc.height, mines := hc.mines,
             good := ?_ }
    intro a b hrab hs hm0
    rcases hs with hs | ⟨rfl, rfl⟩
    · exact hc.good a b hrab hs hm0
    · rw [hc.mines a b hrab, hm0] at hm
      exact Bool.noConfusion hm
  | false =>
    simp only [Bool.false_eq_true, if_false]
    obtain ⟨hf', hcells⟩ := Fresh.update ms
      { ms with
        Grid := setCellAt ms.Grid x y
          { cellAt ms.Grid x y with Adjacent := countAdjacent ms x y } }
      x y { cellAt ms.Grid x y with Adjacent := countAdjacent ms x y } hc.fresh
      ((hir _ _).2 hr) rfl rfl rfl rfl rfl
    refine { fresh := hf', width := hc.width, height := hc.height, mines := ?_, good := ?_ }
    · intro a b hrab
      rw [hcells a b ((hir _ _).2 hrab)]
      by_cases hab : a = x ∧ b = y
      · rw [if_pos hab, hab.1, hab.2]
        exact hc.mines x y hr
      · rw [if_neg hab]
        exact hc.mines a b hrab
    · intro a b hrab hs hm0
      rw [hcells a b ((hir _ _).2 hrab)]
      by_cases hab : a = x ∧ b = y
      · rw [if_pos hab, hab.1, hab.2]
        simp only
        rw [countAdjacent_eq, minedNeighbours_congr ms0 ms hc.width hc.height hc.mines]
      · rw [if_neg hab]
        rcases hs with hs | hs
        · exact hc.good a b hrab hs hm0
        · exact absurd hs hab

theorem Calc.row (ms0 : Minesweeper) (y : Int) : ∀ (xs : List Nat) (ms : Minesweeper)
    (S : Int → Int → Prop), Calc ms0 S ms → (∀ x ∈ xs, InRange ms0 (x : Int) y) →
    Calc ms0 (fun a b => S a b ∨ (b = y ∧ ∃ x ∈ xs, a = (x : Int)))
      (xs.foldl (fun ms (x : Nat) =>
        if (cellAt ms.Grid x y).IsMine then ms
        else { ms with
          Grid := setCellAt ms.Grid x y
            { cellAt ms.Grid x y with Adjacent := countAdjacent ms x y } }) ms) := by
  intro xs
  induction xs with
  | nil =>
    intro ms S hc _
    refine Calc.mono ms0 ms S _ hc ?_
    rintro a b _ (h | ⟨_, x, hx, _⟩)
    · exact h
    · simp at hx
  | cons x xs ih =>
    intro ms S hc hxs
    rw [List.foldl_cons]
    have h1 := Calc.step ms0 ms S x y hc (hxs x (by simp))
    have h2 := ih _ _ h1 (fun x' hx' => hxs x' (List.mem_cons_of_mem _ hx'))
    refine Calc.mono ms0 _ _ _ h2 ?_
    rintro a b _ (h | ⟨hb, x', hx', ha⟩)
    · exact Or.inl (Or.inl h)
    · rcases List.mem_cons.mp hx' with rfl | hx''
      · exact Or.inl (Or.inr ⟨ha, hb⟩)
      · exact Or.inr ⟨hb, x', hx'', ha⟩

theorem Calc.rows (ms0 : Minesweeper) : ∀ (ys : List Nat) (ms : Minesweeper)
    (S : Int → Int → Prop), Calc ms0 S ms → (∀ y ∈ ys, (y : Int) < ms0.Height) →
    Calc ms0 (fun a b => S a b ∨
        ∃ y ∈ ys, b = (y : Int) ∧ ∃ x ∈ List.range ms0.Width.toNat, a = (x : Int))
      (ys.foldl (fun ms (y : Nat) =>
        (List.range ms.Width.toNat).foldl (fun ms (x : Nat) =>
          if (cellAt ms.Grid x y).IsMine then ms
          else { ms with
            Grid := setCellAt ms.Grid x y
              { cellAt ms.Grid x y with Adjacent := countAdjacent ms x y } }) ms) ms) := by
  intro ys
  induction ys with
  | nil =>
    intro ms S hc _
    refine Calc.mono ms0 ms S _ hc ?_
    rintro a b _ (h | ⟨y, hy, _⟩)
    · exact h
    · simp at hy
  | cons y ys ih =>
    intro ms S hc hys
    rw [List.foldl_cons, hc.width]
    have hrow : ∀ x ∈ List.range ms0.Width.toNat, InRange ms0 (x : Int) (y : Int) := by
      intro x hx
      have hx' := List.mem_range.mp hx
      have hy' := hys y (by simp)
      unfold InRange
      omega
    have h1 := Calc.row ms0 y (List.range ms0.Width.toNat) ms S hc hrow
    have h2 := ih _ _ h1 (fun y' hy' => hys y' (List.mem_cons_of_mem _ hy'))
    refine Calc.mono ms0 _ _ _ h2 ?_
    rintro a b _ (h | ⟨y', hy', hb, hx⟩)
    · exact Or.inl (Or.inl h)
    · rcases List.mem_cons.mp hy' with rfl | hy''
      · exact Or.inl (Or.inr ⟨hb, hx⟩)
      · exact Or.inr ⟨y', hy'', hb, hx⟩

/-- After `calculateAdjacent` every cell that is not a mine carries the number
of mined cells among its in-bounds Moore neighbours; mines and states stay. -/
theorem calculateAdjacent_calc (ms0 : Minesweeper) (hf : Fresh ms0) :
    Calc ms0 (fun _ _ => True) (calculateAdjacent ms0) := by
  have h0 : Calc ms0 (fun _ _ => False) ms0 :=
    { fresh := hf, width := rfl, height := rfl, mines := fun _ _ _ => rfl,
      good := fun _ _ _ h => absurd h id }
  have h1 := Calc.rows ms0 (List.range ms0.Height.toNat) ms0 _ h0 (by
    intro y hy
    have := List.mem_range.mp hy
    omega)
  unfold calculateAdjacent
  refine Calc.mono ms0 _ _ _ h1 ?_
  intro a b hr _
  unfold InRange at hr
  refine Or.inr ⟨b.toNat, List.mem_range.mpr (by omega), by omega, a.toNat,
    List.mem_range.mpr (by omega), by omega⟩

theorem preset_pos (difficulty : Int) :
    0 < (preset difficulty).1 ∧ 0 < (preset difficulty).2.1 := by
  unfold preset
  split_ifs <;> simp

/-- Every engine `NewMinesweeper` returns satisfies the invariant. -/
theorem NewMinesweeper_inv (difficulty : Int) (draws : List (Nat × Nat)) (ms : Minesweeper)
    (h : NewMinesweeper difficulty draws = some ms) : Inv ms := by
  unfold NewMinesweeper at h
  simp only [Option.map_eq_some'] at h
  obtain ⟨ms0, hp, rfl⟩ := h
  have hpos := preset_pos difficulty
  have hf0 := placeMines_fresh draws _ 0 ms0 (emptyBoard_fresh _ _ _ hpos.1 hpos.2) hp
  have hc := calculateAdjacent_calc ms0 hf0
  have hir := inRange_congr ms0 _ hc.width hc.height
  refine { wf := hc.fresh.wf, safe := ?_, noMine := ?_, counter := ?_ }
  · intro x y hr hm ha q hq hrq
    have hr0 := (hir _ _).1 hr
    have hrq0 := (hir _ _).1 hrq
    rw [hc.mines _ _ hr0] at hm
    rw [hc.good x y hr0 trivial hm] at ha
    rw [hc.mines _ _ hrq0]
    exact minedNeighbours_zero ms0 x y (by exact_mod_cast ha) q hq hrq0
  · intro x y hr _
    rw [hc.fresh.allHidden x y hr]
    simp
  · rw [hc.fresh.revealed, hc.fresh.count0]
    rfl

/-- Every reachable state satisfies the invariant. -/
theorem Reachable.inv (ms : Minesweeper) (h : Reachable ms) : Inv ms := by
  induction h with
  | init difficulty draws ms h => exact NewMinesweeper_inv difficulty draws ms h
  | call ms c _ ih =>
    cases c with
    | reveal x y => exact Inv_Reveal ms x y ih
    | toggleFlag x y => exact Inv_ToggleFlag ms x y ih

set_option maxRecDepth 100000 in
theorem easyGame_new : NewMinesweeper 0 easyDraws = some easyGame := by
  decide

theorem easyGame_reachable : Reachable easyGame :=
  Reachable.init 0 easyDraws easyGame easyGame_new

theorem Reveal_noop (ms : Minesweeper) (x y : Int)
    (h : ¬ InRange ms x y ∨ (cellAt ms.Grid x y).State = CellState.CellRevealed ∨
      (cellAt ms.Grid x y).State = CellState.CellFlagged) : Reveal ms x y = (ms, false) := by
  unfold Reveal
  by_cases hout : x < 0 ∨ x ≥ ms.Width ∨ y < 0 ∨ y ≥ ms.Height
  · rw [if_pos hout]
  · rw [if_neg hout]
    rcases h with h | h
    · exact absurd hout h
    · rw [if_pos h]

theorem ToggleFlag_noop (ms : Minesweeper) (x y : Int)
    (h : ¬ InRange ms x y ∨ (cellAt ms.Grid x y).State = CellState.CellRevealed) :
    ToggleFlag ms x y = ms := by
  unfold ToggleFlag
  by_cases hout : x < 0 ∨ x ≥ ms.Width ∨ y < 0 ∨ y ≥ ms.Height
  · rw [if_pos hout]
  · rw [if_neg hout]
    rcases h with h | h
    · exact absurd hout h
    · rw [if_pos h]

theorem Reveal_mine_Grid (ms : Minesweeper) (x y : Int)
    (hm : (cellAt ms.Grid x y).IsMine = true) : (Reveal ms x y).1.Grid = ms.Grid := by
  unfold Reveal
  split_ifs <;> rfl

theorem Reveal_mine (ms : Minesweeper) (x y : Int) (hr : InRange ms x y)
    (hh : (cellAt ms.Grid x y).State = CellState.CellHidden)
    (hm : (cellAt ms.Grid x y).IsMine = true) :
    Reveal ms x y = ({ ms with GameOver := true }, true) := by
  unfold Reveal
  rw [if_neg hr, if_neg (by rw [hh]; simp), if_pos hm]

theorem Reveal_snd_false_iff (ms : Minesweeper) (x y : Int) :
    (Reveal ms x y).2 = false ↔
      (¬ InRange ms x y ∨ (cellAt ms.Grid x y).State = CellState.CellRevealed ∨
        (cellAt ms.Grid x y).State = CellState.CellFlagged) := by
  constructor
  · intro h
    by_contra hc
    push_neg at hc
    obtain ⟨hr, h1, h2⟩ := hc
    have hst : ¬ ((cellAt ms.Grid x y).State = CellState.CellRevealed ∨
        (cellAt ms.Grid x y).State = CellState.CellFlagged) := by
      push_neg; exact ⟨h1, h2⟩
    have htrue : (Reveal ms x y).2 = true := by
      unfold Reveal
      rw [if_neg hr, if_neg hst]
      cases (cellAt ms.Grid x y).IsMine
      · cases revealCell (countState ms.Grid CellState.CellHidden + 1) ms x y <;> rfl
      · rfl
    rw [htrue] at h
    exact Bool.noConfusion h
  · intro h
    rw [Reveal_noop ms x y h]

/-- Reading a cell after a write, for arbitrary coordinates. -/
theorem cellAt_setCellAt_gen (G : List (List Cell)) (x y x' y' : Int) (c : Cell) :
    cellAt (setCellAt G x y c) x' y' =
      if (y.toNat = y'.toNat ∧ y.toNat < G.length) ∧
          (x.toNat = x'.toNat ∧ x.toNat < (G.getD y.toNat []).length) then c
      else cellAt G x' y' := by
  unfold cellAt setCellAt
  rw [getD_set_list]
  by_cases hy : y.toNat = y'.toNat ∧ y.toNat < G.length
  · rw [if_pos hy, getD_set_list]
    by_cases hx : x.toNat = x'.toNat ∧ x.toNat < (G.getD y.toNat []).length
    · rw [if_pos hx, if_pos ⟨hy, hx⟩]
    · rw [if_neg hx, if_neg (fun h => hx h.2), hy.1]
  · rw [if_neg hy, if_neg (fun h => hy h.1)]

/-- A write that only changes the state of the cell leaves every mine flag and
every adjacency count as it is. -/
theorem cellAt_setState (G : List (List Cell)) (x y x' y' : Int) (st : CellState) :
    (cellAt (setCellAt G x y { cellAt G x y with State := st }) x' y').IsMine
      = (cellAt G x' y').IsMine ∧
    (cellAt (setCellAt G x y { cellAt G x y with State := st }) x' y').Adjacent
      = (cellAt G x' y').Adjacent := by
  rw [cellAt_setCellAt_gen]
  by_cases h : (y.toNat = y'.toNat ∧ y.toNat < G.length) ∧
      (x.toNat = x'.toNat ∧ x.toNat < (G.getD y.toNat []).length)
  · rw [if_pos h]
    have hc : cellAt G x' y' = cellAt G x y := by
      unfold cellAt
      rw [h.1.1, h.2.1]
    rw [hc]
    exact ⟨rfl, rfl⟩
  · rw [if_neg h]
    exact ⟨rfl, rfl⟩

theorem cellAt_setCellAt_other (G : List (List Cell)) (x y x' y' : Int) (c : Cell)
    (hx : 0 ≤ x) (hy : 0 ≤ y) (hx' : 0 ≤ x') (hy' : 0 ≤ y') (hne : (x', y') ≠ (x, y)) :
    cellAt (setCellAt G x y c) x' y' = cellAt G x' y' := by
  rw [cellAt_setCellAt_gen]
  have : ¬ ((y.toNat = y'.toNat ∧ y.toNat < G.length) ∧
      (x.toNat = x'.toNat ∧ x.toNat < (G.getD y.toNat []).length)) := by
    intro h
    apply hne
    have h1 := h.1.1
    have h2 := h.2.1
    have ex : x' = x := by omega
    have ey : y' = y := by omega
    rw [ex, ey]
  rw [if_neg this]

theorem set_getD_self {α : Type} (l : List α) (i : Nat) (d : α) : l.set i (l.getD i d) = l := by
  induction l generalizing i with
  | nil => rfl
  | cons a l ih =>
    cases i with
    | zero => rfl
    | succ i =>
      simp only [List.set_cons_succ, List.getD_cons_succ]
      rw [ih]

/-- Writing back the cell that is there leaves the grid as it is. -/
theorem setCellAt_self (G : List (List Cell)) (x y : Int) :
    setCellAt G x y (cellAt G x y) = G := by
  unfold setCellAt cellAt
  rw [set_getD_self, set_getD_self]

/-- A second write to the same cell overwrites the first. -/
theorem setCellAt_setCellAt (G : List (List Cell)) (x y : Int) (c c' : Cell)
    (hyl : y.toNat < G.length) :
    setCellAt (setCellAt G x y c) x y c' = setCellAt G x y c' := by
  unfold setCellAt
  have h1 : (G.set y.toNat ((G.getD y.toNat []).set x.toNat c)).getD y.toNat []
      = (G.getD y.toNat []).set x.toNat c := by
    rw [getD_set_list, if_pos ⟨rfl, hyl⟩]
  rw [h1, List.set_set, List.set_set]

/-! ## The Minesweeper engine: the fields and the mines after construction -/

theorem foldl_mem_inv {α β : Type} (P : β → Prop) (f : β → α → β) :
    ∀ (l : List α), (∀ b a, a ∈ l → P b → P (f b a)) → ∀ b, P b → P (l.foldl f b) := by
  intro l
  induction l with
  | nil => intro _ b hb; exact hb
  | cons a l ih =>
    intro h b hb
    rw [List.foldl_cons]
    exact ih (fun b' a' ha' => h b' a' (List.mem_cons_of_mem _ ha')) _ (h b a (by simp) hb)

theorem mineTotal_setCellAt (G : List (List Cell)) (x y : Int) (c : Cell)
    (hyl : y.toNat < G.length) (hxl : x.toNat < (G.getD y.toNat []).length) :
    mineTotal (setCellAt G x y c) + (if (cellAt G x y).IsMine = true then 1 else 0)
      = mineTotal G + (if c.IsMine = true then 1 else 0) := by
  unfold mineTotal setCellAt cellAt
  have h1 := sum_map_set_list (fun row : List Cell => row.countP fun c => c.IsMine)
    G y.toNat ((G.getD y.toNat []).set x.toNat c) [] hyl
  have h2 := countP_set_list (fun c : Cell => c.IsMine) (G.getD y.toNat [])
    x.toNat c zeroCell hxl
  simp only at h1 h2
  omega

theorem mineTotal_replicate (w h : Nat) :
    mineTotal (List.replicate h (List.replicate w zeroCell)) = 0 := by
  unfold mineTotal
  rw [List.map_replicate, List.countP_replicate]
  simp [zeroCell]

/-- The loop of `placeMines` changes the grid only. -/
theorem placeMines_fields : ∀ (draws : List (Nat × Nat)) (ms : Minesweeper) (placed : Int)
    (ms' : Minesweeper), placeMines ms placed draws = some ms' →
    ms'.Width = ms.Width ∧ ms'.Height = ms.Height ∧ ms'.MineCount = ms.MineCount ∧
    ms'.Flags = ms.Flags ∧ ms'.Revealed = ms.Revealed ∧ ms'.GameOver = ms.GameOver ∧
    ms'.Won = ms.Won := by
  intro draws
  induction draws with
  | nil =>
    intro ms placed ms' he
    unfold placeMines at he
    split_ifs at he
    cases he
    exact ⟨rfl, rfl, rfl, rfl, rfl, rfl, rfl⟩
  | cons d rest ih =>
    intro ms placed ms' he
    unfold placeMines at he
    simp only at he
    split_ifs at he with h1 h2
    · have h := ih _ _ _ he
      exact h
    · exact ih _ _ _ he
    · cases he
      exact ⟨rfl, rfl, rfl, rfl, rfl, rfl, rfl⟩

/-- When the loop of `placeMines` ends, exactly `MineCount` cells are mined. -/
theorem placeMines_total : ∀ (draws : List (Nat × Nat)) (ms : Minesweeper) (placed : Int)
    (ms' : Minesweeper), Fresh ms → placed ≤ ms.MineCount →
    (mineTotal ms.Grid : Int) = placed → placeMines ms placed draws = some ms' →
    (mineTotal ms'.Grid : Int) = ms'.MineCount := by
  intro draws
  induction draws with
  | nil =>
    intro ms placed ms' _ hle hcnt he
    unfold placeMines at he
    split_ifs at he with h1
    cases he
    omega
  | cons d rest ih =>
    intro ms placed ms' hf hle hcnt he
    unfold placeMines at he
    simp only at he
    split_ifs at he with h1 h2
    · have hr : InRange ms ((d.1 : Int) % ms.Width) ((d.2 : Int) % ms.Height) := by
        have hw := hf.wpos
        have hh := hf.hpos
        have a1 := Int.emod_nonneg (d.1 : Int) (ne_of_gt hw)
        have a2 := Int.emod_lt_of_pos (d.1 : Int) hw
        have a3 := Int.emod_nonneg (d.2 : Int) (ne_of_gt hh)
        have a4 := Int.emod_lt_of_pos (d.2 : Int) hh
        unfold InRange
        omega
      obtain ⟨_, _, hyl, hxl⟩ := inRange_bounds ms _ _ hf.wf hr
      have hm := mineTotal_setCellAt ms.Grid ((d.1 : Int) % ms.Width) ((d.2 : Int) % ms.Height)
        { cellAt ms.Grid ((d.1 : Int) % ms.Width) ((d.2 : Int) % ms.Height) with IsMine := true }
        hyl hxl
      rw [h2] at hm
      simp only [Bool.false_eq_true, if_false, if_true, Nat.add_zero] at hm
      refine ih _ (placed + 1) ms' (Fresh.setMine ms _ _ hf hr) (by simp only; omega) ?_ he
      simp only
      rw [hm]
      push_cast
      omega
    · exact ih _ placed ms' hf hle hcnt he
    · cases he
      omega

theorem SameBut.initial (ms : Minesweeper) (hw : WellFormed ms) : SameBut ms ms :=
  { wf := hw, width := rfl, height := rfl, mineCount := rfl, flags := rfl, revealed := rfl,
    gameOver := rfl, won := rfl, cells := fun _ _ _ => ⟨rfl, rfl, fun _ => rfl⟩, mines := rfl }

/-- One iteration of the inner loop of `calculateAdjacent` changes at most the
adjacency count of a cell that is not a mine. -/
theorem SameBut.inner (ms0 ms : Minesweeper) (x y : Int) (hs : SameBut ms0 ms)
    (hr : InRange ms0 x y) :
    SameBut ms0
      (if (cellAt ms.Grid x y).IsMine then ms
       else { ms with
          Grid := setCellAt ms.Grid x y
            { cellAt ms.Grid x y with Adjacent := countAdjacent ms x y } }) := by
  have hir := inRange_congr ms0 ms hs.width hs.height
  cases hm : (cellAt ms.Grid x y).IsMine with
  | true =>
    simp only [if_true]
    exact hs
  | false =>
    simp only [Bool.false_eq_true, if_false]
    obtain ⟨hx, hy, hyl, hxl⟩ := inRange_bounds ms x y hs.wf ((hir _ _).2 hr)
    have hcells : ∀ x' y', InRange ms0 x' y' →
        cellAt (setCellAt ms.Grid x y
          { cellAt ms.Grid x y with Adjacent := countAdjacent ms x y }) x' y' =
        if x' = x ∧ y' = y then { cellAt ms.Grid x y with Adjacent := countAdjacent ms x y }
        else cellAt ms.Grid x' y' := by
      intro x' y' hr'
      obtain ⟨hx', hy', _, _⟩ := inRange_bounds ms x' y' hs.wf ((hir _ _).2 hr')
      exact cellAt_setCellAt ms.Grid x y x' y' _ hx hy hx' hy' hyl hxl
    refine { wf := ?_, width := hs.width, height := hs.height, mineCount := hs.mineCount,
             flags := hs.flags, revealed := hs.revealed, gameOver := hs.gameOver,
             won := hs.won, cells := ?_, mines := ?_ }
    · exact wellFormed_setCellAt ms x y _ _ rfl _ rfl rfl rfl hs.wf
    · intro x' y' hr'
      simp only
      rw [hcells x' y' hr']
      by_cases hab : x' = x ∧ y' = y
      · rw [if_pos hab, hab.1, hab.2]
        refine ⟨(hs.cells x y hr).1, (hs.cells x y hr).2.1, ?_⟩
        intro hm0
        rw [← (hs.cells x y hr).1, hm] at hm0
        exact Bool.noConfusion hm0
      · rw [if_neg hab]
        exact hs.cells x' y' hr'
    · have h := mineTotal_setCellAt ms.Grid x y
        { cellAt ms.Grid x y with Adjacent := countAdjacent ms x y } hyl hxl
      exact (Nat.add_right_cancel h).trans hs.mines

/-- After `calculateAdjacent` the engine differs at most in the adjacency counts
of cells that are not mines. -/
theorem calculateAdjacent_sameBut (ms0 : Minesweeper) (hw : WellFormed ms0) :
    SameBut ms0 (calculateAdjacent ms0) := by
  unfold calculateAdjacent
  apply foldl_mem_inv (SameBut ms0) _ _ _ _ (SameBut.initial ms0 hw)
  intro ms y hy hs
  have hy' := List.mem_range.mp hy
  rw [hs.width]
  apply foldl_mem_inv (SameBut ms0) _ _ _ _ hs
  intro ms1 x hx hs1
  have hx' := List.mem_range.mp hx
  apply SameBut.inner ms0 ms1 x y hs1
  unfold InRange
  omega

theorem minedNeighbours_le (ms : Minesweeper) (x y : Int) : minedNeighbours ms x y ≤ 8 := by
  unfold minedNeighbours
  exact List.countP_le_length _

set_option maxRecDepth 100000 in
theorem easyMines_placed :
    placeMines (emptyBoard (preset 0).1 (preset 0).2.1 (preset 0).2.2) 0 easyDraws
      = some easyMines := by
  decide

/-! ## The Minesweeper engine: termination of the fill, and the win test -/

theorem foldl_bind_none {σ α : Type} (F : σ → α → Option σ) (l : List α) :
    l.foldl (fun acc p => acc.bind fun s => F s p) none = none := by
  induction l with
  | nil => rfl
  | cons p l ih => exact ih

theorem foldl_bind_mono {σ α : Type} (F F' : σ → α → Option σ)
    (h : ∀ s p r, F s p = some r → F' s p = some r) :
    ∀ (l : List α) (init : Option σ) (r : σ),
      l.foldl (fun acc p => acc.bind fun s => F s p) init = some r →
      l.foldl (fun acc p => acc.bind fun s => F' s p) init = some r := by
  intro l
  induction l with
  | nil => intro init r he; exact he
  | cons p l ih =>
    intro init r he
    rw [List.foldl_cons] at he ⊢
    cases init with
    | none =>
      rw [Option.none_bind, foldl_bind_none] at he
      exact absurd he (by simp)
    | some s =>
      rw [Option.some_bind] at he ⊢
      cases hF : F s p with
      | none =>
        rw [hF, foldl_bind_none] at he
        exact absurd he (by simp)
      | some r1 =>
        rw [hF] at he
        rw [h s p r1 hF]
        exact ih _ _ he

/-- A deeper recursion bound does not change a result of `revealCell`. -/
theorem revealCell_succ : ∀ (fuel : Nat) (s : Minesweeper) (x y : Int) (r : Minesweeper),
    revealCell fuel s x y = some r → revealCell (fuel + 1) s x y = some r := by
  intro fuel
  induction fuel with
  | zero =>
    intro s x y r he
    rw [revealCell] at he
    exact absurd he (by simp)
  | succ fuel ih =>
    intro s x y r he
    rw [revealCell] at he ⊢
    by_cases hout : x < 0 ∨ x ≥ s.Width ∨ y < 0 ∨ y ≥ s.Height
    · rw [if_pos hout] at he ⊢
      exact he
    rw [if_neg hout] at he ⊢
    by_cases hst : (cellAt s.Grid x y).State = CellState.CellRevealed ∨
        (cellAt s.Grid x y).State = CellState.CellFlagged
    · rw [if_pos hst] at he ⊢
      exact he
    rw [if_neg hst] at he ⊢
    simp only at he ⊢
    by_cases hadj : (cellAt s.Grid x y).Adjacent = 0
    · rw [if_pos hadj, neighbours_fold] at he ⊢
      exact foldl_bind_mono (fun (s : Minesweeper) (p : Int × Int) => revealCell fuel s p.1 p.2)
        (fun (s : Minesweeper) (p : Int × Int) => revealCell (fuel + 1) s p.1 p.2)
        (fun s p r h => ih s p.1 p.2 r h) _ _ _ he
    · rw [if_neg hadj] at he ⊢
      exact he

theorem revealCell_mono (fuel fuel' : Nat) (s : Minesweeper) (x y : Int) (r : Minesweeper)
    (hle : fuel ≤ fuel') (he : revealCell fuel s x y = some r) :
    revealCell fuel' s x y = some r := by
  induction fuel' with
  | zero =>
    have : fuel = 0 := by omega
    rw [this] at he
    exact he
  | succ n ih =>
    by_cases h : fuel = n + 1
    · rw [← h]; exact he
    · exact revealCell_succ n s x y r (ih (by omega))

/-- A call of `revealCell` that passes both early returns leaves strictly fewer
hidden cells. -/
theorem revealCell_hidden_lt (fuel : Nat) (s s' : Minesweeper) (x y : Int) (hw : WellFormed s)
    (hlt : countState s.Grid CellState.CellHidden < fuel) (hr : InRange s x y)
    (hh : (cellAt s.Grid x y).State = CellState.CellHidden)
    (he : revealCell fuel s x y = some s') :
    countState s'.Grid CellState.CellHidden < countState s.Grid CellState.CellHidden := by
  cases fuel with
  | zero => exact absurd hlt (Nat.not_lt_zero _)
  | succ fuel =>
    rw [revealCell, if_neg hr, if_neg (by rw [hh]; simp)] at he
    obtain ⟨hg1, hcnt, _⟩ := reveal_one s x y hw hr hh _ rfl
    simp only at he
    by_cases hadj : (cellAt s.Grid x y).Adjacent = 0
    · rw [if_pos hadj, neighbours_fold] at he
      obtain ⟨s2, he2, hf⟩ := visit_spec fuel (revealCell_spec fuel) (neighbours x y) _ hg1.wf
        (by omega)
      rw [he2] at he
      cases he
      exact Nat.lt_of_le_of_lt hf.grows.hidden (Nat.lt_of_succ_le (le_of_eq hcnt))
    · rw [if_neg hadj] at he
      cases he
      exact Nat.lt_of_succ_le (le_of_eq hcnt)

theorem row_split (row : List Cell)
    (h : ∀ c ∈ row, c.IsMine = true → c.State ≠ CellState.CellRevealed) :
    (row.countP fun c => decide (c.State = CellState.CellRevealed)) +
      (row.countP fun c => c.IsMine) +
      (row.countP fun c => !c.IsMine && !decide (c.State = CellState.CellRevealed))
      = row.length := by
  induction row with
  | nil => rfl
  | cons c row ih =>
    have ih1 := ih fun c1 hc1 => h c1 (List.mem_cons_of_mem _ hc1)
    have hc := h c (List.mem_cons_self _ _)
    simp only [List.countP_cons, List.length_cons]
    cases hm : c.IsMine with
    | true =>
      have := hc hm
      simp [hm, this]
      omega
    | false =>
      by_cases hr : c.State = CellState.CellRevealed
      · simp [hm, hr]
        omega
      · simp [hm, hr]
        omega

theorem grid_split (G : List (List Cell))
    (h : ∀ row ∈ G, ∀ c ∈ row, c.IsMine = true → c.State ≠ CellState.CellRevealed) :
    countState G CellState.CellRevealed + mineTotal G + safeLeft G
      = (G.map List.length).sum := by
  induction G with
  | nil => rfl
  | cons row G ih =>
    have ih1 := ih fun r hr => h r (List.mem_cons_of_mem _ hr)
    have hrow := row_split row (h row (List.mem_cons_self _ _))
    unfold countState mineTotal safeLeft at ih1 ⊢
    simp only [List.map_cons, List.sum_cons]
    omega

theorem safeLeft_eq_zero (G : List (List Cell)) :
    safeLeft G = 0 ↔
      ∀ row ∈ G, ∀ c ∈ row, c.IsMine = false → c.State = CellState.CellRevealed := by
  unfold safeLeft
  rw [List.sum_eq_zero_iff]
  constructor
  · intro h row hrow c hc hm
    have h0 := h _ (List.mem_map_of_mem _ hrow)
    rw [List.countP_eq_zero] at h0
    have := h0 c hc
    simpa [hm] using this
  · intro h n hn
    obtain ⟨row, hrow, rfl⟩ := List.mem_map.mp hn
    rw [List.countP_eq_zero]
    intro c hc
    cases hm : c.IsMine with
    | true => simp
    | false => simp [h row hrow c hc hm]

theorem lengths_sum (G : List (List Cell)) (w : Int)
    (h : ∀ row ∈ G, (row.length : Int) = w) :
    (((G.map List.length).sum : Nat) : Int) = w * G.length := by
  induction G with
  | nil => simp
  | cons row G ih =>
    have ih1 := ih fun r hr => h r (List.mem_cons_of_mem _ hr)
    have hrow := h row (List.mem_cons_self _ _)
    simp only [List.map_cons, List.sum_cons, List.length_cons]
    rw [Nat.cast_add, ih1, hrow]
    push_cast
    ring

theorem mem_cellAt (ms : Minesweeper) (hw : WellFormed ms) (row : List Cell)
    (hrow : row ∈ ms.Grid) (c : Cell) (hc : c ∈ row) :
    ∃ x y, InRange ms x y ∧ cellAt ms.Grid x y = c := by
  obtain ⟨i, hi, rfl⟩ := List.getElem_of_mem hrow
  obtain ⟨j, hj, rfl⟩ := List.getElem_of_mem hc
  have hlen := hw.2 _ (List.getElem_mem hi)
  have hH := hw.1
  refine ⟨(j : Int), (i : Int), ?_, ?_⟩
  · unfold InRange
    omega
  · unfold cellAt
    simp only [Int.toNat_ofNat]
    rw [List.getD_eq_getElem _ _ hi, List.getD_eq_getElem _ _ hj]

theorem cellAt_mem (ms : Minesweeper) (hw : WellFormed ms) (x y : Int) (hr : InRange ms x y) :
    ∃ row ∈ ms.Grid, cellAt ms.Grid x y ∈ row := by
  obtain ⟨_, _, hyl, hxl⟩ := inRange_bounds ms x y hw hr
  rw [List.getD_eq_getElem _ _ hyl] at hxl
  refine ⟨ms.Grid[y.toNat], List.getElem_mem hyl, ?_⟩
  unfold cellAt
  rw [List.getD_eq_getElem _ _ hyl, List.getD_eq_getElem _ _ hxl]
  exact List.getElem_mem hxl

theorem mineTotal_congr (s s' : Minesweeper) (hw : WellFormed s) (hw' : WellFormed s')
    (hW : s'.Width = s.Width) (hH : s'.Height = s.Height)
    (h : ∀ x y, InRange s x y → (cellAt s'.Grid x y).IsMine = (cellAt s.Grid x y).IsMine) :
    mineTotal s'.Grid = mineTotal s.Grid := by
  have hmap : s'.Grid.map (List.map fun c => c.IsMine)
      = s.Grid.map (List.map fun c => c.IsMine) := by
    apply List.ext_getElem
    · have h1 := hw.1
      have h2 := hw'.1
      simp only [List.length_map]
      omega
    · intro i h1 h2
      simp only [List.length_map] at h1 h2
      simp only [List.getElem_map]
      have hl := hw.2 _ (List.getElem_mem h2)
      have hl' := hw'.2 _ (List.getElem_mem h1)
      apply List.ext_getElem
      · simp only [List.length_map]
        omega
      · intro j h3 h4
        simp only [List.length_map] at h3 h4
        simp only [List.getElem_map]
        have hH0 := hw.1
        have hr : InRange s (j : Int) (i : Int) := by
          unfold InRange
          omega
        have hc := h (j : Int) (i : Int) hr
        unfold cellAt at hc
        simp only [Int.toNat_ofNat] at hc
        rw [List.getD_eq_getElem _ _ h1, List.getD_eq_getElem _ _ h2,
          List.getD_eq_getElem _ _ h3, List.getD_eq_getElem _ _ h4] at hc
        exact hc
  have key : ∀ G : List (List Cell),
      mineTotal G = ((G.map (List.map fun c => c.IsMine)).map fun r => r.countP id).sum := by
    intro G
    unfold mineTotal
    rw [List.map_map]
    congr 1
    apply List.map_congr_left
    intro row _
    simp only [Function.comp, List.countP_map]
    rfl
  rw [key, key, hmap]

/-- The counter `Revealed` has the value `checkWin` tests for exactly when every
cell without a mine is revealed. -/
theorem revealed_full_iff (ms : Minesweeper) (hs : Inv ms)
    (hm : (mineTotal ms.Grid : Int) = ms.MineCount) :
    ms.Revealed = ms.Width * ms.Height - ms.MineCount ↔ AllSafeRevealed ms := by
  have hno : ∀ row ∈ ms.Grid, ∀ c ∈ row, c.IsMine = true →
      c.State ≠ CellState.CellRevealed := by
    intro row hrow c hc hmine
    obtain ⟨x, y, hr, rfl⟩ := mem_cellAt ms hs.wf row hrow c hc
    exact hs.noMine x y hr hmine
  have hsplit := grid_split ms.Grid hno
  have hlen := lengths_sum ms.Grid ms.Width hs.wf.2
  rw [hs.wf.1] at hlen
  have hcnt := hs.counter
  have hzero : ms.Revealed = ms.Width * ms.Height - ms.MineCount ↔ safeLeft ms.Grid = 0 := by
    rw [← hlen, ← hsplit, hcnt, ← hm]
    push_cast
    constructor
    · intro h
      have : (safeLeft ms.Grid : Int) = 0 := by linarith
      exact_mod_cast this
    · intro h
      rw [h]
      push_cast
      ring
  rw [hzero, safeLeft_eq_zero]
  constructor
  · intro h x y hr hmine
    obtain ⟨row, hrow, hc⟩ := cellAt_mem ms hs.wf x y hr
    exact h row hrow _ hc hmine
  · intro h row hrow c hc hmine
    obtain ⟨x, y, hr, rfl⟩ := mem_cellAt ms hs.wf row hrow c hc
    exact h x y hr hmine

/-- What `NewMinesweeper` returns has `MineCount` mines, fewer than cells, and
neither a revealed cell counted nor `Won` set. -/
theorem NewMinesweeper_start (difficulty : Int) (draws : List (Nat × Nat)) (ms : Minesweeper)
    (h : NewMinesweeper difficulty draws = some ms) :
    (mineTotal ms.Grid : Int) = ms.MineCount ∧ ms.MineCount < ms.Width * ms.Height ∧
    ms.Revealed = 0 ∧ ms.Won = false := by
  unfold NewMinesweeper at h
  simp only [Option.map_eq_some'] at h
  obtain ⟨ms0, hp, rfl⟩ := h
  have hpos := preset_pos difficulty
  have hfe := emptyBoard_fresh (preset difficulty).1 (preset difficulty).2.1
    (preset difficulty).2.2 hpos.1 hpos.2
  have hfields := placeMines_fields draws _ 0 ms0 hp
  have hmc : (0 : Int) ≤ (preset difficulty).2.2 := by
    unfold preset
    split_ifs <;> simp
  have htot := placeMines_total draws _ 0 ms0 hfe hmc
    (by unfold emptyBoard; simp only; rw [mineTotal_replicate]; rfl) hp
  have hf0 := placeMines_fresh draws _ 0 ms0 hfe hp
  have hs := calculateAdjacent_sameBut ms0 hf0.wf
  obtain ⟨hW, hH, hM, _, hRe, _, hWo⟩ := hfields
  refine ⟨?_, ?_, ?_, ?_⟩
  · rw [hs.mines, hs.mineCount]
    exact htot
  · rw [hs.width, hs.height, hs.mineCount, hW, hH, hM]
    unfold emptyBoard preset
    simp only
    split_ifs <;> simp
  · rw [hs.revealed, hRe]; rfl
  · rw [hs.won, hWo]; rfl

theorem NewMinesweeper_winInv (difficulty : Int) (draws : List (Nat × Nat)) (ms : Minesweeper)
    (h : NewMinesweeper difficulty draws = some ms) : WinInv ms := by
  obtain ⟨hm, hroom, hrev, hwon⟩ := NewMinesweeper_start difficulty draws ms h
  refine { base := NewMinesweeper_inv difficulty draws ms h, mines := hm, room := hroom,
           won := ?_, over := ?_ }
  · rw [hwon, hrev]
    constructor
    · intro hc
      exact absurd hc (by simp)
    · intro hc
      omega
  · intro hc
    rw [hwon] at hc
    exact absurd hc (by simp)

theorem WinInv.transfer (s s' : Minesweeper) (hs : WinInv s) (hi : Inv s')
    (hM : mineTotal s'.Grid = mineTotal s.Grid)
    (hW : s'.Width = s.Width) (hH : s'.Height = s.Height) (hC : s'.MineCount = s.MineCount)
    (hR : s'.Revealed = s.Revealed) (hWon : s'.Won = s.Won)
    (hO : s.GameOver = true → s'.GameOver = true) : WinInv s' :=
  { base := hi
    mines := by rw [hM, hC]; exact hs.mines
    room := by rw [hC, hW, hH]; exact hs.room
    won := by rw [hWon, hR, hW, hH, hC]; exact hs.won
    over := by
      intro h
      rw [hWon] at h
      exact hO (hs.over h) }

theorem WinInv_Reveal (ms : Minesweeper) (x y : Int) (hs : WinInv ms) :
    WinInv (Reveal ms x y).1 := by
  have hi := Inv_Reveal ms x y hs.base
  by_cases hout : x < 0 ∨ x ≥ ms.Width ∨ y < 0 ∨ y ≥ ms.Height
  · have : Reveal ms x y = (ms, false) := by unfold Reveal; rw [if_pos hout]
    rw [this]; exact hs
  by_cases hst : (cellAt ms.Grid x y).State = CellState.CellRevealed ∨
      (cellAt ms.Grid x y).State = CellState.CellFlagged
  · have : Reveal ms x y = (ms, false) := by unfold Reveal; rw [if_neg hout, if_pos hst]
    rw [this]; exact hs
  have hh := state_hidden_of_not _ hst
  cases hm : (cellAt ms.Grid x y).IsMine with
  | true =>
    have : Reveal ms x y = ({ ms with GameOver := true }, true) := by
      unfold Reveal; rw [if_neg hout, if_neg hst, hm]; simp
    rw [this] at hi ⊢
    exact WinInv.transfer ms _ hs hi rfl rfl rfl rfl rfl rfl (fun _ => rfl)
  | false =>
    obtain ⟨s', _, hf, hR⟩ := Reveal_safe ms x y hs.base.wf hout hh hm
    rw [hR] at hi ⊢
    have hi' : Inv s' := Inv.fill ms s' x y hs.base hf hm
    have hM : mineTotal s'.Grid = mineTotal ms.Grid :=
      mineTotal_congr ms s' hs.base.wf hf.grows.wf hf.grows.width hf.grows.height
        (fun cx cy hr => hf.grows.isMine cx cy hr)
    have hnot : ms.Won = false := by
      cases hw : ms.Won with
      | false => rfl
      | true =>
        have hall := (revealed_full_iff ms hs.base hs.mines).1 (hs.won.1 hw)
        have := hall x y hout hm
        rw [hh] at this
        exact absurd this (by simp)
    have hWon' : s'.Won = false := by rw [hf.grows.won]; exact hnot
    refine { base := hi, mines := ?_, room := ?_, won := ?_, over := ?_ }
    · rw [checkWin_Grid, checkWin_MineCount, hM, hf.grows.mineCount]
      exact hs.mines
    · rw [checkWin_MineCount, checkWin_Width, checkWin_Height, hf.grows.mineCount,
        hf.grows.width, hf.grows.height]
      exact hs.room
    · rw [checkWin_Revealed, checkWin_Width, checkWin_Height, checkWin_MineCount]
      unfold checkWin
      by_cases hc : s'.Revealed = s'.Width * s'.Height - s'.MineCount
      · rw [if_pos hc]
        exact ⟨fun _ => hc, fun _ => rfl⟩
      · rw [if_neg hc, hWon']
        exact ⟨fun h => absurd h (by simp), fun h => absurd h hc⟩
    · unfold checkWin
      by_cases hc : s'.Revealed = s'.Width * s'.Height - s'.MineCount
      · rw [if_pos hc]
        exact fun _ => rfl
      · rw [if_neg hc, hWon']
        exact fun h => absurd h (by simp)

theorem ToggleFlag_same (ms : Minesweeper) (x y : Int) :
    (ToggleFlag ms x y).Revealed = ms.Revealed ∧ (ToggleFlag ms x y).Won = ms.Won ∧
    (ToggleFlag ms x y).GameOver = ms.GameOver ∧ (ToggleFlag ms x y).Width = ms.Width ∧
    (ToggleFlag ms x y).Height = ms.Height ∧ (ToggleFlag ms x y).MineCount = ms.MineCount ∧
    ∀ x' y', (cellAt (ToggleFlag ms x y).Grid x' y').IsMine = (cellAt ms.Grid x' y').IsMine := by
  unfold ToggleFlag
  by_cases hout : x < 0 ∨ x ≥ ms.Width ∨ y < 0 ∨ y ≥ ms.Height
  · rw [if_pos hout]
    exact ⟨rfl, rfl, rfl, rfl, rfl, rfl, fun _ _ => rfl⟩
  rw [if_neg hout]
  by_cases hrev : (cellAt ms.Grid x y).State = CellState.CellRevealed
  · rw [if_pos hrev]
    exact ⟨rfl, rfl, rfl, rfl, rfl, rfl, fun _ _ => rfl⟩
  rw [if_neg hrev]
  by_cases hfl : (cellAt ms.Grid x y).State = CellState.CellFlagged
  · rw [if_pos hfl]
    exact ⟨rfl, rfl, rfl, rfl, rfl, rfl,
      fun x' y' => (cellAt_setState ms.Grid x y x' y' CellState.CellHidden).1⟩
  · rw [if_neg hfl]
    exact ⟨rfl, rfl, rfl, rfl, rfl, rfl,
      fun x' y' => (cellAt_setState ms.Grid x y x' y' CellState.CellFlagged).1⟩

theorem WinInv_ToggleFlag (ms : Minesweeper) (x y : Int) (hs : WinInv ms) :
    WinInv (ToggleFlag ms x y) := by
  have hi := Inv_ToggleFlag ms x y hs.base
  obtain ⟨hR, hWon, hO, hW, hH, hC, hmine⟩ := ToggleFlag_same ms x y
  exact WinInv.transfer ms _ hs hi
    (mineTotal_congr ms _ hs.base.wf hi.wf hW hH (fun cx cy _ => hmine cx cy))
    hW hH hC hR hWon (fun h => by rw [hO]; exact h)

theorem Reachable.winInv (ms : Minesweeper) (h : Reachable ms) : WinInv ms := by
  induction h with
  | init difficulty draws ms h => exact NewMinesweeper_winInv difficulty draws ms h
  | call ms c _ ih =>
    cases c with
    | reveal x y => exact WinInv_Reveal ms x y ih
    | toggleFlag x y => exact WinInv_ToggleFlag ms x y ih

theorem Reachable.calls (cs : List Call) : ∀ (ms : Minesweeper), Reachable ms →
    Reachable (cs.foldl applyCall ms) := by
  induction cs with
  | nil => exact fun _ h => h
  | cons c cs ih => exact fun ms h => ih _ (Reachable.call ms c h)

/-! ## The Minesweeper engine: the properties of the specification -/

/-- C4: on a well-formed board, for an in-range cell `(x, y)` that is hidden
and not a mine, `Reveal(x, y)` changes the grid in exactly this way: the cells
that become revealed are the hidden cells reachable from `(x, y)` by a path of
Moore-adjacent in-bounds hidden cells in which every cell except the last has
`Adjacent = 0`; every other cell, the mine flags, the adjacency counts and the
shape of the grid stay as they are. -/
theorem Reveal_flood_fill (ms : Minesweeper) (x y : Int) (hw : WellFormed ms)
    (hr : InRange ms x y) (hh : (cellAt ms.Grid x y).State = CellState.CellHidden)
    (hm : (cellAt ms.Grid x y).IsMine = false) :
    WellFormed (Reveal ms x y).1 ∧
    (Reveal ms x y).1.Width = ms.Width ∧ (Reveal ms x y).1.Height = ms.Height ∧
    ∀ cx cy, InRange ms cx cy →
      (FloodPath ms (x, y) (cx, cy) →
        cellAt (Reveal ms x y).1.Grid cx cy
          = { cellAt ms.Grid cx cy with State := CellState.CellRevealed }) ∧
      (¬ FloodPath ms (x, y) (cx, cy) →
        cellAt (Reveal ms x y).1.Grid cx cy = cellAt ms.Grid cx cy) := by
  obtain ⟨s', _, hf, hR⟩ := Reveal_safe ms x y hw hr hh hm
  have hwf : WellFormed (checkWin s') := by
    unfold WellFormed
    rw [checkWin_Grid, checkWin_Width, checkWin_Height]
    exact hf.grows.wf
  rw [hR]
  refine ⟨hwf, ?_, ?_, ?_⟩
  · rw [checkWin_Width]; exact hf.grows.width
  · rw [checkWin_Height]; exact hf.grows.height
  intro cx cy hrc
  simp only [checkWin_Grid]
  have hstart : (cellAt s'.Grid x y).State = CellState.CellRevealed := by
    have hnh := hf.starts_done (x, y) (by simp) hr
    rcases hf.grows.cells x y hr with e | ⟨_, e⟩
    · rw [e] at hnh
      exact absurd hh hnh
    · rw [e]
  constructor
  · intro hpath
    have hrev := hf.complete ms s' _ (x, y) (cx, cy) hpath hstart
    have hhc := (FloodPath.finish ms _ _ hpath).2
    rcases hf.grows.cells cx cy hrc with e | ⟨_, e⟩
    · rw [e] at hrev
      rw [hhc] at hrev
      exact absurd hrev (by simp)
    · exact e
  · intro hno
    rcases hf.grows.cells cx cy hrc with e | ⟨hhc, e⟩
    · exact e
    · exfalso
      obtain ⟨p, hp, hpath⟩ := hf.sound cx cy hrc hhc (by rw [e])
      rcases List.mem_singleton.mp hp with rfl
      exact hno hpath

/-- Witness of C4: on the 3x3 board with a single mine at `(2, 2)`, `Reveal(0, 0)`
reveals all eight safe cells, leaves `(2, 2)` hidden and sets `Won` and `GameOver`. -/
theorem Reveal_flood_fill_witness :
    Reveal board3 0 0 = (board3Won, true) ∧
    WellFormed (Reveal board3 0 0).1 ∧
    (Reveal board3 0 0).1.Width = board3.Width ∧ (Reveal board3 0 0).1.Height = board3.Height ∧
    ∀ cx cy, InRange board3 cx cy →
      (FloodPath board3 (0, 0) (cx, cy) →
        cellAt (Reveal board3 0 0).1.Grid cx cy
          = { cellAt board3.Grid cx cy with State := CellState.CellRevealed }) ∧
      (¬ FloodPath board3 (0, 0) (cx, cy) →
        cellAt (Reveal board3 0 0).1.Grid cx cy = cellAt board3.Grid cx cy) :=
  ⟨by decide, Reveal_flood_fill board3 0 0 (by decide) (by decide) (by decide) (by decide)⟩

/-- C10: on a well-formed board, for an in-range cell that is hidden and not a
mine, `Reveal` returns true, and afterwards: if the counter `Revealed` equals
`Width * Height - MineCount` then `Won` and `GameOver` are both true, otherwise
both keep their previous values. -/
theorem Reveal_win_check (ms : Minesweeper) (x y : Int) (hw : WellFormed ms)
    (hr : InRange ms x y) (hh : (cellAt ms.Grid x y).State = CellState.CellHidden)
    (hm : (cellAt ms.Grid x y).IsMine = false) :
    (Reveal ms x y).2 = true ∧
    ((Reveal ms x y).1.Revealed = ms.Width * ms.Height - ms.MineCount →
      (Reveal ms x y).1.Won = true ∧ (Reveal ms x y).1.GameOver = true) ∧
    ((Reveal ms x y).1.Revealed ≠ ms.Width * ms.Height - ms.MineCount →
      (Reveal ms x y).1.Won = ms.Won ∧ (Reveal ms x y).1.GameOver = ms.GameOver) := by
  obtain ⟨s', _, hf, hR⟩ := Reveal_safe ms x y hw hr hh hm
  rw [hR]
  refine ⟨rfl, ?_, ?_⟩
  · intro he
    rw [checkWin_Revealed] at he
    have hc : s'.Revealed = s'.Width * s'.Height - s'.MineCount := by
      rw [hf.grows.width, hf.grows.height, hf.grows.mineCount]
      exact he
    simp [checkWin, hc]
  · intro hne
    rw [checkWin_Revealed] at hne
    have hc : ¬ s'.Revealed = s'.Width * s'.Height - s'.MineCount := by
      rw [hf.grows.width, hf.grows.height, hf.grows.mineCount]
      exact hne
    simp only [checkWin, if_neg hc]
    exact ⟨hf.grows.won, hf.grows.gameOver⟩

/-- Witness of C10: `Reveal(0, 0)` on the 3x3 board reveals 8 = 3 * 3 - 1 cells and wins;
`Reveal(1, 1)` reveals a single cell and changes neither flag. -/
theorem Reveal_win_check_witness :
    ((Reveal board3 0 0).2 = true ∧
      ((Reveal board3 0 0).1.Revealed = board3.Width * board3.Height - board3.MineCount →
        (Reveal board3 0 0).1.Won = true ∧ (Reveal board3 0 0).1.GameOver = true) ∧
      ((Reveal board3 0 0).1.Revealed ≠ board3.Width * board3.Height - board3.MineCount →
        (Reveal board3 0 0).1.Won = board3.Won ∧
          (Reveal board3 0 0).1.GameOver = board3.GameOver)) ∧
    (Reveal board3 0 0).1.Revealed = 8 ∧ (Reveal board3 0 0).1.Won = true ∧
    (Reveal board3 1 1).1.Revealed = 1 ∧ (Reveal board3 1 1).1.Won = false ∧
    (Reveal board3 1 1).1.GameOver = false :=
  ⟨Reveal_win_check board3 0 0 (by decide) (by decide) (by decide) (by decide),
    by decide, by decide, by decide, by decide, by decide⟩

/-- C5: in every state reachable from `NewMinesweeper` by `Reveal` and
`ToggleFlag` calls, no mine cell is revealed; and `Reveal` on a mine leaves the
grid, so that cell's state, as it is. -/
theorem reachable_no_mine_revealed (ms : Minesweeper) (h : Reachable ms) (x y : Int)
    (hr : InRange ms x y) (hm : (cellAt ms.Grid x y).IsMine = true) :
    (cellAt ms.Grid x y).State ≠ CellState.CellRevealed ∧
    (Reveal ms x y).1.Grid = ms.Grid ∧
    (cellAt (Reveal ms x y).1.Grid x y).State ≠ CellState.CellRevealed := by
  have hinv := Reachable.inv ms h
  have h1 := hinv.noMine x y hr hm
  have h2 := Reveal_mine_Grid ms x y hm
  refine ⟨h1, h2, ?_⟩
  rw [h2]
  exact h1

set_option maxRecDepth 100000 in
/-- Witness of C5: the Easy game with mines on the diagonal, after the flood
fill from `(8, 0)` and a `Reveal` of the mine `(0, 0)`; the mine `(1, 1)` next
to the revealed region is not revealed. -/
theorem reachable_no_mine_revealed_witness :
    Reachable (applyCall (applyCall easyGame (Call.reveal 8 0)) (Call.reveal 0 0)) ∧
    (applyCall easyGame (Call.reveal 8 0)).Revealed = 34 ∧
    (cellAt (applyCall (applyCall easyGame (Call.reveal 8 0)) (Call.reveal 0 0)).Grid 1 1).State
      ≠ CellState.CellRevealed ∧
    (Reveal (applyCall (applyCall easyGame (Call.reveal 8 0)) (Call.reveal 0 0)) 1 1).1.Grid
      = (applyCall (applyCall easyGame (Call.reveal 8 0)) (Call.reveal 0 0)).Grid ∧
    (cellAt (Reveal (applyCall (applyCall easyGame (Call.reveal 8 0)) (Call.reveal 0 0))
      1 1).1.Grid 1 1).State ≠ CellState.CellRevealed :=
  ⟨Reachable.call _ _ (Reachable.call _ _ easyGame_reachable), by decide,
    reachable_no_mine_revealed _ (Reachable.call _ _ (Reachable.call _ _ easyGame_reachable))
      1 1 (by decide) (by decide)⟩

/-- C6: in every state reachable from `NewMinesweeper` by `Reveal` and
`ToggleFlag` calls, the counter `Revealed` is the number of grid cells whose
state is revealed. -/
theorem reachable_revealed_counter (ms : Minesweeper) (h : Reachable ms) :
    ms.Revealed = (countState ms.Grid CellState.CellRevealed : Int) :=
  (Reachable.inv ms h).counter

set_option maxRecDepth 100000 in
/-- Witness of C6: the Easy game after a flood fill, a flag, a second `Reveal`
of a revealed cell and a `Reveal` of a mine. -/
theorem reachable_revealed_counter_witness :
    Reachable (applyCall (applyCall (applyCall (applyCall easyGame (Call.reveal 8 0))
      (Call.toggleFlag 2 2)) (Call.reveal 8 0)) (Call.reveal 0 0)) ∧
    (applyCall (applyCall (applyCall (applyCall easyGame (Call.reveal 8 0))
      (Call.toggleFlag 2 2)) (Call.reveal 8 0)) (Call.reveal 0 0)).Revealed = 34 ∧
    (applyCall (applyCall (applyCall (applyCall easyGame (Call.reveal 8 0))
      (Call.toggleFlag 2 2)) (Call.reveal 8 0)) (Call.reveal 0 0)).Revealed
      = (countState (applyCall (applyCall (applyCall (applyCall easyGame (Call.reveal 8 0))
          (Call.toggleFlag 2 2)) (Call.reveal 8 0)) (Call.reveal 0 0)).Grid
          CellState.CellRevealed : Int) :=
  ⟨Reachable.call _ _ (Reachable.call _ _ (Reachable.call _ _
      (Reachable.call _ _ easyGame_reachable))), by decide,
    reachable_revealed_counter _ (Reachable.call _ _ (Reachable.call _ _ (Reachable.call _ _
      (Reachable.call _ _ easyGame_reachable))))⟩

set_option maxRecDepth 100000 in
/-- Counterexample to C7: in the Easy game a `Reveal` of the mine `(0, 0)` sets
`GameOver`; afterwards `Reveal(8, 0)` still returns true and reveals cells, and
`ToggleFlag(8, 0)` still flags the cell. -/
theorem gameOver_calls_not_inert :
    (Reveal easyGame 0 0).1.GameOver = true ∧
    (Reveal (Reveal easyGame 0 0).1 8 0).2 = true ∧
    (Reveal (Reveal easyGame 0 0).1 8 0).1 ≠ (Reveal easyGame 0 0).1 ∧
    (Reveal (Reveal easyGame 0 0).1 8 0).1.Revealed = 34 ∧
    ToggleFlag (Reveal easyGame 0 0).1 8 0 ≠ (Reveal easyGame 0 0).1 ∧
    (ToggleFlag (Reveal easyGame 0 0).1 8 0).Flags = 1 := by
  decide

/-- C7, amended: the engine methods do not look at `GameOver`. In a state with
`GameOver` true, `Reveal(x, y)` leaves the whole state unchanged and returns
false when `(x, y)` is out of range or the cell is revealed or flagged, and
`ToggleFlag(x, y)` leaves the whole state unchanged when `(x, y)` is out of
range or the cell is revealed; the calls the presentation layer makes, which
are guarded by `!GameOver`, leave the whole state unchanged for every `(x, y)`. -/
theorem gameOver_calls_guarded (ms : Minesweeper) (x y : Int) (hgo : ms.GameOver = true) :
    updateReveal ms x y = ms ∧ updateToggleFlag ms x y = ms ∧
    ((¬ InRange ms x y ∨ (cellAt ms.Grid x y).State = CellState.CellRevealed ∨
        (cellAt ms.Grid x y).State = CellState.CellFlagged) → Reveal ms x y = (ms, false)) ∧
    ((¬ InRange ms x y ∨ (cellAt ms.Grid x y).State = CellState.CellRevealed) →
      ToggleFlag ms x y = ms) := by
  refine ⟨?_, ?_, Reveal_noop ms x y, ToggleFlag_noop ms x y⟩
  · simp [updateReveal, hgo]
  · simp [updateToggleFlag, hgo]

set_option maxRecDepth 100000 in
/-- Witness of the amended C7: the Easy game after a `Reveal` of the mine `(0, 0)`. -/
theorem gameOver_calls_guarded_witness :
    (Reveal easyGame 0 0).1.GameOver = true ∧
    updateReveal (Reveal easyGame 0 0).1 8 0 = (Reveal easyGame 0 0).1 ∧
    updateToggleFlag (Reveal easyGame 0 0).1 8 0 = (Reveal easyGame 0 0).1 ∧
    ((¬ InRange (Reveal easyGame 0 0).1 8 0 ∨
        (cellAt (Reveal easyGame 0 0).1.Grid 8 0).State = CellState.CellRevealed ∨
        (cellAt (Reveal easyGame 0 0).1.Grid 8 0).State = CellState.CellFlagged) →
      Reveal (Reveal easyGame 0 0).1 8 0 = ((Reveal easyGame 0 0).1, false)) ∧
    ((¬ InRange (Reveal easyGame 0 0).1 8 0 ∨
        (cellAt (Reveal easyGame 0 0).1.Grid 8 0).State = CellState.CellRevealed) →
      ToggleFlag (Reveal easyGame 0 0).1 8 0 = (Reveal easyGame 0 0).1) :=
  ⟨by decide, gameOver_calls_guarded (Reveal easyGame 0 0).1 8 0 (by decide)⟩

/-- C11: for every state with `Won` false and every in-range cell `(x, y)` that
is hidden and a mine, `Reveal(x, y)` returns true, sets `GameOver`, leaves `Won`
false and leaves the counters `Revealed` and `Flags` and the whole grid, the
mine cell's own state included, as they are. -/
theorem Reveal_mine_ends_game (ms : Minesweeper) (x y : Int) (hw : ms.Won = false)
    (hr : InRange ms x y) (hh : (cellAt ms.Grid x y).State = CellState.CellHidden)
    (hm : (cellAt ms.Grid x y).IsMine = true) :
    (Reveal ms x y).2 = true ∧ (Reveal ms x y).1.GameOver = true ∧
    (Reveal ms x y).1.Won = false ∧ (Reveal ms x y).1.Revealed = ms.Revealed ∧
    (Reveal ms x y).1.Flags = ms.Flags ∧ (Reveal ms x y).1.Grid = ms.Grid ∧
    (cellAt (Reveal ms x y).1.Grid x y).State = CellState.CellHidden ∧
    Reveal ms x y = ({ ms with GameOver := true }, true) := by
  have h := Reveal_mine ms x y hr hh hm
  rw [h]
  exact ⟨rfl, rfl, hw, rfl, rfl, rfl, hh, rfl⟩

set_option maxRecDepth 100000 in
/-- Witness of C11: `Reveal` of the mine `(0, 0)` of the Easy game. -/
theorem Reveal_mine_ends_game_witness :
    (Reveal easyGame 0 0).2 = true ∧ (Reveal easyGame 0 0).1.GameOver = true ∧
    (Reveal easyGame 0 0).1.Won = false ∧ (Reveal easyGame 0 0).1.Revealed = easyGame.Revealed ∧
    (Reveal easyGame 0 0).1.Flags = easyGame.Flags ∧ (Reveal easyGame 0 0).1.Grid = easyGame.Grid ∧
    (cellAt (Reveal easyGame 0 0).1.Grid 0 0).State = CellState.CellHidden ∧
    Reveal easyGame 0 0 = ({ easyGame with GameOver := true }, true) :=
  Reveal_mine_ends_game easyGame 0 0 (by decide) (by decide) (by decide) (by decide)

/-- C12: for all integers `x`, `y`, `Reveal(x, y)` returns false if and only if
`(x, y)` is out of range or the target cell is already revealed or flagged; and
whenever it returns false the entire state is unchanged. -/
theorem Reveal_false_iff (ms : Minesweeper) (x y : Int) :
    ((Reveal ms x y).2 = false ↔
      (¬ InRange ms x y ∨ (cellAt ms.Grid x y).State = CellState.CellRevealed ∨
        (cellAt ms.Grid x y).State = CellState.CellFlagged)) ∧
    ((Reveal ms x y).2 = false → (Reveal ms x y).1 = ms) := by
  refine ⟨Reveal_snd_false_iff ms x y, ?_⟩
  intro h
  rw [Reveal_noop ms x y ((Reveal_snd_false_iff ms x y).1 h)]

set_option maxRecDepth 100000 in
/-- Witness of C12: on the Easy game with the region around `(8, 0)` revealed and
a flag on `(0, 0)`, `Reveal` returns false and changes nothing out of range
(`(9, 0)`, `(-1, 3)`), on the revealed cell `(8, 0)` and on the flagged cell
`(0, 0)`, and returns true on the hidden cell `(0, 1)`. -/
theorem Reveal_false_iff_witness :
    (Reveal (ToggleFlag (Reveal easyGame 8 0).1 0 0) 9 0).2 = false ∧
    (Reveal (ToggleFlag (Reveal easyGame 8 0).1 0 0) (-1) 3).2 = false ∧
    (Reveal (ToggleFlag (Reveal easyGame 8 0).1 0 0) 8 0).2 = false ∧
    (Reveal (ToggleFlag (Reveal easyGame 8 0).1 0 0) 0 0).2 = false ∧
    (Reveal (ToggleFlag (Reveal easyGame 8 0).1 0 0) 0 1).2 = true ∧
    (Reveal (ToggleFlag (Reveal easyGame 8 0).1 0 0) 8 0).1
      = ToggleFlag (Reveal easyGame 8 0).1 0 0 :=
  ⟨by decide, by decide, by decide, by decide, by decide,
    (Reveal_false_iff (ToggleFlag (Reveal easyGame 8 0).1 0 0) 8 0).2 (by decide)⟩

/-- C15: on a well-formed board, for every in-range cell `(x, y)` whose state is
hidden, the first `ToggleFlag(x, y)` makes the cell flagged and `Flags` one
more, and a second `ToggleFlag(x, y)` restores the original state exactly. -/
theorem ToggleFlag_twice (ms : Minesweeper) (x y : Int) (hw : WellFormed ms)
    (hr : InRange ms x y) (hh : (cellAt ms.Grid x y).State = CellState.CellHidden) :
    (cellAt (ToggleFlag ms x y).Grid x y).State = CellState.CellFlagged ∧
    (ToggleFlag ms x y).Flags = ms.Flags + 1 ∧
    ToggleFlag (ToggleFlag ms x y) x y = ms := by
  obtain ⟨hx, hy, hyl, hxl⟩ := inRange_bounds ms x y hw hr
  have h1 : ToggleFlag ms x y =
      { ms with
        Grid := setCellAt ms.Grid x y { cellAt ms.Grid x y with State := CellState.CellFlagged },
        Flags := ms.Flags + 1 } := by
    unfold ToggleFlag
    rw [if_neg hr, if_neg (by rw [hh]; simp), if_neg (by rw [hh]; simp)]
  have hcell : cellAt (setCellAt ms.Grid x y
      { cellAt ms.Grid x y with State := CellState.CellFlagged }) x y
        = { cellAt ms.Grid x y with State := CellState.CellFlagged } := by
    rw [cellAt_setCellAt ms.Grid x y x y _ hx hy hx hy hyl hxl, if_pos ⟨rfl, rfl⟩]
  refine ⟨?_, ?_, ?_⟩
  · rw [h1]
    simp only
    rw [hcell]
  · rw [h1]
  · rw [h1]
    unfold ToggleFlag
    simp only
    rw [if_neg hr, hcell]
    simp only [reduceCtorEq, if_false, if_true]
    rw [setCellAt_setCellAt _ _ _ _ _ hyl]
    have hback : ({ cellAt ms.Grid x y with State := CellState.CellHidden } : Cell)
        = cellAt ms.Grid x y := by
      rw [← hh]
    rw [hback, setCellAt_self]
    have hf : ms.Flags + 1 - 1 = ms.Flags := by omega
    rw [hf]

set_option maxRecDepth 100000 in
/-- Witness of C15: flagging and unflagging the hidden cell `(3, 5)` of the Easy game. -/
theorem ToggleFlag_twice_witness :
    (cellAt (ToggleFlag easyGame 3 5).Grid 3 5).State = CellState.CellFlagged ∧
    (ToggleFlag easyGame 3 5).Flags = easyGame.Flags + 1 ∧
    ToggleFlag (ToggleFlag easyGame 3 5) 3 5 = easyGame :=
  ToggleFlag_twice easyGame 3 5 (by decide) (by decide) (by decide)

/-- C16: for all integers `x`, `y`: if `(x, y)` is out of range or the cell is
revealed, `ToggleFlag(x, y)` leaves the entire state unchanged; in every case
it leaves the counter `Revealed`, `Won`, `GameOver`, the shape and mine count,
every cell's `IsMine` and `Adjacent`, and every cell other than `(x, y)` as
they are. -/
theorem ToggleFlag_frame (ms : Minesweeper) (x y : Int) :
    ((¬ InRange ms x y ∨ (cellAt ms.Grid x y).State = CellState.CellRevealed) →
      ToggleFlag ms x y = ms) ∧
    (ToggleFlag ms x y).Revealed = ms.Revealed ∧ (ToggleFlag ms x y).Won = ms.Won ∧
    (ToggleFlag ms x y).GameOver = ms.GameOver ∧ (ToggleFlag ms x y).Width = ms.Width ∧
    (ToggleFlag ms x y).Height = ms.Height ∧ (ToggleFlag ms x y).MineCount = ms.MineCount ∧
    (∀ x' y', (cellAt (ToggleFlag ms x y).Grid x' y').IsMine = (cellAt ms.Grid x' y').IsMine ∧
      (cellAt (ToggleFlag ms x y).Grid x' y').Adjacent = (cellAt ms.Grid x' y').Adjacent) ∧
    (∀ x' y', InRange ms x' y' → (x', y') ≠ (x, y) →
      cellAt (ToggleFlag ms x y).Grid x' y' = cellAt ms.Grid x' y') := by
  refine ⟨ToggleFlag_noop ms x y, ?_⟩
  unfold ToggleFlag
  by_cases hout : x < 0 ∨ x ≥ ms.Width ∨ y < 0 ∨ y ≥ ms.Height
  · rw [if_pos hout]
    exact ⟨rfl, rfl, rfl, rfl, rfl, rfl, fun _ _ => ⟨rfl, rfl⟩, fun _ _ _ _ => rfl⟩
  rw [if_neg hout]
  have hx : 0 ≤ x := by omega
  have hy : 0 ≤ y := by omega
  have hother : ∀ (c : Cell) (x' y' : Int), InRange ms x' y' → (x', y') ≠ (x, y) →
      cellAt (setCellAt ms.Grid x y c) x' y' = cellAt ms.Grid x' y' := by
    intro c x' y' hr' hne
    unfold InRange at hr'
    exact cellAt_setCellAt_other ms.Grid x y x' y' c hx hy (by omega) (by omega) hne
  by_cases hrev : (cellAt ms.Grid x y).State = CellState.CellRevealed
  · rw [if_pos hrev]
    exact ⟨rfl, rfl, rfl, rfl, rfl, rfl, fun _ _ => ⟨rfl, rfl⟩, fun _ _ _ _ => rfl⟩
  rw [if_neg hrev]
  by_cases hfl : (cellAt ms.Grid x y).State = CellState.CellFlagged
  · rw [if_pos hfl]
    exact ⟨rfl, rfl, rfl, rfl, rfl, rfl,
      fun x' y' => cellAt_setState ms.Grid x y x' y' CellState.CellHidden,
      fun x' y' hr' hne => hother _ x' y' hr' hne⟩
  · rw [if_neg hfl]
    exact ⟨rfl, rfl, rfl, rfl, rfl, rfl,
      fun x' y' => cellAt_setState ms.Grid x y x' y' CellState.CellFlagged,
      fun x' y' hr' hne => hother _ x' y' hr' hne⟩

set_option maxRecDepth 100000 in
/-- Witness of C16: on the Easy game with the region around `(8, 0)` revealed,
`ToggleFlag` changes nothing out of range and on the revealed cell `(8, 0)`. -/
theorem ToggleFlag_frame_witness :
    ToggleFlag (Reveal easyGame 8 0).1 9 9 = (Reveal easyGame 8 0).1 ∧
    ToggleFlag (Reveal easyGame 8 0).1 8 0 = (Reveal easyGame 8 0).1 :=
  ⟨(ToggleFlag_frame (Reveal easyGame 8 0).1 9 9).1 (Or.inl (by decide)),
    (ToggleFlag_frame (Reveal easyGame 8 0).1 8 0).1 (Or.inr (by decide))⟩

/-- C13: for every grid produced by mine placement, `calculateAdjacent` sets the
`Adjacent` field of each cell that is not a mine to the number of mined cells
among its in-bounds Moore neighbours, a value between 0 and 8; the `Adjacent`
of mine cells and every cell's `IsMine` and `State` are left untouched. -/
theorem calculateAdjacent_counts (difficulty : Int) (draws : List (Nat × Nat))
    (ms0 : Minesweeper)
    (h : placeMines (emptyBoard (preset difficulty).1 (preset difficulty).2.1
      (preset difficulty).2.2) 0 draws = some ms0)
    (x y : Int) (hr : InRange ms0 x y) :
    (cellAt (calculateAdjacent ms0).Grid x y).IsMine = (cellAt ms0.Grid x y).IsMine ∧
    (cellAt (calculateAdjacent ms0).Grid x y).State = (cellAt ms0.Grid x y).State ∧
    ((cellAt ms0.Grid x y).IsMine = false →
      (cellAt (calculateAdjacent ms0).Grid x y).Adjacent = (minedNeighbours ms0 x y : Int) ∧
      0 ≤ (cellAt (calculateAdjacent ms0).Grid x y).Adjacent ∧
      (cellAt (calculateAdjacent ms0).Grid x y).Adjacent ≤ 8) ∧
    ((cellAt ms0.Grid x y).IsMine = true →
      (cellAt (calculateAdjacent ms0).Grid x y).Adjacent = (cellAt ms0.Grid x y).Adjacent) := by
  have hpos := preset_pos difficulty
  have hf := placeMines_fresh draws _ 0 ms0 (emptyBoard_fresh _ _ _ hpos.1 hpos.2) h
  have hc := calculateAdjacent_calc ms0 hf
  have hs := calculateAdjacent_sameBut ms0 hf.wf
  refine ⟨(hs.cells x y hr).1, (hs.cells x y hr).2.1, ?_, (hs.cells x y hr).2.2⟩
  intro hm
  have hadj := hc.good x y hr trivial hm
  have hle := minedNeighbours_le ms0 x y
  rw [hadj]
  refine ⟨rfl, ?_, ?_⟩
  · exact Int.natCast_nonneg _
  · exact_mod_cast hle

set_option maxRecDepth 100000 in
/-- Witness of C13: on the Easy board with mines on the diagonal and at `(0, 8)`,
the cell `(1, 0)` has the two mined neighbours `(0, 0)` and `(1, 1)`. -/
theorem calculateAdjacent_counts_witness :
    minedNeighbours easyMines 1 0 = 2 ∧
    (cellAt (calculateAdjacent easyMines).Grid 1 0).Adjacent = 2 ∧
    ((cellAt (calculateAdjacent easyMines).Grid 1 0).IsMine = (cellAt easyMines.Grid 1 0).IsMine ∧
    (cellAt (calculateAdjacent easyMines).Grid 1 0).State = (cellAt easyMines.Grid 1 0).State ∧
    ((cellAt easyMines.Grid 1 0).IsMine = false →
      (cellAt (calculateAdjacent easyMines).Grid 1 0).Adjacent
        = (minedNeighbours easyMines 1 0 : Int) ∧
      0 ≤ (cellAt (calculateAdjacent easyMines).Grid 1 0).Adjacent ∧
      (cellAt (calculateAdjacent easyMines).Grid 1 0).Adjacent ≤ 8) ∧
    ((cellAt easyMines.Grid 1 0).IsMine = true →
      (cellAt (calculateAdjacent easyMines).Grid 1 0).Adjacent
        = (cellAt easyMines.Grid 1 0).Adjacent)) :=
  ⟨by decide, by decide,
    calculateAdjacent_counts 0 easyDraws easyMines easyMines_placed 1 0 (by decide)⟩

/-- C14: `NewMinesweeper` yields the preset of the difficulty (9x9 with 10 mines
for Easy, 16x16 with 40 for Medium, 30x16 with 99 for Hard, the Easy preset for
any other value), a grid of `Height` rows of `Width` cells that are all hidden,
`Flags = Revealed = 0` and `GameOver = Won = false`; and whenever placement
finishes, exactly `MineCount` cells are mined. -/
theorem NewMinesweeper_spec (difficulty : Int) (draws : List (Nat × Nat)) (ms : Minesweeper)
    (h : NewMinesweeper difficulty draws = some ms) :
    (ms.Width, ms.Height, ms.MineCount) =
      (if difficulty = 1 then (16, 16, 40) else if difficulty = 2 then (30, 16, 99)
       else (9, 9, 10)) ∧
    WellFormed ms ∧
    (∀ x y, InRange ms x y → (cellAt ms.Grid x y).State = CellState.CellHidden) ∧
    ms.Flags = 0 ∧ ms.Revealed = 0 ∧ ms.GameOver = false ∧ ms.Won = false ∧
    (mineTotal ms.Grid : Int) = ms.MineCount := by
  unfold NewMinesweeper at h
  simp only [Option.map_eq_some'] at h
  obtain ⟨ms0, hp, rfl⟩ := h
  have hpos := preset_pos difficulty
  have hfe := emptyBoard_fresh (preset difficulty).1 (preset difficulty).2.1
    (preset difficulty).2.2 hpos.1 hpos.2
  have hf0 := placeMines_fresh draws _ 0 ms0 hfe hp
  have hfields := placeMines_fields draws _ 0 ms0 hp
  have hmc : (0 : Int) ≤ (preset difficulty).2.2 := by
    unfold preset
    split_ifs <;> simp
  have htot := placeMines_total draws _ 0 ms0 hfe hmc
    (by unfold emptyBoard; simp only; rw [mineTotal_replicate]; rfl) hp
  have hc := calculateAdjacent_calc ms0 hf0
  have hs := calculateAdjacent_sameBut ms0 hf0.wf
  obtain ⟨hW, hH, hM, hFl, hRe, hGo, hWo⟩ := hfields
  refine ⟨?_, hs.wf, hc.fresh.allHidden, ?_, ?_, ?_, ?_, ?_⟩
  · rw [hs.width, hs.height, hs.mineCount, hW, hH, hM]
    unfold emptyBoard preset
    simp only
    split_ifs <;> simp_all
  · rw [hs.flags, hFl]; rfl
  · rw [hs.revealed, hRe]; rfl
  · rw [hs.gameOver, hGo]; rfl
  · rw [hs.won, hWo]; rfl
  · rw [hs.mines, hs.mineCount]
    exact htot

set_option maxRecDepth 100000 in
/-- Witness of C14: the Easy game built from ten draws that hit ten different cells. -/
theorem NewMinesweeper_spec_witness :
    mineTotal easyGame.Grid = 10 ∧
    ((easyGame.Width, easyGame.Height, easyGame.MineCount) =
      (if (0 : Int) = 1 then (16, 16, 40) else if (0 : Int) = 2 then (30, 16, 99)
       else (9, 9, 10)) ∧
    WellFormed easyGame ∧
    (∀ x y, InRange easyGame x y → (cellAt easyGame.Grid x y).State = CellState.CellHidden) ∧
    easyGame.Flags = 0 ∧ easyGame.Revealed = 0 ∧ easyGame.GameOver = false ∧
    easyGame.Won = false ∧ (mineTotal easyGame.Grid : Int) = easyGame.MineCount) :=
  ⟨by decide, NewMinesweeper_spec 0 easyDraws easyGame easyGame_new⟩

/-- C22: `revealCell` terminates on every well-formed board and at every start
coordinate. A recursion bound above the number of hidden cells is never
reached, and the result is the same for every such bound; a call that returns
at once (out of bounds, or a cell that is not hidden) leaves the engine as it
is, and every other call leaves strictly fewer hidden cells, so the number of
hidden cells is a strictly decreasing measure of the recursion. -/
theorem revealCell_total (s : Minesweeper) (x y : Int) (fuel : Nat) (hw : WellFormed s)
    (hlt : countState s.Grid CellState.CellHidden < fuel) :
    ∃ s', revealCell fuel s x y = some s' ∧
      (∀ fuel', countState s.Grid CellState.CellHidden < fuel' →
        revealCell fuel' s x y = some s') ∧
      (¬ (InRange s x y ∧ (cellAt s.Grid x y).State = CellState.CellHidden) → s' = s) ∧
      (InRange s x y ∧ (cellAt s.Grid x y).State = CellState.CellHidden →
        (cellAt s'.Grid x y).State = CellState.CellRevealed ∧
        countState s'.Grid CellState.CellHidden < countState s.Grid CellState.CellHidden) := by
  obtain ⟨s0, he0, hf0⟩ := revealCell_spec (countState s.Grid CellState.CellHidden + 1) s x y hw
    (Nat.lt_succ_self _)
  have hall : ∀ fuel', countState s.Grid CellState.CellHidden < fuel' →
      revealCell fuel' s x y = some s0 :=
    fun fuel' h => revealCell_mono _ fuel' s x y s0 h he0
  refine ⟨s0, hall fuel hlt, hall, ?_, ?_⟩
  · intro hn
    have he := he0
    rw [revealCell] at he
    by_cases hout : x < 0 ∨ x ≥ s.Width ∨ y < 0 ∨ y ≥ s.Height
    · rw [if_pos hout] at he
      cases he
      rfl
    · rw [if_neg hout] at he
      have hst : (cellAt s.Grid x y).State = CellState.CellRevealed ∨
          (cellAt s.Grid x y).State = CellState.CellFlagged := by
        by_contra hc
        exact hn ⟨hout, state_hidden_of_not _ hc⟩
      rw [if_pos hst] at he
      cases he
      rfl
  · rintro ⟨hr, hh⟩
    refine ⟨?_, revealCell_hidden_lt _ s s0 x y hw (Nat.lt_succ_self _) hr hh he0⟩
    have hnh := hf0.starts_done (x, y) (by simp) hr
    rcases hf0.grows.cells x y hr with e | ⟨_, e⟩
    · rw [e] at hnh
      exact absurd hh hnh
    · rw [e]

/-- Witness of C22: on the 3x3 board without mines, where every cell has
`Adjacent = 0`, the fill from the centre returns with no hidden cell left. -/
theorem revealCell_total_witness :
    (revealCell 10 (emptyBoard 3 3 0) 1 1).map
        (fun s => countState s.Grid CellState.CellHidden) = some 0 ∧
    ∃ s', revealCell 10 (emptyBoard 3 3 0) 1 1 = some s' ∧
      (∀ fuel', countState (emptyBoard 3 3 0).Grid CellState.CellHidden < fuel' →
        revealCell fuel' (emptyBoard 3 3 0) 1 1 = some s') ∧
      (¬ (InRange (emptyBoard 3 3 0) 1 1 ∧
          (cellAt (emptyBoard 3 3 0).Grid 1 1).State = CellState.CellHidden) →
        s' = emptyBoard 3 3 0) ∧
      (InRange (emptyBoard 3 3 0) 1 1 ∧
          (cellAt (emptyBoard 3 3 0).Grid 1 1).State = CellState.CellHidden →
        (cellAt s'.Grid 1 1).State = CellState.CellRevealed ∧
        countState s'.Grid CellState.CellHidden <
          countState (emptyBoard 3 3 0).Grid CellState.CellHidden) :=
  ⟨by decide, revealCell_total (emptyBoard 3 3 0) 1 1 10 (by decide) (by decide)⟩

/-- C24: in every state reachable from `NewMinesweeper` by `Reveal` and
`ToggleFlag` calls, `Won` is true if and only if every cell without a mine is
revealed; this is also exactly when the counter `Revealed` has the value
`Width * Height - MineCount` that `checkWin` tests for, so the test is neither
passed over nor met early; and `Won` implies `GameOver`. -/
theorem reachable_won_iff (ms : Minesweeper) (h : Reachable ms) :
    (ms.Won = true ↔ ∀ x y, InRange ms x y → (cellAt ms.Grid x y).IsMine = false →
      (cellAt ms.Grid x y).State = CellState.CellRevealed) ∧
    (ms.Revealed = ms.Width * ms.Height - ms.MineCount ↔
      ∀ x y, InRange ms x y → (cellAt ms.Grid x y).IsMine = false →
        (cellAt ms.Grid x y).State = CellState.CellRevealed) ∧
    (ms.Won = true → ms.GameOver = true) := by
  have hs := Reachable.winInv ms h
  have hfull := revealed_full_iff ms hs.base hs.mines
  exact ⟨hs.won.trans hfull, hfull, hs.over⟩

set_option maxRecDepth 1000000 in
/-- Witness of C24: the Easy game won by six reveals, with all 71 cells without
a mine revealed. -/
theorem reachable_won_iff_witness :
    (wonGame.Won = true ∧ wonGame.GameOver = true ∧ wonGame.Revealed = 71) ∧
    ((wonGame.Won = true ↔ ∀ x y, InRange wonGame x y →
      (cellAt wonGame.Grid x y).IsMine = false →
      (cellAt wonGame.Grid x y).State = CellState.CellRevealed) ∧
    (wonGame.Revealed = wonGame.Width * wonGame.Height - wonGame.MineCount ↔
      ∀ x y, InRange wonGame x y → (cellAt wonGame.Grid x y).IsMine = false →
        (cellAt wonGame.Grid x y).State = CellState.CellRevealed) ∧
    (wonGame.Won = true → wonGame.GameOver = true)) :=
  ⟨by decide, reachable_won_iff wonGame (Reachable.calls winCalls easyGame easyGame_reachable)⟩

end TermiPlay
